import Mathlib


/-!
A verification development for the text-buffer revision engine of the
`cozy-lapce` repository (`crates/doc/src/lines/buffer/mod.rs`) and its
side-by-side diff classifier (`crates/doc/src/lines/diff.rs`).

The buffer engine is embedded shallowly:

* A `Rope` is modelled as `List Char`.
* A `Subset` over a string of length `n` (the rope library's bitmask type)
  is modelled as a `List Bool` of length `n`; `true` marks membership.
* An insert-only delta (`InsertDelta`) is modelled as a list of
  `(copied-length, inserted-string)` pairs, mirroring the rope library's
  `Copy`/`Insert` element list with the copy intervals made relative.
* A freshly built `RopeDelta` (the output of `DeltaBuilder`) is modelled
  as its base length together with the sorted list of
  `(start, end, replacement)` region replacements.
* `BTreeSet<usize>` is modelled as a strictly sorted `List Nat`.

The rope/delta/subset library (`lapce_xi_rope`) is a collaborator crate
whose sources are not part of the repository snapshot; its operations
(`factor`, `transform_expand`, `transform_shrink`, `inserted_subset`,
`union`, `subtract`, `bitxor`, `complement`, `synthesize`, `apply`) are
modelled from the specification's description of the primitive
(spec §2 item 1, §6) on the representations above.  `Delta::synthesize`
followed by `apply` is modelled as one function `synthApply`, since the
buffer code always applies a synthesized delta immediately.
-/

/-! ### Subset operations (Modelled from the spec: the `Subset` bitmask
of the rope library, with union, subtraction, bitxor, complement,
transform-expand/shrink; not part of the provided sources). -/

/-- `Subset::union`: positions in either subset. -/
def subUnion (a b : List Bool) : List Bool := List.zipWith (fun x y => x || y) a b

/-- `Subset::subtract`: positions in `a` but not in `b`. -/
def subSub (a b : List Bool) : List Bool := List.zipWith (fun x y => x && !y) a b

/-- `Subset::bitxor`: symmetric difference of the two masks. -/
def subXor (a b : List Bool) : List Bool := List.zipWith (fun x y => xor x y) a b

/-- `Subset::complement`. -/
def subComp (a : List Bool) : List Bool := a.map (fun x => !x)

/-- `Subset::is_empty`: no position is a member. -/
def subIsEmpty (a : List Bool) : Bool := a.all (fun x => !x)

/-- `Subset::transform_expand` (and, with `fill := true`,
`Subset::transform_union`): re-express the mask `s` in the coordinates of
a larger string, where `o` marks the newly inserted positions.  Inserted
positions receive `fill`; the remaining positions receive the bits of `s`
in order. -/
def subExpandWith (fill : Bool) : List Bool → List Bool → List Bool
  | _, [] => []
  | s, true :: o => fill :: subExpandWith fill s o
  | [], false :: o => false :: subExpandWith fill [] o
  | b :: s, false :: o => b :: subExpandWith fill s o

/-- `Subset::transform_expand`. -/
def subExpand (s o : List Bool) : List Bool := subExpandWith false s o

/-- `Subset::transform_union`. -/
def subTransformUnion (s o : List Bool) : List Bool := subExpandWith true s o

/-- `Subset::transform_shrink`: keep the bits of `s` that sit at positions
not marked in `o` (the positions marked in `o` are removed from the
coordinate space). -/
def subShrink : List Bool → List Bool → List Bool
  | [], _ => []
  | _ :: _, [] => []
  | _ :: s, true :: o => subShrink s o
  | b :: s, false :: o => b :: subShrink s o

/-! ### Insert-only deltas (Modelled from the spec: the rope library's
`InsertDelta`, a `Copy`/`Insert` element list; a pair `(k, s)` copies `k`
characters of the base and then inserts `s`). -/

/-- Apply an insert-only delta to a string. -/
def insApply : List (Nat × List Char) → List Char → List Char
  | [], text => text
  | (k, s) :: rest, text => text.take k ++ s ++ insApply rest (text.drop k)

/-- `InsertDelta::inserted_subset`: the subset of the output string (base
of remaining length `n` plus insertions) occupied by the insertions. -/
def insSubset : List (Nat × List Char) → Nat → List Bool
  | [], n => List.replicate n false
  | (k, s) :: rest, n =>
      List.replicate k false ++ List.replicate s.length true ++ insSubset rest (n - k)

/-- Total number of characters inserted by an insert-only delta. -/
def insTotal : List (Nat × List Char) → Nat
  | [] => 0
  | (_, s) :: rest => s.length + insTotal rest

/-- Advance through the mask `m` past `k` unmarked positions and then past
any directly following marked positions (the `after = true` placement used
by `InsertDelta::transform_expand`): returns the number of mask entries
consumed and the remaining mask. -/
def advAfter : List Bool → Nat → Nat × List Bool
  | [], _ => (0, [])
  | true :: m, k => let p := advAfter m k; (p.1 + 1, p.2)
  | false :: m, 0 => (0, false :: m)
  | false :: m, k + 1 => let p := advAfter m k; (p.1 + 1, p.2)

/-- `InsertDelta::transform_expand(m, true)`: re-express the copy lengths
in the coordinates of the larger string whose extra positions are marked
in `m`, placing each insertion after any marked characters at its
boundary. -/
def expandIns : List Bool → List (Nat × List Char) → List (Nat × List Char)
  | _, [] => []
  | m, (k, s) :: rest =>
      let p := advAfter m k
      (p.1, s) :: expandIns p.2 rest

/-- `InsertDelta::transform_shrink(m)`: re-express the copy lengths in the
coordinates of the smaller string obtained by removing the positions
marked in `m`. -/
def shrinkIns : List Bool → List (Nat × List Char) → List (Nat × List Char)
  | _, [] => []
  | m, (k, s) :: rest => ((m.take k).count false, s) :: shrinkIns (m.drop k) rest

/-! ### Synthesize-and-apply, and the union-string projections. -/

/-- `Delta::synthesize(tomb, fromD, toD)` immediately applied to `text`
(Modelled from the spec: "given tombstones and old/new delete masks,
produce the delta that transforms old visible text into new visible
text").  `text` holds the characters at the unmarked positions of `fromD`,
`tomb` the characters at its marked positions; the result holds the
characters at the unmarked positions of `toD`. -/
def synthApply : List Char → List Char → List Bool → List Bool → List Char
  | text, tomb, false :: f, false :: g =>
      match text with
      | [] => []
      | c :: t2 => c :: synthApply t2 tomb f g
  | text, tomb, false :: f, true :: g =>
      match text with
      | [] => []
      | _ :: t2 => synthApply t2 tomb f g
  | text, tomb, true :: f, false :: g =>
      match tomb with
      | [] => []
      | c :: tb2 => c :: synthApply text tb2 f g
  | text, tomb, true :: f, true :: g =>
      match tomb with
      | [] => []
      | _ :: tb2 => synthApply text tb2 f g
  | _, _, _, _ => []

/-- The characters of the union string `u` at the positions not marked in
`m` (the visible text of the union-string model). -/
def projVis : List Char → List Bool → List Char
  | _, [] => []
  | [], _ :: _ => []
  | c :: u, false :: m => c :: projVis u m
  | _ :: u, true :: m => projVis u m

/-- The characters of the union string `u` at the positions marked in `m`
(the tombstones of the union-string model). -/
def projDel : List Char → List Bool → List Char
  | _, [] => []
  | [], _ :: _ => []
  | _ :: u, false :: m => projDel u m
  | c :: u, true :: m => c :: projDel u m

/-- Interleave visible text and tombstones according to the mask `m`,
recovering the union string. -/
def interleave : List Char → List Char → List Bool → List Char
  | _, _, [] => []
  | text, tomb, false :: m =>
      match text with
      | [] => []
      | c :: t2 => c :: interleave t2 tomb m
  | text, tomb, true :: m =>
      match tomb with
      | [] => []
      | c :: tb2 => c :: interleave text tb2 m

/-! ### Sorted-list sets (model of `BTreeSet<usize>`). -/

/-- Insert into a strictly sorted list of naturals. -/
def setInsert (x : Nat) : List Nat → List Nat
  | [] => [x]
  | y :: l => if x < y then x :: y :: l else if x = y then y :: l else y :: setInsert x l

/-- Remove from a strictly sorted list of naturals. -/
def setErase (x : Nat) : List Nat → List Nat
  | [] => []
  | y :: l => if x = y then l else y :: setErase x l

/-- Symmetric difference of two lists of naturals viewed as sets.  Every
consumer of a symmetric difference in the buffer code (`listMin`,
membership) is insensitive to element order, so the result need not be
re-sorted. -/
def setXor (a b : List Nat) : List Nat :=
  a.filter (fun x => !b.contains x) ++ b.filter (fun x => !a.contains x)

/-- Least element of a list of naturals, if any (model of
`BTreeSet::iter().next()` on a sorted set). -/
def listMin : List Nat → Option Nat
  | [] => none
  | x :: l =>
      match listMin l with
      | none => some x
      | some y => some (Nat.min x y)

/-! ### Diff classifier (`crates/doc/src/lines/diff.rs`). -/

/-- One segment of a three-way line diff.  Mirrors `DiffLines`
(defined in `crates/doc/src/lines/buffer/diff.rs`, outside the provided
sources; Modelled from the spec: segments tagged `Left(range)`,
`Right(range)`, or `Both {left, right, skip}`).  A range `a..b` is the
pair `(a, b)`. -/
inductive DiffLines where
  | left (range : Nat × Nat)
  | both (leftRange : Nat × Nat) (rightRange : Nat × Nat) (skip : Option (Nat × Nat))
  | right (range : Nat × Nat)
deriving DecidableEq, Repr

/-- `DiffResult` from `crates/doc/src/lines/diff.rs`. -/
inductive DiffResult where
  | empty (lines : Nat × Nat)
  | changed (lines : Nat × Nat)
deriving DecidableEq, Repr

/-- Length of a line range `a..b`. -/
def rangeLen (r : Nat × Nat) : Nat := r.2 - r.1

/-- The loop of `DiffInfo::left_changes`, with the peeked iterator made
explicit: the first argument is `next_left_change_line`. -/
def leftChangesGo : Option (Nat × Nat) → List DiffLines → List DiffResult
  | _, [] => []
  | _, .left diff :: .right rightDiff :: rest =>
      DiffResult.changed diff ::
        (if rangeLen diff < rangeLen rightDiff then
          [DiffResult.empty (diff.2, diff.2 + rangeLen rightDiff - rangeLen diff)]
        else []) ++ leftChangesGo (some diff) rest
  | _, .left diff :: .left d2 :: rest =>
      DiffResult.changed diff :: leftChangesGo (some diff) (.left d2 :: rest)
  | _, .left diff :: .both a b sk :: rest =>
      DiffResult.changed diff :: leftChangesGo (some diff) (.both a b sk :: rest)
  | _, [.left diff] => [DiffResult.changed diff]
  | _, .both l _ _ :: rest => leftChangesGo (some l) rest
  | nextLeft, .right diff :: rest =>
      (match nextLeft with
        | none => DiffResult.empty (0, rangeLen diff)
        | some lines => DiffResult.empty (lines.2, lines.2 + rangeLen diff)) ::
        leftChangesGo nextLeft rest

/-- The loop of `DiffInfo::right_changes`, with the peeked iterator made
explicit: the first argument is `next_right_change_line`. -/
def rightChangesGo : Option (Nat × Nat) → List DiffLines → List DiffResult
  | _, [] => []
  | _, .left leftDiff :: .right diff :: rest =>
      DiffResult.changed diff ::
        (if rangeLen diff < rangeLen leftDiff then
          [DiffResult.empty (diff.2, diff.2 + rangeLen leftDiff - rangeLen diff)]
        else []) ++ rightChangesGo (some diff) rest
  | nextRight, .left leftDiff :: .left d2 :: rest =>
      (match nextRight with
        | none => DiffResult.empty (0, rangeLen leftDiff)
        | some lines => DiffResult.empty (lines.2, lines.2 + rangeLen leftDiff)) ::
        rightChangesGo nextRight (.left d2 :: rest)
  | nextRight, .left leftDiff :: .both a b sk :: rest =>
      (match nextRight with
        | none => DiffResult.empty (0, rangeLen leftDiff)
        | some lines => DiffResult.empty (lines.2, lines.2 + rangeLen leftDiff)) ::
        rightChangesGo nextRight (.both a b sk :: rest)
  | nextRight, [.left leftDiff] =>
      [match nextRight with
        | none => DiffResult.empty (0, rangeLen leftDiff)
        | some lines => DiffResult.empty (lines.2, lines.2 + rangeLen leftDiff)]
  | _, .both _ r _ :: rest => rightChangesGo (some r) rest
  | nextRight, .right diff :: rest =>
      (match nextRight with
        | none => DiffResult.changed (0, rangeLen diff)
        | some lines => DiffResult.changed (lines.2, lines.2 + rangeLen diff)) ::
        rightChangesGo nextRight rest

/-- `DiffInfo` from `crates/doc/src/lines/diff.rs`. -/
structure DiffInfo where
  is_right : Bool
  changes : List DiffLines

/-- `DiffInfo::left_changes`. -/
def DiffInfo.left_changes (d : DiffInfo) : List DiffResult :=
  leftChangesGo none d.changes

/-- `DiffInfo::right_changes`. -/
def DiffInfo.right_changes (d : DiffInfo) : List DiffResult :=
  rightChangesGo none d.changes

/-- `DiffInfo::changes`. -/
def DiffInfo.results (d : DiffInfo) : List DiffResult :=
  if d.is_right then d.right_changes else d.left_changes

/-! ### Edit types and line endings. -/

/-- `EditType` (defined in `crates/doc/src/lines/edit.rs`, outside the
provided sources; Modelled from the spec: edit classifications used for
undo-group coalescing, including insertion, deletion, undo, redo and a
generic "other"). -/
inductive EditType where
  | InsertChars
  | InsertNewline
  | Delete
  | Undo
  | Redo
  | NormalizeLineEndings
  | Other
deriving DecidableEq, Repr

/-- `EditType::breaks_undo_group` (Modelled from the spec: consecutive
edits of compatible type — repeated character insertion, or repeated
deletion — share one undo group; any other pair of edit types, and in
particular explicit Undo/Redo commands, breaks grouping). -/
def EditType.breaks_undo_group (this previous : EditType) : Bool :=
  !(((this == EditType.InsertChars) || (this == EditType.Delete)) && (this == previous))

/-- Line-ending style (from `crates/doc/src/lines/line_ending.rs`, outside
the provided sources; Modelled from the spec: the line-ending
detection/normalization utility applied before any delta is built). -/
inductive LineEnding where
  | Lf
  | CrLf
deriving DecidableEq, Repr

/-- The characters of one line ending. -/
def LineEnding.chars : LineEnding → List Char
  | .Lf => ['\n']
  | .CrLf => ['\r', '\n']

/-- `LineEndingDetermination::determine` (Modelled from the spec:
auto-detect the line-ending style from the first line break found). -/
def determineLineEnding : List Char → Option LineEnding
  | [] => none
  | '\r' :: '\n' :: _ => some .CrLf
  | '\n' :: _ => some .Lf
  | _ :: rest => determineLineEnding rest

/-- `LineEnding::normalize_limited` (Modelled from the spec: get rid of
lone carriage returns, which the rope does not treat as line endings,
while leaving everything else untouched). -/
def LineEnding.normalize_limited (le : LineEnding) : List Char → List Char
  | [] => []
  | '\r' :: '\n' :: rest => '\r' :: '\n' :: le.normalize_limited rest
  | '\r' :: rest => le.chars ++ le.normalize_limited rest
  | c :: rest => c :: le.normalize_limited rest

/-- `LineEnding::normalize` (Modelled from the spec: rewrite every line
break of the text to this line ending). -/
def LineEnding.normalize (le : LineEnding) : List Char → List Char
  | [] => []
  | '\r' :: '\n' :: rest => le.chars ++ le.normalize rest
  | '\r' :: rest => le.chars ++ le.normalize rest
  | '\n' :: rest => le.chars ++ le.normalize rest
  | c :: rest => c :: le.normalize rest

/-! ### The revision log and the buffer
(`crates/doc/src/lines/buffer/mod.rs`). -/

/-- `Contents`: the payload of one revision. -/
inductive Contents where
  | edit (undo_group : Nat) (inserts : List Bool) (deletes : List Bool)
  | undo (toggled_groups : List Nat) (deletes_bitxor : List Bool)

/-- `Revision`.  The `cursor_before`/`cursor_after` fields are omitted:
`CursorMode` is defined outside the provided sources and no claim
concerns cursor restoration. -/
structure Revision where
  num : Nat
  max_undo_so_far : Nat
  edit : Contents

/-- The sentinel revision placed at index 0 by `Buffer::new`. -/
def sentinelRevision : Revision :=
  { num := 0, max_undo_so_far := 0, edit := .undo [] [] }

/-- `Buffer`.  `atomic_rev` (an `Arc<AtomicU64>` in the source) is
modelled as a plain counter: the claims under consideration are
single-threaded.  The `indent_style` field is omitted (`IndentStyle` is
defined outside the provided sources and irrelevant to every claim). -/
structure Buffer where
  rev_counter : Nat
  pristine_rev_id : Nat
  atomic_rev : Nat
  text : List Char
  revs : List Revision
  cur_undo : Nat
  undos : List Nat
  undo_group_id : Nat
  live_undos : List Nat
  deletes_from_union : List Bool
  undone_groups : List Nat
  tombstones : List Char
  this_edit_type : EditType
  last_edit_type : EditType
  line_ending : LineEnding

/-- `Buffer::new`. -/
def Buffer.new (text : List Char) : Buffer :=
  let lineEnding := (determineLineEnding text).getD LineEnding.Lf
  let text := lineEnding.normalize_limited text
  { rev_counter := 1
    pristine_rev_id := 0
    atomic_rev := 0
    text := text
    revs := [sentinelRevision]
    cur_undo := 1
    undos := []
    undo_group_id := 1
    live_undos := [0]
    deletes_from_union := List.replicate text.length false
    undone_groups := []
    tombstones := []
    this_edit_type := EditType.Other
    last_edit_type := EditType.Other
    line_ending := lineEnding }

/-- The last revision of the log (`self.revs.last().unwrap()`; the log is
never empty in a reachable buffer). -/
def Buffer.lastRev (b : Buffer) : Revision := b.revs.getLastD sentinelRevision

/-- `Buffer::rev`. -/
def Buffer.rev (b : Buffer) : Nat := b.lastRev.num

/-- `Buffer::set_pristine`. -/
def Buffer.set_pristine (b : Buffer) : Buffer := { b with pristine_rev_id := b.rev }

/-- `Buffer::find_rev`: index of the last revision with the given number. -/
def findRevAux : List Revision → Nat → Option Nat
  | [], _ => none
  | r :: rest, revId =>
      match findRevAux rest revId with
      | some j => some (j + 1)
      | none => if r.num = revId then some 0 else none

/-- `Buffer::find_rev`. -/
def Buffer.find_rev (b : Buffer) (revId : Nat) : Option Nat := findRevAux b.revs revId

/-- One backward step of `deletes_from_union_before_index`: undo the
effect of revision `r` on the pair (mask, undone-groups). -/
def bwdStep (invert_undos : Bool) (r : Revision) :
    List Bool × List Nat → List Bool × List Nat
  | (dfu, und) =>
    match r.edit with
    | .edit g ins dels =>
        if und.contains g then (subShrink dfu ins, und)
        else (subShrink (subSub dfu dels) ins, und)
    | .undo toggled bx =>
        if invert_undos then (subXor dfu bx, setXor und toggled) else (dfu, und)

/-- `Buffer::deletes_from_union_before_index`. -/
def Buffer.deletes_from_union_before_index (b : Buffer) (revIndex : Nat)
    (invert_undos : Bool) : List Bool :=
  ((b.revs.drop revIndex).foldr (bwdStep invert_undos)
    (b.deletes_from_union, b.undone_groups)).1

/-- `Buffer::deletes_from_union_for_index`. -/
def Buffer.deletes_from_union_for_index (b : Buffer) (revIndex : Nat) : List Bool :=
  b.deletes_from_union_before_index (revIndex + 1) true

/-- `Buffer::deletes_from_cur_union_for_index`. -/
def Buffer.deletes_from_cur_union_for_index (b : Buffer) (revIndex : Nat) : List Bool :=
  (b.revs.drop (revIndex + 1)).foldl
    (fun dfu r =>
      match r.edit with
      | .edit _ ins _ => if subIsEmpty ins then dfu else subTransformUnion dfu ins
      | .undo _ _ => dfu)
    (b.deletes_from_union_for_index revIndex)

/-- `Buffer::is_equivalent_revision`. -/
def Buffer.is_equivalent_revision (b : Buffer) (baseRev otherRev : Nat) : Bool :=
  let baseSubset := (b.find_rev baseRev).map (fun i => b.deletes_from_cur_union_for_index i)
  let otherSubset := (b.find_rev otherRev).map (fun i => b.deletes_from_cur_union_for_index i)
  baseSubset.isSome && baseSubset == otherSubset

/-- `Buffer::is_pristine`. -/
def Buffer.is_pristine (b : Buffer) : Bool :=
  b.is_equivalent_revision b.pristine_rev_id b.rev

/-- `Buffer::calculate_undo_group`: returns the undo group for the
incoming edit together with the updated buffer. -/
def Buffer.calculate_undo_group (b : Buffer) : Nat × Buffer :=
  let has_undos := !b.live_undos.isEmpty
  let is_unbroken_group := !(b.this_edit_type.breaks_undo_group b.last_edit_type)
  if has_undos && is_unbroken_group then
    (b.live_undos.getLastD 0, b)
  else
    let undo_group := b.undo_group_id
    (undo_group,
      { b with
        live_undos := b.live_undos.take b.cur_undo ++ [undo_group]
        cur_undo := b.cur_undo + 1
        undo_group_id := b.undo_group_id + 1 })

/-- A freshly built `RopeDelta` (the output of `DeltaBuilder`): the base
length and the sorted list of `(start, end, replacement)` region
replacements (Modelled from the spec: a delta is a sequence of
Copy/Insert operations transforming one rope into another). -/
structure OpDelta where
  base_len : Nat
  ops : List (Nat × Nat × List Char)

/-- `Delta::factor`, insert part: the insert-only delta of the region
list, with each replacement inserted just before the range it deletes. -/
def factorIns : Nat → List (Nat × Nat × List Char) → List (Nat × List Char)
  | _, [] => []
  | pos, (s, _, r) :: rest => (s - pos, r) :: factorIns s rest

/-- `Delta::factor`, delete part: the subset of the base string removed by
the region list. -/
def factorDel (n : Nat) : Nat → List (Nat × Nat × List Char) → List Bool
  | pos, [] => List.replicate (n - pos) false
  | pos, (s, e, _) :: rest =>
      List.replicate (s - pos) false ++ List.replicate (e - s) true ++ factorDel n e rest

/-- `shuffle_tombstones` (file-level function of `buffer/mod.rs`). -/
def shuffle_tombstones (text tombstones : List Char)
    (old_deletes_from_union new_deletes_from_union : List Bool) : List Char :=
  synthApply tombstones text (subComp old_deletes_from_union)
    (subComp new_deletes_from_union)

/-- `shuffle` (file-level function of `buffer/mod.rs`). -/
def shuffle (text tombstones : List Char)
    (old_deletes_from_union new_deletes_from_union : List Bool) :
    List Char × List Char :=
  (synthApply text tombstones old_deletes_from_union new_deletes_from_union,
    shuffle_tombstones text tombstones old_deletes_from_union new_deletes_from_union)

/-- `Buffer::mk_new_rev`.  The store to `atomic_rev` performed here in the
source is carried out by `apply_edit` in this model (same value, same
revision). -/
def Buffer.mk_new_rev (b : Buffer) (undo_group : Nat) (delta : OpDelta) :
    Revision × List Char × List Char × List Bool :=
  let ins_delta := factorIns 0 delta.ops
  let deletes := factorDel delta.base_len 0 delta.ops
  let deletes_at_rev := b.deletes_from_union
  let union_ins_delta := expandIns deletes_at_rev ins_delta
  let new_deletes0 := subExpand deletes deletes_at_rev
  let new_inserts := insSubset union_ins_delta deletes_at_rev.length
  let new_deletes :=
    if subIsEmpty new_inserts then new_deletes0 else subExpand new_deletes0 new_inserts
  let text_ins_delta := shrinkIns deletes_at_rev union_ins_delta
  let text_with_inserts := insApply text_ins_delta b.text
  let rebased_deletes_from_union := subExpand deletes_at_rev new_inserts
  let undone := b.undone_groups.contains undo_group
  let to_delete := if undone then new_inserts else new_deletes
  let new_deletes_from_union := subUnion rebased_deletes_from_union to_delete
  let p := shuffle text_with_inserts b.tombstones rebased_deletes_from_union
    new_deletes_from_union
  ({ num := b.rev_counter
     max_undo_so_far := Nat.max undo_group b.lastRev.max_undo_so_far
     edit := .edit undo_group new_inserts new_deletes },
   p.1, p.2, new_deletes_from_union)

/-- `Buffer::apply_edit`.  The `InvalLines` computation is omitted: it is
derived display data (start line and line counts of the change) consumed
by the rendering layer and constrained by no claim.  The `atomic_rev`
store performed by `mk_new_rev`/`compute_undo` in the source is installed
here with the same value (`rev_counter` before the increment). -/
def Buffer.apply_edit (b : Buffer) (new_rev : Revision)
    (new_text new_tombstones : List Char) (new_deletes_from_union : List Bool) :
    Buffer :=
  { b with
    rev_counter := b.rev_counter + 1
    atomic_rev := b.rev_counter
    revs := b.revs ++ [new_rev]
    text := new_text
    tombstones := new_tombstones
    deletes_from_union := new_deletes_from_union }

/-- `Buffer::add_delta`: returns the updated buffer and the text from
before the edit. -/
def Buffer.add_delta (b : Buffer) (delta : OpDelta) : Buffer × List Char :=
  let text := b.text
  let p := b.calculate_undo_group
  let b1 := { p.2 with last_edit_type := p.2.this_edit_type }
  let q := b1.mk_new_rev p.1 delta
  (b1.apply_edit q.1 q.2.1 q.2.2.1 q.2.2.2, text)

/-- The interval list built by the first loop of `Buffer::edit`: one
`(region.min, region.max, rope)` triple per selection region. -/
def editIntervals (edits : List (List (Nat × Nat) × List Char)) :
    List (Nat × Nat × List Char) :=
  (edits.map (fun e =>
    e.1.map (fun r => (Nat.min r.1 r.2, Nat.max r.1 r.2, e.2)))).flatten

/-- The interval comparator of `Buffer::edit`. -/
def cmpInterval (a b : Nat × Nat × List Char) : Ordering :=
  if a.1 = b.1 ∧ a.2.1 = b.2.1 then Ordering.eq
  else if a.2.1 = b.1 then Ordering.lt
  else compare a.2.1 b.1

/-- Insert `x` after every element that does not compare greater
(stable insertion, matching `Vec::sort_by`). -/
def sortedInsert (x : Nat × Nat × List Char) :
    List (Nat × Nat × List Char) → List (Nat × Nat × List Char)
  | [] => [x]
  | y :: l =>
      if cmpInterval y x ≠ Ordering.gt then y :: sortedInsert x l else x :: y :: l

/-- Stable sort with `cmpInterval` (model of `Vec::sort_by`). -/
def sortIntervals (l : List (Nat × Nat × List Char)) : List (Nat × Nat × List Char) :=
  l.foldl (fun acc x => sortedInsert x acc) []

/-- The sorted, line-ending-normalized operation list of `Buffer::edit`. -/
def Buffer.editOps (b : Buffer) (edits : List (List (Nat × Nat) × List Char)) :
    List (Nat × Nat × List Char) :=
  (sortIntervals (editIntervals edits)).map
    (fun op => (op.1, op.2.1, b.line_ending.normalize op.2.2))

/-- `Buffer::edit`: returns the updated buffer and the text from before
the edit. -/
def Buffer.edit (b : Buffer) (edits : List (List (Nat × Nat) × List Char))
    (edit_type : EditType) : Buffer × List Char :=
  let delta : OpDelta := { base_len := b.text.length, ops := b.editOps edits }
  let b1 := { b with this_edit_type := edit_type }
  b1.add_delta delta

/-- `Buffer::reload`: returns the updated buffer and the text from before
the reload. -/
def Buffer.reload (b : Buffer) (content : List Char) (setPristine : Bool) :
    Buffer × List Char :=
  let lineEnding := (determineLineEnding content).getD b.line_ending
  let content := lineEnding.normalize_limited content
  let delta : OpDelta := { base_len := b.text.length, ops := [(0, b.text.length, content)] }
  let b1 := { b with line_ending := lineEnding, this_edit_type := EditType.Other }
  let p := b1.add_delta delta
  (if setPristine then p.1.set_pristine else p.1, p.2)

/-- `Buffer::find_first_undo_candidate_index`, inner scan: one past the
index of the last revision whose `max_undo_so_far` is below `lowest`, or
`0` if there is none. -/
def lastBelow : List Revision → Nat → Nat
  | [], _ => 0
  | r :: rest, lowest =>
      let t := lastBelow rest lowest
      if t = 0 then (if r.max_undo_so_far < lowest then 1 else 0) else t + 1

/-- `Buffer::find_first_undo_candidate_index`. -/
def Buffer.find_first_undo_candidate_index (b : Buffer) (toggled_groups : List Nat) :
    Nat :=
  match listMin toggled_groups with
  | some lowest => lastBelow b.revs lowest
  | none => b.revs.length

/-- One forward step of the `compute_undo` replay. -/
def fwdStep (groups : List Nat) (dfu : List Bool) (r : Revision) : List Bool :=
  match r.edit with
  | .edit g ins dels =>
      if groups.contains g then
        if subIsEmpty ins then dfu else subTransformUnion dfu ins
      else
        let d1 := if subIsEmpty ins then dfu else subExpand dfu ins
        if subIsEmpty dels then d1 else subUnion d1 dels
  | .undo _ _ => dfu

/-- `Buffer::compute_undo`.  Cursor restoration is omitted together with
the cursor fields of `Revision`. -/
def Buffer.compute_undo (b : Buffer) (groups : List Nat) : Revision × List Bool :=
  let toggled_groups := setXor b.undone_groups groups
  let first_candidate := b.find_first_undo_candidate_index toggled_groups
  let dfu0 := b.deletes_from_union_before_index first_candidate false
  let deletes_from_union := (b.revs.drop first_candidate).foldl (fwdStep groups) dfu0
  let deletes_bitxor := subXor b.deletes_from_union deletes_from_union
  ({ num := b.rev_counter
     max_undo_so_far := b.lastRev.max_undo_so_far
     edit := .undo toggled_groups deletes_bitxor },
   deletes_from_union)

/-- `Buffer::undo` (the private group-toggling primitive): returns the
updated buffer and the text from before the toggle. -/
def Buffer.undo (b : Buffer) (groups : List Nat) : Buffer × List Char :=
  let text := b.text
  let p := b.compute_undo groups
  let new_text := synthApply b.text b.tombstones b.deletes_from_union p.2
  let new_tombstones := shuffle_tombstones b.text b.tombstones b.deletes_from_union p.2
  let b1 := { b with undone_groups := groups }
  (b1.apply_edit p.1 new_text new_tombstones p.2, text)

/-- `Buffer::do_undo`: returns the updated buffer, and `some` of the text
from before the undo when anything happened. -/
def Buffer.do_undo (b : Buffer) : Buffer × Option (List Char) :=
  if b.cur_undo ≤ 1 then (b, none)
  else
    let b1 := { b with cur_undo := b.cur_undo - 1 }
    let b2 := { b1 with
      undos := setInsert (b1.live_undos.getD b1.cur_undo 0) b1.undos
      last_edit_type := EditType.Undo }
    let p := b2.undo b2.undos
    (p.1, some p.2)

/-- `Buffer::do_redo`: returns the updated buffer, and `some` of the text
from before the redo when anything happened. -/
def Buffer.do_redo (b : Buffer) : Buffer × Option (List Char) :=
  if b.cur_undo ≥ b.live_undos.length then (b, none)
  else
    let b1 := { b with
      undos := setErase (b.live_undos.getD b.cur_undo 0) b.undos
      cur_undo := b.cur_undo + 1
      last_edit_type := EditType.Redo }
    let p := b1.undo b1.undos
    (p.1, some p.2)

/-- The undo group of every revision in the log (`none` for `Undo`
revisions). -/
def undoGroupsOf (b : Buffer) : List (Option Nat) :=
  b.revs.map (fun r =>
    match r.edit with
    | .edit g _ _ => some g
    | .undo _ _ => none)

/-! ### Well-formed region lists and reachable buffers. -/

/-- Well-formedness of a sorted region-replacement list over a base of
length `n`, starting at position `pos`: regions are ordered and in
bounds.  Overlapping regions make `DeltaBuilder` panic in the source, so
edits are constrained to well-formed region lists. -/
def WFfrom : Nat → Nat → List (Nat × Nat × List Char) → Prop
  | pos, n, [] => pos ≤ n
  | pos, n, (s, e, _) :: rest => pos ≤ s ∧ s ≤ e ∧ WFfrom e n rest

/-- The buffer states reachable from `new()` by `edit`, `reload`,
`do_undo` and `do_redo` (with well-formed, non-conflicting edit
regions). -/
inductive Reach : Buffer → Prop
  | new (s : List Char) : Reach (Buffer.new s)
  | edit (b : Buffer) (edits : List (List (Nat × Nat) × List Char)) (ty : EditType) :
      Reach b → WFfrom 0 b.text.length (b.editOps edits) → Reach (b.edit edits ty).1
  | reload (b : Buffer) (content : List Char) (setP : Bool) :
      Reach b → Reach (b.reload content setP).1
  | undo (b : Buffer) : Reach b → Reach b.do_undo.1
  | redo (b : Buffer) : Reach b → Reach b.do_redo.1

/-! ### The structural invariant of reachable buffers. -/

/-- Structural bookkeeping invariants of a reachable `Buffer`. -/
structure Inv1 (b : Buffer) : Prop where
  revs_ne : b.revs ≠ []
  counter_eq : b.rev_counter = b.lastRev.num + 1
  cur_lo : 1 ≤ b.cur_undo
  cur_hi : b.cur_undo ≤ b.live_undos.length
  live_ne : b.live_undos ≠ []
  live_lt : ∀ g ∈ b.live_undos, g < b.undo_group_id
  gid_pos : 1 ≤ b.undo_group_id
  undos_eq : b.undos = b.undone_groups
  undos_lt : ∀ g ∈ b.undos, g < b.undo_group_id
  undos_sorted : b.undos.Pairwise (· < ·)
  max_lt : ∀ r ∈ b.revs, r.max_undo_so_far < b.undo_group_id
  coal : b.last_edit_type = EditType.InsertChars ∨ b.last_edit_type = EditType.Delete →
    b.live_undos.getLastD 0 ∉ b.undos

/-- The branch condition of `calculate_undo_group`. -/
def calcCond (b : Buffer) : Bool :=
  !b.live_undos.isEmpty && !(b.this_edit_type.breaks_undo_group b.last_edit_type)

instance WFfrom.dec : (pos n : Nat) → (l : List (Nat × Nat × List Char)) →
    Decidable (WFfrom pos n l)
  | pos, n, [] => inferInstanceAs (Decidable (pos ≤ n))
  | pos, n, (s, e, _) :: rest =>
      have : Decidable (WFfrom e n rest) := WFfrom.dec e n rest
      inferInstanceAs (Decidable (pos ≤ s ∧ s ≤ e ∧ WFfrom e n rest))

/-! ### Lemmas about insert-only deltas. -/

/-- The copy lengths of an insert-only delta fit within a base of length
`n`. -/
def skipsLE : List (Nat × List Char) → Nat → Prop
  | [], _ => True
  | (k, _) :: rest, n => k ≤ n ∧ skipsLE rest (n - k)

/-! ### Characterization of `mk_new_rev` through the union-string model. -/

/-- The recorded `inserts` subset of an edit built from `ops` against the
mask `m`. -/
def editIns (m : List Bool) (ops : List (Nat × Nat × List Char)) : List Bool :=
  insSubset (expandIns m (factorIns 0 ops)) m.length

/-- The deleted subset of an edit in old-union coordinates. -/
def editDelOld (n : Nat) (m : List Bool) (ops : List (Nat × Nat × List Char)) :
    List Bool :=
  subExpand (factorDel n 0 ops) m

/-- The new deletes-from-union mask produced by an edit whose group is not
currently undone. -/
def editNewDfu (n : Nat) (m : List Bool) (ops : List (Nat × Nat × List Char)) :
    List Bool :=
  subExpandWith false (subUnion m (editDelOld n m ops)) (editIns m ops)

/-- The union string after an edit: the expanded insert-only delta applied
to the previous union string. -/
def editUnion (m : List Bool) (u : List Char) (ops : List (Nat × Nat × List Char)) :
    List Char :=
  insApply (expandIns m (factorIns 0 ops)) u

/-- The length constraint a revision imposes on the union string it was
applied to: an edit's recorded `inserts` subset must shrink back to the
previous union length, and its `deletes` subset lives in the new union. -/
def revIn (L : Nat) (r : Revision) : Prop :=
  match r.edit with
  | .edit _ ins dels => ins.count false = L ∧ dels.length = ins.length
  | .undo _ _ => True

/-- The union-string length after a revision. -/
def revOut (L : Nat) (r : Revision) : Nat :=
  match r.edit with
  | .edit _ ins _ => ins.length
  | .undo _ _ => L

/-- The length constraints of a revision log starting from union length
`L`. -/
def LensFrom : Nat → List Revision → Prop
  | _, [] => True
  | L, r :: rest => revIn L r ∧ LensFrom (revOut L r) rest

/-- The union-string length after a revision log starting from `L`. -/
def lensEnd : Nat → List Revision → Nat
  | L, [] => L
  | L, r :: rest => lensEnd (revOut L r) rest

/-! ### The union-string length invariant. -/

/-- The length invariants of a reachable buffer: the deletes-from-union
subset spans the union string (visible text plus tombstones), its deleted
positions count the tombstones, and the revision log's recorded subsets
chain together over the union lengths. -/
structure Inv2 (b : Buffer) : Prop where
  li1 : b.deletes_from_union.length = b.text.length + b.tombstones.length
  li2 : b.deletes_from_union.count true = b.tombstones.length
  chain : ∃ L0, LensFrom L0 b.revs
    ∧ lensEnd L0 b.revs = b.deletes_from_union.length

/-- The buffer state on which `mk_new_rev` runs during an edit whose type
breaks the previous undo group: `calculate_undo_group` has pushed a fresh
group and `add_delta` has promoted `this_edit_type`. -/
def editBumped (b : Buffer) (ty : EditType) : Buffer :=
  { b with
    this_edit_type := ty
    last_edit_type := ty
    live_undos := b.live_undos.take b.cur_undo ++ [b.undo_group_id]
    cur_undo := b.cur_undo + 1
    undo_group_id := b.undo_group_id + 1 }

/-- The expanded mask with which an edit's own inserts are marked deleted
when its group is toggled off: the previous deletes-from-union transformed
into the new union with the inserted positions filled as deleted. -/
def editT (m : List Bool) (ops : List (Nat × Nat × List Char)) : List Bool :=
  subTransformUnion m (editIns m ops)

/-- The revision recorded for a group-breaking edit with operation list
`ops` applied to `b`. -/
@[reducible] def editRevOf (b : Buffer) (ops : List (Nat × Nat × List Char)) :
    Revision :=
  { num := b.rev_counter,
     max_undo_so_far := Nat.max b.undo_group_id b.lastRev.max_undo_so_far,
     edit := Contents.edit b.undo_group_id (editIns b.deletes_from_union ops)
       (subExpand (editDelOld b.text.length b.deletes_from_union ops)
         (editIns b.deletes_from_union ops)) }

/-- The revision recorded when the group of that edit is immediately
toggled off by `do_undo`. -/
@[reducible] def undoRevOf (b : Buffer) (ops : List (Nat × Nat × List Char)) :
    Revision :=
  { num := b.rev_counter + 1,
     max_undo_so_far := Nat.max b.undo_group_id b.lastRev.max_undo_so_far,
     edit := Contents.undo [b.undo_group_id]
       (subXor (editNewDfu b.text.length b.deletes_from_union ops)
         (editT b.deletes_from_union ops)) }

/-- The buffer on which `do_undo` invokes `undo` after a group-breaking
edit. -/
@[reducible] def undoPrepped (b : Buffer)
    (edits : List (List (Nat × Nat) × List Char)) (ty : EditType) : Buffer :=
  { (b.edit edits ty).1 with
     cur_undo := b.cur_undo,
     undos := setInsert b.undo_group_id b.undos,
     last_edit_type := EditType.Undo }

/-- The buffer on which `do_redo` invokes `undo` after that `do_undo`. -/
@[reducible] def redoPrepped (b : Buffer)
    (edits : List (List (Nat × Nat) × List Char)) (ty : EditType) : Buffer :=
  { ((undoPrepped b edits ty).undo (setInsert b.undo_group_id b.undos)).1 with
     undos := b.undos,
     cur_undo := b.cur_undo + 1,
     last_edit_type := EditType.Redo }

/-! ### Claim theorems: concrete scenarios. -/

/-- Claim C8: for the diff segment list `[Left(0..2), Right(0..3)]`,
`left_changes()` returns exactly `[Changed{lines: 0..2}, Empty{lines: 2..3}]`
and `right_changes()` returns exactly `[Changed{lines: 0..3}]`. -/
theorem c8_diff_classifier_example :
    (DiffInfo.mk false [DiffLines.left (0, 2), DiffLines.right (0, 3)]).left_changes
        = [DiffResult.changed (0, 2), DiffResult.empty (2, 3)]
      ∧ (DiffInfo.mk false [DiffLines.left (0, 2), DiffLines.right (0, 3)]).right_changes
        = [DiffResult.changed (0, 3)] := by
  constructor <;> rfl

/-- Claim C5: typing three characters as three consecutive `edit()` calls
of non-breaking type yields one undo group shared by all three `Edit`
revisions, and one `do_undo()` removes all three characters; with a
grouping-breaking edit type on the third character there are two groups,
a single `do_undo()` leaves the first two characters, and a second
`do_undo()` reverts everything. -/
theorem c5_group_coalescing :
    ((((Buffer.new []).edit [([(0, 0)], ['a'])] EditType.InsertChars).1.edit [([(1, 1)], ['b'])] EditType.InsertChars).1.edit [([(2, 2)], ['c'])] EditType.InsertChars).1.text = ['a', 'b', 'c']
      ∧ undoGroupsOf ((((Buffer.new []).edit [([(0, 0)], ['a'])] EditType.InsertChars).1.edit [([(1, 1)], ['b'])] EditType.InsertChars).1.edit [([(2, 2)], ['c'])] EditType.InsertChars).1 = [none, some 1, some 1, some 1]
      ∧ ((((Buffer.new []).edit [([(0, 0)], ['a'])] EditType.InsertChars).1.edit [([(1, 1)], ['b'])] EditType.InsertChars).1.edit [([(2, 2)], ['c'])] EditType.InsertChars).1.do_undo.2.isSome = true
      ∧ ((((Buffer.new []).edit [([(0, 0)], ['a'])] EditType.InsertChars).1.edit [([(1, 1)], ['b'])] EditType.InsertChars).1.edit [([(2, 2)], ['c'])] EditType.InsertChars).1.do_undo.1.text = []
      ∧ undoGroupsOf ((((Buffer.new []).edit [([(0, 0)], ['a'])] EditType.InsertChars).1.edit [([(1, 1)], ['b'])] EditType.InsertChars).1.edit [([(2, 2)], ['c'])] EditType.Other).1 = [none, some 1, some 1, some 2]
      ∧ ((((Buffer.new []).edit [([(0, 0)], ['a'])] EditType.InsertChars).1.edit [([(1, 1)], ['b'])] EditType.InsertChars).1.edit [([(2, 2)], ['c'])] EditType.Other).1.do_undo.2.isSome = true
      ∧ ((((Buffer.new []).edit [([(0, 0)], ['a'])] EditType.InsertChars).1.edit [([(1, 1)], ['b'])] EditType.InsertChars).1.edit [([(2, 2)], ['c'])] EditType.Other).1.do_undo.1.text = ['a', 'b']
      ∧ ((((Buffer.new []).edit [([(0, 0)], ['a'])] EditType.InsertChars).1.edit [([(1, 1)], ['b'])] EditType.InsertChars).1.edit [([(2, 2)], ['c'])] EditType.Other).1.do_undo.1.do_undo.2.isSome = true
      ∧ ((((Buffer.new []).edit [([(0, 0)], ['a'])] EditType.InsertChars).1.edit [([(1, 1)], ['b'])] EditType.InsertChars).1.edit [([(2, 2)], ['c'])] EditType.Other).1.do_undo.1.do_undo.1.text = [] := by
  decide

/-- Claim C6: starting from `"foo"`, after `set_pristine()`, typing
`"bar"` and undoing until it is reverted, `is_pristine()` is `true`
although the current revision number (4) differs from the pristine
revision id (0): pristineness is decided by mask equivalence, not by
revision-number equality. -/
theorem c6_pristine_equivalence :
    (((((Buffer.new ['f', 'o', 'o']).set_pristine).edit [([(3, 3)], ['b'])] EditType.InsertChars).1.edit [([(4, 4)], ['a'])] EditType.InsertChars).1.edit [([(5, 5)], ['r'])] EditType.InsertChars).1.text = ['f', 'o', 'o', 'b', 'a', 'r']
      ∧ ((((((Buffer.new ['f', 'o', 'o']).set_pristine).edit [([(3, 3)], ['b'])] EditType.InsertChars).1.edit [([(4, 4)], ['a'])] EditType.InsertChars).1.edit [([(5, 5)], ['r'])] EditType.InsertChars).1.do_undo.1.do_undo.1.do_undo.1).text = ['f', 'o', 'o']
      ∧ ((((((Buffer.new ['f', 'o', 'o']).set_pristine).edit [([(3, 3)], ['b'])] EditType.InsertChars).1.edit [([(4, 4)], ['a'])] EditType.InsertChars).1.edit [([(5, 5)], ['r'])] EditType.InsertChars).1.do_undo.1.do_undo.1.do_undo.1).is_pristine = true
      ∧ ((((((Buffer.new ['f', 'o', 'o']).set_pristine).edit [([(3, 3)], ['b'])] EditType.InsertChars).1.edit [([(4, 4)], ['a'])] EditType.InsertChars).1.edit [([(5, 5)], ['r'])] EditType.InsertChars).1.do_undo.1.do_undo.1.do_undo.1).rev = 4
      ∧ ((((((Buffer.new ['f', 'o', 'o']).set_pristine).edit [([(3, 3)], ['b'])] EditType.InsertChars).1.edit [([(4, 4)], ['a'])] EditType.InsertChars).1.edit [([(5, 5)], ['r'])] EditType.InsertChars).1.do_undo.1.do_undo.1.do_undo.1).pristine_rev_id = 0
      ∧ ((((((Buffer.new ['f', 'o', 'o']).set_pristine).edit [([(3, 3)], ['b'])] EditType.InsertChars).1.edit [([(4, 4)], ['a'])] EditType.InsertChars).1.edit [([(5, 5)], ['r'])] EditType.InsertChars).1.do_undo.1.do_undo.1.do_undo.1).rev ≠ ((((((Buffer.new ['f', 'o', 'o']).set_pristine).edit [([(3, 3)], ['b'])] EditType.InsertChars).1.edit [([(4, 4)], ['a'])] EditType.InsertChars).1.edit [([(5, 5)], ['r'])] EditType.InsertChars).1.do_undo.1.do_undo.1.do_undo.1).pristine_rev_id := by
  decide

/-- Claim C1, counterexample: for the buffer `B` holding `"a"` typed with
`EditType.InsertChars` and the single edit `E` inserting `"b"` (same edit
type, so `E` coalesces into `B`'s last undo group), `do_undo()` after `E`
returns `Some` but yields `[]`, not `B`'s text `"a"`: the claim fails
whenever `E` does not start a fresh undo group. -/
theorem c1_counterexample :
    let b := ((Buffer.new []).edit [([(0, 0)], ['a'])] EditType.InsertChars).1
    let b1 := (b.edit [([(1, 1)], ['b'])] EditType.InsertChars).1
    b.text = ['a']
      ∧ b1.do_undo.2.isSome = true
      ∧ b1.do_undo.1.text = []
      ∧ b1.do_undo.1.text ≠ b.text := by
  decide

/-- Claim C9, counterexample: on a fresh buffer (`rev_counter = 1`),
`mk_new_rev` assembles a revision with `num = 1`, which is `rev_counter`,
not `rev_counter + 1` as the claim states. -/
theorem c9_counterexample :
    let b := Buffer.new []
    let d : OpDelta := { base_len := 0, ops := [(0, 0, ['x'])] }
    (b.mk_new_rev 1 d).1.num = 1
      ∧ b.rev_counter = 1
      ∧ (b.mk_new_rev 1 d).1.num ≠ b.rev_counter + 1 := by
  decide

/-- Claim C9, amended: the revision assembled by `mk_new_rev` carries
`num` equal to the buffer's `rev_counter` at the time `mk_new_rev` runs
(the counter is incremented afterwards by `apply_edit`). -/
theorem c9_mk_new_rev_num (b : Buffer) (undo_group : Nat) (delta : OpDelta) :
    (b.mk_new_rev undo_group delta).1.num = b.rev_counter := by
  rfl

/-- Claim C7: `do_undo()` at the bottom of history and `do_redo()` at the
top of history return `None` and leave the whole buffer state unchanged;
no revision is recorded. -/
theorem c7_history_boundaries (b : Buffer) :
    (b.cur_undo ≤ 1 → b.do_undo = (b, none))
      ∧ (b.cur_undo ≥ b.live_undos.length → b.do_redo = (b, none)) := by
  constructor
  · intro h
    simp only [Buffer.do_undo, if_pos h]
  · intro h
    simp only [Buffer.do_redo, if_pos h]

/-- Witness for C7 at a concrete buffer. -/
theorem c7_history_boundaries_witness :
    (Buffer.new ['a']).do_undo = (Buffer.new ['a'], none)
      ∧ (Buffer.new ['a']).do_redo = (Buffer.new ['a'], none) :=
  ⟨(c7_history_boundaries (Buffer.new ['a'])).1 (by decide),
   (c7_history_boundaries (Buffer.new ['a'])).2 (by decide)⟩

/-! ### Small list and set lemmas. -/

theorem getLastD_mem {α : Type} (l : List α) (d : α) (h : l ≠ []) : l.getLastD d ∈ l := by
  induction l with
  | nil => exact absurd rfl h
  | cons x xs ih =>
    cases xs with
    | nil => simp
    | cons y ys => exact List.mem_cons_of_mem x (ih (by simp))

theorem getD_mem {α : Type} (l : List α) (n : Nat) (d : α) (h : n < l.length) :
    l.getD n d ∈ l := by
  rw [List.getD_eq_getElem l d h]; exact List.getElem_mem h

theorem mem_setInsert (x y : Nat) (l : List Nat) :
    y ∈ setInsert x l ↔ y = x ∨ y ∈ l := by
  induction l with
  | nil => simp [setInsert]
  | cons z l ih =>
    by_cases h1 : x < z
    · simp [setInsert, h1]
    · by_cases h2 : x = z
      · subst h2; simp [setInsert, h1]
      · simp only [setInsert, if_neg h1, if_neg h2, List.mem_cons, ih]
        tauto

theorem setErase_sublist (x : Nat) (l : List Nat) : (setErase x l).Sublist l := by
  induction l with
  | nil => simp [setErase]
  | cons z l ih =>
    by_cases h : x = z
    · simp only [setErase, if_pos h]
      exact (List.sublist_cons_self z l)
    · simp only [setErase, if_neg h]
      exact ih.cons₂ z

theorem mem_setErase (x y : Nat) (l : List Nat) (h : y ∈ setErase x l) : y ∈ l :=
  (setErase_sublist x l).subset h

theorem setInsert_pairwise (x : Nat) (l : List Nat) (h : l.Pairwise (· < ·)) :
    (setInsert x l).Pairwise (· < ·) := by
  induction l with
  | nil => simp [setInsert]
  | cons z l ih =>
    rcases List.pairwise_cons.1 h with ⟨hz, hl⟩
    by_cases h1 : x < z
    · simp only [setInsert, if_pos h1]
      refine List.pairwise_cons.2 ⟨?_, h⟩
      intro y hy
      rcases List.mem_cons.1 hy with rfl | hy
      · exact h1
      · exact Nat.lt_trans h1 (hz y hy)
    · by_cases h2 : x = z
      · simpa [setInsert, if_neg h1, if_pos h2] using h
      · simp only [setInsert, if_neg h1, if_neg h2]
        refine List.pairwise_cons.2 ⟨?_, ih hl⟩
        intro y hy
        rcases (mem_setInsert x y l).1 hy with rfl | hy
        · omega
        · exact hz y hy

theorem setErase_pairwise (x : Nat) (l : List Nat) (h : l.Pairwise (· < ·)) :
    (setErase x l).Pairwise (· < ·) :=
  List.Pairwise.sublist (setErase_sublist x l) h

theorem mk_new_rev_num (b : Buffer) (g : Nat) (d : OpDelta) :
    (b.mk_new_rev g d).1.num = b.rev_counter := rfl

theorem mk_new_rev_max (b : Buffer) (g : Nat) (d : OpDelta) :
    (b.mk_new_rev g d).1.max_undo_so_far = Nat.max g b.lastRev.max_undo_so_far := rfl

theorem compute_undo_num (b : Buffer) (G : List Nat) :
    (b.compute_undo G).1.num = b.rev_counter := rfl

theorem compute_undo_max (b : Buffer) (G : List Nat) :
    (b.compute_undo G).1.max_undo_so_far = b.lastRev.max_undo_so_far := rfl

theorem calculate_undo_group_pos (b : Buffer) (h : calcCond b = true) :
    b.calculate_undo_group = (b.live_undos.getLastD 0, b) := by
  simp only [Buffer.calculate_undo_group, calcCond] at h ⊢
  rw [if_pos h]

theorem calculate_undo_group_neg (b : Buffer) (h : calcCond b = false) :
    b.calculate_undo_group =
      (b.undo_group_id,
        { b with
          live_undos := b.live_undos.take b.cur_undo ++ [b.undo_group_id]
          cur_undo := b.cur_undo + 1
          undo_group_id := b.undo_group_id + 1 }) := by
  simp only [Buffer.calculate_undo_group, calcCond] at h ⊢
  rw [if_neg (by simp [h])]

/-- The undo group chosen by `calculate_undo_group` is below the updated
`undo_group_id`, and the buffer it returns satisfies the bookkeeping
invariants except for history fields it does not touch. -/
theorem calc_fields (b : Buffer) :
    (b.calculate_undo_group).2.revs = b.revs
    ∧ (b.calculate_undo_group).2.rev_counter = b.rev_counter
    ∧ (b.calculate_undo_group).2.undos = b.undos
    ∧ (b.calculate_undo_group).2.undone_groups = b.undone_groups
    ∧ (b.calculate_undo_group).2.text = b.text
    ∧ (b.calculate_undo_group).2.tombstones = b.tombstones
    ∧ (b.calculate_undo_group).2.deletes_from_union = b.deletes_from_union := by
  by_cases h : calcCond b
  · rw [calculate_undo_group_pos b h]
    exact ⟨rfl, rfl, rfl, rfl, rfl, rfl, rfl⟩
  · rw [calculate_undo_group_neg b (Bool.not_eq_true _ ▸ h)]
    exact ⟨rfl, rfl, rfl, rfl, rfl, rfl, rfl⟩

theorem inv1_new (s : List Char) : Inv1 (Buffer.new s) := by
  refine ⟨?_, ?_, ?_, ?_, ?_, ?_, ?_, ?_, ?_, ?_, ?_, ?_⟩ <;>
    simp [Buffer.new, Buffer.lastRev, sentinelRevision]

theorem add_delta_revs (b : Buffer) (d : OpDelta) :
    (b.add_delta d).1.revs =
      b.revs ++
        [({ (b.calculate_undo_group).2 with
            last_edit_type := (b.calculate_undo_group).2.this_edit_type }.mk_new_rev
          (b.calculate_undo_group).1 d).1] := by
  have hr := (calc_fields b).1
  simp only [Buffer.add_delta, Buffer.apply_edit]
  rw [hr]

theorem calcCond_unbroken (b : Buffer) (h : calcCond b = true) :
    b.this_edit_type = b.last_edit_type
    ∧ (b.this_edit_type = EditType.InsertChars
        ∨ b.this_edit_type = EditType.Delete) := by
  revert h
  cases hthis : b.this_edit_type <;> cases hlast : b.last_edit_type <;>
    simp [calcCond, EditType.breaks_undo_group, hthis, hlast]

theorem inv1_add_delta (b : Buffer) (hb : Inv1 b) (d : OpDelta) :
    Inv1 (b.add_delta d).1 := by
  have hl : b.lastRev.max_undo_so_far < b.undo_group_id :=
    hb.max_lt _ (getLastD_mem _ _ hb.revs_ne)
  by_cases h : calcCond b
  · have hg : b.live_undos.getLastD 0 < b.undo_group_id :=
      hb.live_lt _ (getLastD_mem _ _ hb.live_ne)
    simp only [Buffer.add_delta, calculate_undo_group_pos b h, Buffer.apply_edit]
    refine ⟨by simp, ?_, hb.cur_lo, hb.cur_hi, hb.live_ne, hb.live_lt, hb.gid_pos,
      hb.undos_eq, hb.undos_lt, hb.undos_sorted, ?_, ?_⟩
    · simp only [Buffer.lastRev, List.getLastD_concat, mk_new_rev_num]
    · intro r hr
      rcases List.mem_append.1 hr with hr | hr
      · exact hb.max_lt r hr
      · rcases List.mem_singleton.1 hr with rfl
        rw [mk_new_rev_max]
        exact Nat.max_lt.mpr ⟨hg, hl⟩
    · intro _
      have hu := calcCond_unbroken b h
      exact hb.coal (hu.1 ▸ hu.2)
  · simp only [Buffer.add_delta, calculate_undo_group_neg b (by simpa using h),
      Buffer.apply_edit]
    refine ⟨by simp, ?_, by show 1 ≤ b.cur_undo + 1; omega, ?_, by simp,
      ?_, by show 1 ≤ b.undo_group_id + 1; omega, hb.undos_eq, ?_, hb.undos_sorted, ?_, ?_⟩
    · simp only [Buffer.lastRev, List.getLastD_concat, mk_new_rev_num]
    · show b.cur_undo + 1 ≤ (b.live_undos.take b.cur_undo ++ [b.undo_group_id]).length
      have := hb.cur_hi
      simp only [List.length_append, List.length_take, List.length_cons,
        List.length_nil]
      omega
    · intro g hg
      rcases List.mem_append.1 hg with hg | hg
      · exact Nat.lt_succ_of_lt (hb.live_lt g (List.take_subset _ _ hg))
      · rcases List.mem_singleton.1 hg with rfl
        exact Nat.lt_succ_self _
    · intro g hg
      exact Nat.lt_succ_of_lt (hb.undos_lt g hg)
    · intro r hr
      rcases List.mem_append.1 hr with hr | hr
      · exact Nat.lt_succ_of_lt (hb.max_lt r hr)
      · rcases List.mem_singleton.1 hr with rfl
        rw [mk_new_rev_max]
        exact Nat.max_lt.mpr ⟨Nat.lt_succ_self _, Nat.lt_succ_of_lt hl⟩
    · intro _
      rw [List.getLastD_concat]
      intro hmem
      exact absurd (hb.undos_lt _ hmem) (Nat.lt_irrefl _)

theorem inv1_undo (b : Buffer) (G : List Nat) (hEq : b.undos = G)
    (revs_ne : b.revs ≠ []) (_hc : b.rev_counter = b.lastRev.num + 1)
    (cur_lo : 1 ≤ b.cur_undo) (cur_hi : b.cur_undo ≤ b.live_undos.length)
    (live_ne : b.live_undos ≠ []) (live_lt : ∀ g ∈ b.live_undos, g < b.undo_group_id)
    (gid_pos : 1 ≤ b.undo_group_id)
    (undos_lt : ∀ g ∈ b.undos, g < b.undo_group_id)
    (undos_sorted : b.undos.Pairwise (· < ·))
    (max_lt : ∀ r ∈ b.revs, r.max_undo_so_far < b.undo_group_id)
    (hET : b.last_edit_type = EditType.Undo ∨ b.last_edit_type = EditType.Redo) :
    Inv1 (b.undo G).1 := by
  have hl : b.lastRev.max_undo_so_far < b.undo_group_id :=
    max_lt _ (getLastD_mem _ _ revs_ne)
  simp only [Buffer.undo, Buffer.apply_edit]
  refine ⟨by simp, ?_, cur_lo, cur_hi, live_ne, live_lt, gid_pos, hEq,
    undos_lt, undos_sorted, ?_, ?_⟩
  · simp only [Buffer.lastRev, List.getLastD_concat, compute_undo_num]
  · intro r hr
    rcases List.mem_append.1 hr with hr | hr
    · exact max_lt r hr
    · rcases List.mem_singleton.1 hr with rfl
      rw [compute_undo_max]
      exact hl
  · intro hTy
    have h2 : b.last_edit_type = EditType.InsertChars
        ∨ b.last_edit_type = EditType.Delete := hTy
    rcases hET with h | h <;> rcases h2 with h2 | h2 <;> rw [h] at h2 <;>
      exact absurd h2 (by simp)

theorem inv1_do_undo (b : Buffer) (hb : Inv1 b) : Inv1 b.do_undo.1 := by
  by_cases h : b.cur_undo ≤ 1
  · simpa [Buffer.do_undo, if_pos h] using hb
  · have hmem : b.live_undos.getD (b.cur_undo - 1) 0 ∈ b.live_undos :=
      getD_mem _ _ _ (by have := hb.cur_hi; omega)
    simp only [Buffer.do_undo, if_neg h]
    refine inv1_undo _ _ rfl hb.revs_ne hb.counter_eq
      (by show 1 ≤ b.cur_undo - 1; omega)
      (by show b.cur_undo - 1 ≤ b.live_undos.length; have := hb.cur_hi; omega)
      hb.live_ne hb.live_lt hb.gid_pos ?_ ?_ hb.max_lt (Or.inl rfl)
    · intro g hg
      rcases (mem_setInsert _ g _).1 hg with rfl | hg
      · exact hb.live_lt _ hmem
      · exact hb.undos_lt g hg
    · exact setInsert_pairwise _ _ hb.undos_sorted

theorem inv1_do_redo (b : Buffer) (hb : Inv1 b) : Inv1 b.do_redo.1 := by
  by_cases h : b.cur_undo ≥ b.live_undos.length
  · simpa [Buffer.do_redo, if_pos h] using hb
  · simp only [Buffer.do_redo, if_neg h]
    refine inv1_undo _ _ rfl hb.revs_ne hb.counter_eq
      (by show 1 ≤ b.cur_undo + 1; omega)
      (by show b.cur_undo + 1 ≤ b.live_undos.length; omega)
      hb.live_ne hb.live_lt hb.gid_pos ?_ ?_ hb.max_lt (Or.inr rfl)
    · intro g hg
      exact hb.undos_lt g (mem_setErase _ g _ hg)
    · exact setErase_pairwise _ _ hb.undos_sorted

theorem inv1_set_pristine (b : Buffer) (hb : Inv1 b) : Inv1 b.set_pristine :=
  ⟨hb.revs_ne, hb.counter_eq, hb.cur_lo, hb.cur_hi, hb.live_ne, hb.live_lt,
   hb.gid_pos, hb.undos_eq, hb.undos_lt, hb.undos_sorted, hb.max_lt, hb.coal⟩

theorem inv1_edit (b : Buffer) (hb : Inv1 b)
    (edits : List (List (Nat × Nat) × List Char)) (ty : EditType) :
    Inv1 (b.edit edits ty).1 := by
  simp only [Buffer.edit]
  refine inv1_add_delta _ ?_ _
  exact ⟨hb.revs_ne, hb.counter_eq, hb.cur_lo, hb.cur_hi, hb.live_ne, hb.live_lt,
    hb.gid_pos, hb.undos_eq, hb.undos_lt, hb.undos_sorted, hb.max_lt, hb.coal⟩

theorem inv1_reload (b : Buffer) (hb : Inv1 b) (content : List Char) (setP : Bool) :
    Inv1 (b.reload content setP).1 := by
  simp only [Buffer.reload]
  by_cases hs : setP
  · simp only [if_pos hs]
    refine inv1_set_pristine _ (inv1_add_delta _ ?_ _)
    exact ⟨hb.revs_ne, hb.counter_eq, hb.cur_lo, hb.cur_hi, hb.live_ne, hb.live_lt,
      hb.gid_pos, hb.undos_eq, hb.undos_lt, hb.undos_sorted, hb.max_lt, hb.coal⟩
  · simp only [if_neg hs]
    refine inv1_add_delta _ ?_ _
    exact ⟨hb.revs_ne, hb.counter_eq, hb.cur_lo, hb.cur_hi, hb.live_ne, hb.live_lt,
      hb.gid_pos, hb.undos_eq, hb.undos_lt, hb.undos_sorted, hb.max_lt, hb.coal⟩

theorem reach_inv1 (b : Buffer) (hb : Reach b) : Inv1 b := by
  induction hb with
  | new s => exact inv1_new s
  | edit b edits ty _ _ ih => exact inv1_edit b ih edits ty
  | reload b content setP _ ih => exact inv1_reload b ih content setP
  | undo b _ ih => exact inv1_do_undo b ih
  | redo b _ ih => exact inv1_do_redo b ih

theorem add_delta_rev_facts (b : Buffer) (hb : Inv1 b) (d : OpDelta) :
    (b.add_delta d).1.revs.length = b.revs.length + 1
      ∧ (b.add_delta d).1.rev = b.rev + 1 := by
  by_cases h : calcCond b
  · simp only [Buffer.add_delta, calculate_undo_group_pos b h, Buffer.apply_edit]
    refine ⟨by simp, ?_⟩
    simp only [Buffer.rev, Buffer.lastRev, List.getLastD_concat, mk_new_rev_num]
    exact hb.counter_eq
  · simp only [Buffer.add_delta, calculate_undo_group_neg b (by simpa using h),
      Buffer.apply_edit]
    refine ⟨by simp, ?_⟩
    simp only [Buffer.rev, Buffer.lastRev, List.getLastD_concat, mk_new_rev_num]
    exact hb.counter_eq

/-- `do_redo` is a no-op pair whenever the cursor is at the top. -/
theorem do_redo_none (b : Buffer) (h : b.cur_undo ≥ b.live_undos.length) :
    b.do_redo = (b, none) := by
  simp only [Buffer.do_redo, if_pos h]

/-- `do_undo` is a no-op pair whenever the cursor is at the bottom. -/
theorem do_undo_none (b : Buffer) (h : b.cur_undo ≤ 1) :
    b.do_undo = (b, none) := by
  simp only [Buffer.do_undo, if_pos h]

theorem do_undo_isSome_cur (b : Buffer) (h : b.do_undo.2.isSome = true) :
    ¬ b.cur_undo ≤ 1 := by
  intro hc
  rw [do_undo_none b hc] at h
  simp at h

/-- Any edit type breaks grouping against a previous `Undo`. -/
theorem breaks_undo_prev (ty : EditType) :
    EditType.breaks_undo_group ty EditType.Undo = true := by
  cases ty <;> rfl

/-- After an edit whose type breaks grouping (with the undo cursor within
bounds), `live_undos` is truncated to the cursor and the new group
appended, so `do_redo` has nothing to redo. -/
theorem do_redo_after_break_edit (c : Buffer)
    (edits : List (List (Nat × Nat) × List Char)) (ty : EditType)
    (hcur : c.cur_undo ≤ c.live_undos.length)
    (hbreak : EditType.breaks_undo_group ty c.last_edit_type = true) :
    ((c.edit edits ty).1.do_redo) = ((c.edit edits ty).1, none) := by
  have hcond : calcCond { c with this_edit_type := ty } = false := by
    simp [calcCond, hbreak]
  simp only [Buffer.edit, Buffer.add_delta, calculate_undo_group_neg _ hcond,
    Buffer.apply_edit]
  apply do_redo_none
  show (c.live_undos.take c.cur_undo ++ [c.undo_group_id]).length ≤ c.cur_undo + 1
  simp only [List.length_append, List.length_take, List.length_cons, List.length_nil]
  omega

/-- Claim C4: after a successful `do_undo()` followed by a fresh `edit()`
(any edit type: the last edit type is `Undo`, which every type breaks
against), `do_redo()` returns `None` and changes nothing: starting the
new undo group truncates `live_undos` to `cur_undo`, making the undone
path unreachable. -/
theorem c4_redo_stack_invalidation (b : Buffer) (hb : Reach b)
    (hsome : b.do_undo.2.isSome = true)
    (edits : List (List (Nat × Nat) × List Char)) (ty : EditType) :
    (b.do_undo.1.edit edits ty).1.do_redo = ((b.do_undo.1.edit edits ty).1, none) := by
  have hi := reach_inv1 b hb
  have hgt : ¬ b.cur_undo ≤ 1 := do_undo_isSome_cur b hsome
  simp only [Buffer.do_undo, if_neg hgt]
  refine do_redo_after_break_edit _ edits ty ?_ ?_
  · show b.cur_undo - 1 ≤ b.live_undos.length
    have := hi.cur_hi
    omega
  · exact breaks_undo_prev ty

/-- Witness for C4 at a concrete buffer: one typed character, one undo,
one fresh edit; redo then yields nothing. -/
theorem c4_redo_stack_invalidation_witness :
    let b := ((Buffer.new []).edit [([(0, 0)], ['a'])] EditType.InsertChars).1
    (b.do_undo.1.edit [([(0, 0)], ['z'])] EditType.InsertChars).1.do_redo
      = ((b.do_undo.1.edit [([(0, 0)], ['z'])] EditType.InsertChars).1, none) :=
  c4_redo_stack_invalidation _
    (Reach.edit _ [([(0, 0)], ['a'])] EditType.InsertChars (Reach.new []) (by decide))
    (by decide) [([(0, 0)], ['z'])] EditType.InsertChars

/-- Claim C10: each `edit()` and each `reload()` appends exactly one
revision to the log and increases `rev()` by exactly one, whatever the
edit list (including an empty one producing an identity delta). -/
theorem c10_revision_always_appended (b : Buffer) (hb : Reach b)
    (edits : List (List (Nat × Nat) × List Char)) (ty : EditType)
    (content : List Char) (setP : Bool) :
    (b.edit edits ty).1.revs.length = b.revs.length + 1
      ∧ (b.edit edits ty).1.rev = b.rev + 1
      ∧ (b.reload content setP).1.revs.length = b.revs.length + 1
      ∧ (b.reload content setP).1.rev = b.rev + 1 := by
  have hi := reach_inv1 b hb
  have hrec : ∀ ty2 le2, Inv1 { b with this_edit_type := ty2, line_ending := le2 } :=
    fun ty2 le2 =>
      ⟨hi.revs_ne, hi.counter_eq, hi.cur_lo, hi.cur_hi, hi.live_ne, hi.live_lt,
       hi.gid_pos, hi.undos_eq, hi.undos_lt, hi.undos_sorted, hi.max_lt, hi.coal⟩
  refine ⟨?_, ?_, ?_, ?_⟩
  · simp only [Buffer.edit]
    refine ((add_delta_rev_facts _ ?_ _).1)
    exact ⟨hi.revs_ne, hi.counter_eq, hi.cur_lo, hi.cur_hi, hi.live_ne, hi.live_lt,
      hi.gid_pos, hi.undos_eq, hi.undos_lt, hi.undos_sorted, hi.max_lt, hi.coal⟩
  · simp only [Buffer.edit]
    refine ((add_delta_rev_facts _ ?_ _).2)
    exact ⟨hi.revs_ne, hi.counter_eq, hi.cur_lo, hi.cur_hi, hi.live_ne, hi.live_lt,
      hi.gid_pos, hi.undos_eq, hi.undos_lt, hi.undos_sorted, hi.max_lt, hi.coal⟩
  · simp only [Buffer.reload]
    by_cases hs : setP
    · simp only [if_pos hs]
      exact (add_delta_rev_facts _ (hrec _ _) _).1
    · simp only [if_neg hs]
      exact (add_delta_rev_facts _ (hrec _ _) _).1
  · simp only [Buffer.reload]
    by_cases hs : setP
    · simp only [if_pos hs]
      exact (add_delta_rev_facts _ (hrec _ _) _).2
    · simp only [if_neg hs]
      exact (add_delta_rev_facts _ (hrec _ _) _).2

/-- Witness for C10 at a concrete buffer with an empty (identity) edit. -/
theorem c10_revision_always_appended_witness :
    ((Buffer.new ['a']).edit [] EditType.Other).1.revs.length
        = (Buffer.new ['a']).revs.length + 1
      ∧ ((Buffer.new ['a']).edit [] EditType.Other).1.rev = (Buffer.new ['a']).rev + 1
      ∧ ((Buffer.new ['a']).reload [] false).1.revs.length
        = (Buffer.new ['a']).revs.length + 1
      ∧ ((Buffer.new ['a']).reload [] false).1.rev = (Buffer.new ['a']).rev + 1 :=
  c10_revision_always_appended (Buffer.new ['a']) (Reach.new ['a']) [] EditType.Other [] false

/-! ### Length and count lemmas for the subset operations. -/

theorem count_false_add_count_true (l : List Bool) :
    l.count false + l.count true = l.length := by
  induction l with
  | nil => rfl
  | cons b l ih =>
    cases b <;> simp [List.count_cons] <;> omega

theorem subIsEmpty_cons (x : Bool) (o : List Bool) :
    subIsEmpty (x :: o) = true ↔ x = false ∧ subIsEmpty o = true := by
  simp [subIsEmpty]

theorem length_subExpandWith (f : Bool) (s o : List Bool) :
    (subExpandWith f s o).length = o.length := by
  induction o generalizing s with
  | nil => simp [subExpandWith]
  | cons x o ih =>
    cases x
    · cases s with
      | nil => simpa [subExpandWith] using ih []
      | cons b s => simpa [subExpandWith] using ih s
    · simpa [subExpandWith] using ih s

theorem count_true_subExpandWith (f : Bool) (s o : List Bool)
    (h : s.length = o.count false) :
    (subExpandWith f s o).count true
      = s.count true + (if f then o.count true else 0) := by
  induction o generalizing s with
  | nil =>
    have hs : s = [] := List.length_eq_zero.1 (by simpa using h)
    subst hs; cases f <;> simp [subExpandWith]
  | cons x o ih =>
    cases x
    · cases s with
      | nil => simp [List.count_cons] at h
      | cons b s =>
        have h2 : s.length = o.count false := by
          simpa [List.count_cons] using h
        cases b <;> cases f <;>
          simp [subExpandWith, List.count_cons, ih s h2] <;> omega
    · have h2 : s.length = o.count false := by simpa [List.count_cons] using h
      cases f <;> simp [subExpandWith, List.count_cons, ih s h2] <;> omega

theorem count_false_subExpandWith (f : Bool) (s o : List Bool)
    (h : s.length = o.count false) :
    (subExpandWith f s o).count false
      = s.count false + (if f then 0 else o.count true) := by
  have h1 := count_false_add_count_true (subExpandWith f s o)
  have h2 := count_true_subExpandWith f s o h
  have h3 := length_subExpandWith f s o
  have h4 := count_false_add_count_true s
  have h5 := count_false_add_count_true o
  cases f <;> simp at h2 ⊢ <;> omega

theorem length_subShrink (s o : List Bool) (h : s.length = o.length) :
    (subShrink s o).length = o.count false := by
  induction o generalizing s with
  | nil =>
    have hs : s = [] := List.length_eq_zero.1 (by simpa using h)
    subst hs; rfl
  | cons x o ih =>
    cases s with
    | nil => simp at h
    | cons b s =>
      have h2 : s.length = o.length := by simpa using h
      cases x <;> simp [subShrink, List.count_cons, ih s h2]

theorem subShrink_subExpandWith (f : Bool) (s o : List Bool)
    (h : s.length = o.count false) :
    subShrink (subExpandWith f s o) o = s := by
  induction o generalizing s with
  | nil =>
    have hs : s = [] := List.length_eq_zero.1 (by simpa using h)
    subst hs; rfl
  | cons x o ih =>
    cases x
    · cases s with
      | nil => simp [List.count_cons] at h
      | cons b s =>
        have h2 : s.length = o.count false := by simpa [List.count_cons] using h
        simp [subExpandWith, subShrink, ih s h2]
    · have h2 : s.length = o.count false := by simpa [List.count_cons] using h
      simp [subExpandWith, subShrink, ih s h2]

theorem subExpandWith_of_isEmpty (f : Bool) (s o : List Bool)
    (ho : subIsEmpty o = true) (h : s.length = o.length) :
    subExpandWith f s o = s := by
  induction o generalizing s with
  | nil =>
    have hs : s = [] := List.length_eq_zero.1 (by simpa using h)
    subst hs; simp [subExpandWith]
  | cons x o ih =>
    rcases (subIsEmpty_cons x o).1 ho with ⟨rfl, ho2⟩
    cases s with
    | nil => simp at h
    | cons b s =>
      have h2 : s.length = o.length := by simpa using h
      simp [subExpandWith, ih s ho2 h2]

theorem subUnion_of_isEmpty (s d : List Bool) (hd : subIsEmpty d = true)
    (h : s.length = d.length) : subUnion s d = s := by
  induction d generalizing s with
  | nil =>
    have hs : s = [] := List.length_eq_zero.1 (by simpa using h)
    subst hs; rfl
  | cons x d ih =>
    rcases (subIsEmpty_cons x d).1 hd with ⟨rfl, hd2⟩
    cases s with
    | nil => simp at h
    | cons b s =>
      have h2 : s.length = d.length := by simpa using h
      simp only [subUnion, List.zipWith_cons_cons, Bool.or_false]
      simpa [subUnion] using ih s hd2 h2

theorem count_false_of_isEmpty (o : List Bool) (h : subIsEmpty o = true) :
    o.count false = o.length := by
  induction o with
  | nil => rfl
  | cons x o ih =>
    rcases (subIsEmpty_cons x o).1 h with ⟨rfl, h2⟩
    simp [List.count_cons, ih h2]

theorem zipWith_subExpandWith (h : Bool → Bool → Bool) (fa fb : Bool)
    (s t o : List Bool) (hs : s.length = o.count false)
    (ht : t.length = o.count false) :
    List.zipWith h (subExpandWith fa s o) (subExpandWith fb t o)
      = subExpandWith (h fa fb) (List.zipWith h s t) o := by
  induction o generalizing s t with
  | nil =>
    have hs0 : s = [] := List.length_eq_zero.1 (by simpa using hs)
    have ht0 : t = [] := List.length_eq_zero.1 (by simpa using ht)
    subst hs0; subst ht0; simp [subExpandWith]
  | cons x o ih =>
    cases x
    · cases s with
      | nil => simp [List.count_cons] at hs
      | cons a s =>
        cases t with
        | nil => simp [List.count_cons] at ht
        | cons b t =>
          have hs2 : s.length = o.count false := by simpa [List.count_cons] using hs
          have ht2 : t.length = o.count false := by simpa [List.count_cons] using ht
          simp [subExpandWith, ih s t hs2 ht2]
    · have hs2 : s.length = o.count false := by simpa [List.count_cons] using hs
      have ht2 : t.length = o.count false := by simpa [List.count_cons] using ht
      simp [subExpandWith, ih s t hs2 ht2]

theorem subSub_subUnion_expand (a x : List Bool) (hx : x.length = a.count false) :
    subSub (subUnion a (subExpandWith false x a)) (subExpandWith false x a) = a := by
  induction a generalizing x with
  | nil => rfl
  | cons b a ih =>
    cases b
    · cases x with
      | nil => simp [List.count_cons] at hx
      | cons y x =>
        have hx2 : x.length = a.count false := by simpa [List.count_cons] using hx
        simp only [subExpandWith, subUnion, subSub, List.zipWith_cons_cons] at ih ⊢
        refine congrArg₂ _ (by cases y <;> rfl) (ih x hx2)
    · have hx2 : x.length = a.count false := by simpa [List.count_cons] using hx
      simp only [subExpandWith, subUnion, subSub, List.zipWith_cons_cons] at ih ⊢
      exact congrArg₂ _ rfl (ih x hx2)

theorem advAfter_snd (m : List Bool) (k : Nat) :
    (advAfter m k).2 = m.drop (advAfter m k).1 := by
  induction m generalizing k with
  | nil => rfl
  | cons x m ih =>
    cases x
    · cases k with
      | zero => rfl
      | succ k => simpa [advAfter] using ih k
    · simpa [advAfter] using ih k

theorem advAfter_le (m : List Bool) (k : Nat) : (advAfter m k).1 ≤ m.length := by
  induction m generalizing k with
  | nil => simp [advAfter]
  | cons x m ih =>
    cases x
    · cases k with
      | zero => simp [advAfter]
      | succ k => simpa [advAfter, Nat.succ_le_succ_iff] using ih k
    · simpa [advAfter, Nat.succ_le_succ_iff] using ih k

theorem advAfter_count (m : List Bool) (k : Nat) (h : k ≤ m.count false) :
    (m.take (advAfter m k).1).count false = k := by
  induction m generalizing k with
  | nil => simp at h ⊢; omega
  | cons x m ih =>
    cases x
    · cases k with
      | zero => simp [advAfter]
      | succ k =>
        have h2 : k ≤ m.count false := by simpa [List.count_cons] using h
        simpa [advAfter, List.count_cons] using ih k h2
    · have h2 : k ≤ m.count false := by simpa [List.count_cons] using h
      simpa [advAfter, List.count_cons] using ih k h2

theorem skipsLE_expandIns (I : List (Nat × List Char)) (m : List Bool) :
    skipsLE (expandIns m I) m.length := by
  induction I generalizing m with
  | nil => trivial
  | cons p rest ih =>
    obtain ⟨k, s⟩ := p
    refine ⟨advAfter_le m k, ?_⟩
    rw [advAfter_snd]
    simpa [List.length_drop] using ih (m.drop (advAfter m k).1)

theorem count_false_take_drop (m : List Bool) (c : Nat) :
    (m.take c).count false + (m.drop c).count false = m.count false := by
  rw [← List.count_append, List.take_append_drop]

theorem shrinkIns_expandIns (I : List (Nat × List Char)) (m : List Bool)
    (h : skipsLE I (m.count false)) :
    shrinkIns m (expandIns m I) = I := by
  induction I generalizing m with
  | nil => rfl
  | cons p rest ih =>
    obtain ⟨k, s⟩ := p
    obtain ⟨h1, h2⟩ := h
    have hc := advAfter_count m k h1
    have hd := advAfter_snd m k
    have hcf : (m.drop (advAfter m k).1).count false = m.count false - k := by
      have := count_false_take_drop m (advAfter m k).1
      omega
    simp only [expandIns, shrinkIns, hc]
    rw [hd]
    rw [ih (m.drop (advAfter m k).1) (by rw [hcf]; exact h2)]

theorem insTotal_expandIns (I : List (Nat × List Char)) (m : List Bool) :
    insTotal (expandIns m I) = insTotal I := by
  induction I generalizing m with
  | nil => rfl
  | cons p rest ih =>
    obtain ⟨k, s⟩ := p
    simp [expandIns, insTotal, ih]

theorem count_false_insSubset (I : List (Nat × List Char)) (n : Nat)
    (h : skipsLE I n) : (insSubset I n).count false = n := by
  induction I generalizing n with
  | nil => simp [insSubset, List.count_replicate]
  | cons p rest ih =>
    obtain ⟨k, s⟩ := p
    obtain ⟨h1, h2⟩ := h
    simp [insSubset, List.count_append, List.count_replicate, ih _ h2]
    omega

theorem length_insSubset (I : List (Nat × List Char)) (n : Nat)
    (h : skipsLE I n) : (insSubset I n).length = n + insTotal I := by
  induction I generalizing n with
  | nil => simp [insSubset, insTotal]
  | cons p rest ih =>
    obtain ⟨k, s⟩ := p
    obtain ⟨h1, h2⟩ := h
    simp [insSubset, insTotal, ih _ h2]
    omega

theorem count_true_insSubset (I : List (Nat × List Char)) (n : Nat)
    (h : skipsLE I n) : (insSubset I n).count true = insTotal I := by
  have h1 := count_false_add_count_true (insSubset I n)
  have h2 := count_false_insSubset I n h
  have h3 := length_insSubset I n h
  omega

theorem length_insApply (I : List (Nat × List Char)) (u : List Char)
    (h : skipsLE I u.length) : (insApply I u).length = u.length + insTotal I := by
  induction I generalizing u with
  | nil => simp [insApply, insTotal]
  | cons p rest ih =>
    obtain ⟨k, s⟩ := p
    obtain ⟨h1, h2⟩ := h
    have h3 := ih (u.drop k) (by simpa using h2)
    simp [insApply, insTotal, h3]
    omega

theorem WFfrom_le (pos n : Nat) (ops : List (Nat × Nat × List Char))
    (h : WFfrom pos n ops) : pos ≤ n := by
  induction ops generalizing pos with
  | nil => exact h
  | cons p rest ih =>
    obtain ⟨s, e, r⟩ := p
    obtain ⟨h1, h2, h3⟩ := h
    exact Nat.le_trans h1 (Nat.le_trans h2 (ih e h3))

theorem WFfrom_mono (pos pos2 n : Nat) (ops : List (Nat × Nat × List Char))
    (hle : pos2 ≤ pos) (h : WFfrom pos n ops) : WFfrom pos2 n ops := by
  cases ops with
  | nil => exact Nat.le_trans hle h
  | cons p rest =>
    obtain ⟨s, e, r⟩ := p
    obtain ⟨h1, h2, h3⟩ := h
    exact ⟨Nat.le_trans hle h1, h2, h3⟩

theorem skipsLE_factorIns (pos n : Nat) (ops : List (Nat × Nat × List Char))
    (h : WFfrom pos n ops) : skipsLE (factorIns pos ops) (n - pos) := by
  induction ops generalizing pos with
  | nil => trivial
  | cons p rest ih =>
    obtain ⟨s, e, r⟩ := p
    obtain ⟨h1, h2, h3⟩ := h
    have hsn : s ≤ n := Nat.le_trans h2 (WFfrom_le e n rest h3)
    refine ⟨by omega, ?_⟩
    have h4 := ih s (WFfrom_mono e s n rest h2 h3)
    have : n - pos - (s - pos) = n - s := by omega
    rwa [this]

theorem length_factorDel (pos n : Nat) (ops : List (Nat × Nat × List Char))
    (h : WFfrom pos n ops) : (factorDel n pos ops).length = n - pos := by
  induction ops generalizing pos with
  | nil => simp [factorDel]
  | cons p rest ih =>
    obtain ⟨s, e, r⟩ := p
    obtain ⟨h1, h2, h3⟩ := h
    have hen : e ≤ n := WFfrom_le e n rest h3
    simp [factorDel, ih e h3]
    omega

/-! ### Lemmas about the projections, interleaving and `synthApply`. -/

theorem length_projVis (u : List Char) (m : List Bool) (h : u.length = m.length) :
    (projVis u m).length = m.count false := by
  induction m generalizing u with
  | nil =>
    have : u = [] := List.length_eq_zero.1 (by simpa using h)
    subst this; rfl
  | cons x m ih =>
    cases u with
    | nil => simp at h
    | cons c u =>
      have h2 : u.length = m.length := by simpa using h
      cases x <;> simp [projVis, List.count_cons, ih u h2]

theorem length_projDel (u : List Char) (m : List Bool) (h : u.length = m.length) :
    (projDel u m).length = m.count true := by
  induction m generalizing u with
  | nil =>
    have : u = [] := List.length_eq_zero.1 (by simpa using h)
    subst this; rfl
  | cons x m ih =>
    cases u with
    | nil => simp at h
    | cons c u =>
      have h2 : u.length = m.length := by simpa using h
      cases x <;> simp [projDel, List.count_cons, ih u h2]

theorem length_interleave (t tb : List Char) (m : List Bool)
    (ht : t.length = m.count false) (htb : tb.length = m.count true) :
    (interleave t tb m).length = m.length := by
  induction m generalizing t tb with
  | nil => rfl
  | cons x m ih =>
    cases x
    · cases t with
      | nil => simp [List.count_cons] at ht
      | cons c t =>
        have h2 : t.length = m.count false := by simpa [List.count_cons] using ht
        have h3 : tb.length = m.count true := by simpa [List.count_cons] using htb
        simp [interleave, ih t tb h2 h3]
    · cases tb with
      | nil => simp [List.count_cons] at htb
      | cons c tb =>
        have h2 : t.length = m.count false := by simpa [List.count_cons] using ht
        have h3 : tb.length = m.count true := by simpa [List.count_cons] using htb
        simp [interleave, ih t tb h2 h3]

theorem projVis_interleave (t tb : List Char) (m : List Bool)
    (ht : t.length = m.count false) (htb : tb.length = m.count true) :
    projVis (interleave t tb m) m = t := by
  induction m generalizing t tb with
  | nil =>
    have : t = [] := List.length_eq_zero.1 (by simpa using ht)
    subst this; rfl
  | cons x m ih =>
    cases x
    · cases t with
      | nil => simp [List.count_cons] at ht
      | cons c t =>
        have h2 : t.length = m.count false := by simpa [List.count_cons] using ht
        have h3 : tb.length = m.count true := by simpa [List.count_cons] using htb
        simp [interleave, projVis, ih t tb h2 h3]
    · cases tb with
      | nil => simp [List.count_cons] at htb
      | cons c tb =>
        have h2 : t.length = m.count false := by simpa [List.count_cons] using ht
        have h3 : tb.length = m.count true := by simpa [List.count_cons] using htb
        simp [interleave, projVis, ih t tb h2 h3]

theorem projDel_interleave (t tb : List Char) (m : List Bool)
    (ht : t.length = m.count false) (htb : tb.length = m.count true) :
    projDel (interleave t tb m) m = tb := by
  induction m generalizing t tb with
  | nil =>
    have : tb = [] := List.length_eq_zero.1 (by simpa using htb)
    subst this; rfl
  | cons x m ih =>
    cases x
    · cases t with
      | nil => simp [List.count_cons] at ht
      | cons c t =>
        have h2 : t.length = m.count false := by simpa [List.count_cons] using ht
        have h3 : tb.length = m.count true := by simpa [List.count_cons] using htb
        simp [interleave, projDel, ih t tb h2 h3]
    · cases tb with
      | nil => simp [List.count_cons] at htb
      | cons c tb =>
        have h2 : t.length = m.count false := by simpa [List.count_cons] using ht
        have h3 : tb.length = m.count true := by simpa [List.count_cons] using htb
        simp [interleave, projDel, ih t tb h2 h3]

theorem interleave_proj (u : List Char) (m : List Bool) (h : u.length = m.length) :
    interleave (projVis u m) (projDel u m) m = u := by
  induction m generalizing u with
  | nil =>
    have : u = [] := List.length_eq_zero.1 (by simpa using h)
    subst this; rfl
  | cons x m ih =>
    cases u with
    | nil => simp at h
    | cons c u =>
      have h2 : u.length = m.length := by simpa using h
      cases x <;> simp [projVis, projDel, interleave, ih u h2]

theorem synthApply_eq_projVis (t tb : List Char) (f g : List Bool)
    (hfg : f.length = g.length) (ht : t.length = f.count false)
    (htb : tb.length = f.count true) :
    synthApply t tb f g = projVis (interleave t tb f) g := by
  induction f generalizing t tb g with
  | nil =>
    have : g = [] := List.length_eq_zero.1 (by simpa using hfg.symm)
    subst this; rfl
  | cons x f ih =>
    cases g with
    | nil => simp at hfg
    | cons y g =>
      have h2 : f.length = g.length := by simpa using hfg
      cases x
      · cases t with
        | nil => simp [List.count_cons] at ht
        | cons c t =>
          have h3 : t.length = f.count false := by simpa [List.count_cons] using ht
          have h4 : tb.length = f.count true := by simpa [List.count_cons] using htb
          cases y <;> simp [synthApply, interleave, projVis, ih t tb g h2 h3 h4]
      · cases tb with
        | nil => simp [List.count_cons] at htb
        | cons c tb =>
          have h3 : t.length = f.count false := by simpa [List.count_cons] using ht
          have h4 : tb.length = f.count true := by simpa [List.count_cons] using htb
          cases y <;> simp [synthApply, interleave, projVis, ih t tb g h2 h3 h4]

theorem length_subComp (m : List Bool) : (subComp m).length = m.length := by
  simp [subComp]

theorem count_false_subComp (m : List Bool) :
    (subComp m).count false = m.count true := by
  induction m with
  | nil => rfl
  | cons x m ih => cases x <;> simp [subComp, List.count_cons, ih] at ih ⊢ <;> omega

theorem count_true_subComp (m : List Bool) :
    (subComp m).count true = m.count false := by
  have h1 := count_false_add_count_true (subComp m)
  have h2 := count_false_subComp m
  have h3 := length_subComp m
  have h4 := count_false_add_count_true m
  omega

theorem interleave_subComp (t tb : List Char) (m : List Bool) :
    interleave tb t (subComp m) = interleave t tb m := by
  induction m generalizing t tb with
  | nil => rfl
  | cons x m ih =>
    cases x
    · cases t with
      | nil => simp [subComp, interleave]
      | cons c t => simp [subComp, interleave, ih] at ih ⊢; exact ih t tb
    · cases tb with
      | nil => simp [subComp, interleave]
      | cons c tb => simp [subComp, interleave, ih] at ih ⊢; exact ih t tb

theorem projVis_subComp (u : List Char) (m : List Bool) :
    projVis u (subComp m) = projDel u m := by
  induction m generalizing u with
  | nil => cases u <;> rfl
  | cons x m ih =>
    cases u with
    | nil => cases x <;> simp [subComp, projVis, projDel]
    | cons c u =>
      cases x
      · simp only [subComp, List.map_cons, Bool.not_false, projVis, projDel]
        exact ih u
      · simp only [subComp, List.map_cons, Bool.not_true, projVis, projDel]
        exact congrArg _ (ih u)

theorem projVis_append (u1 u2 : List Char) (m1 m2 : List Bool)
    (h : u1.length = m1.length) :
    projVis (u1 ++ u2) (m1 ++ m2) = projVis u1 m1 ++ projVis u2 m2 := by
  induction m1 generalizing u1 with
  | nil =>
    have : u1 = [] := List.length_eq_zero.1 (by simpa using h)
    subst this; rfl
  | cons x m1 ih =>
    cases u1 with
    | nil => simp at h
    | cons c u1 =>
      have h2 : u1.length = m1.length := by simpa using h
      cases x <;> simp [projVis, ih u1 h2]

theorem projDel_append (u1 u2 : List Char) (m1 m2 : List Bool)
    (h : u1.length = m1.length) :
    projDel (u1 ++ u2) (m1 ++ m2) = projDel u1 m1 ++ projDel u2 m2 := by
  induction m1 generalizing u1 with
  | nil =>
    have : u1 = [] := List.length_eq_zero.1 (by simpa using h)
    subst this; rfl
  | cons x m1 ih =>
    cases u1 with
    | nil => simp at h
    | cons c u1 =>
      have h2 : u1.length = m1.length := by simpa using h
      cases x <;> simp [projDel, ih u1 h2]

/-! ### Commutation of insertion with the union-string projections. -/

theorem subIsEmpty_replicate_false (k : Nat) :
    subIsEmpty (List.replicate k false) = true := by
  simp [subIsEmpty]

theorem expand_replicate_false (f : Bool) (s : List Bool) (k : Nat)
    (h : s.length = k) : subExpandWith f s (List.replicate k false) = s :=
  subExpandWith_of_isEmpty f s _ (subIsEmpty_replicate_false k) (by simp [h])

theorem expand_replicate_true_append (f : Bool) (s o : List Bool) (k : Nat) :
    subExpandWith f s (List.replicate k true ++ o)
      = List.replicate k f ++ subExpandWith f s o := by
  induction k with
  | zero => simp
  | succ k ih => simp [List.replicate_succ, subExpandWith, ih]

theorem expand_append (f : Bool) (s1 s2 o1 o2 : List Bool)
    (h : o1.count false = s1.length) :
    subExpandWith f (s1 ++ s2) (o1 ++ o2)
      = subExpandWith f s1 o1 ++ subExpandWith f s2 o2 := by
  induction o1 generalizing s1 with
  | nil =>
    have : s1 = [] := List.length_eq_zero.1 (by simpa using h.symm)
    subst this; simp [subExpandWith]
  | cons x o1 ih =>
    cases x
    · cases s1 with
      | nil => simp [List.count_cons] at h
      | cons b s1 =>
        have h2 : o1.count false = s1.length := by simpa [List.count_cons] using h
        simp [subExpandWith, ih s1 h2]
    · have h2 : o1.count false = s1.length := by simpa [List.count_cons] using h
      simp [subExpandWith, ih s1 h2]

theorem projVis_replicate_false (s : List Char) (k : Nat) (h : s.length = k) :
    projVis s (List.replicate k false) = s := by
  induction k generalizing s with
  | zero =>
    have : s = [] := List.length_eq_zero.1 h
    subst this; rfl
  | succ k ih =>
    cases s with
    | nil => simp at h
    | cons c s => simp [List.replicate_succ, projVis, ih s (by simpa using h)]

theorem projVis_replicate_true (s : List Char) (k : Nat) (h : s.length = k) :
    projVis s (List.replicate k true) = [] := by
  induction k generalizing s with
  | zero =>
    have : s = [] := List.length_eq_zero.1 h
    subst this; rfl
  | succ k ih =>
    cases s with
    | nil => simp at h
    | cons c s => simp [List.replicate_succ, projVis, ih s (by simpa using h)]

theorem projDel_replicate_false (s : List Char) (k : Nat) (h : s.length = k) :
    projDel s (List.replicate k false) = [] := by
  induction k generalizing s with
  | zero =>
    have : s = [] := List.length_eq_zero.1 h
    subst this; rfl
  | succ k ih =>
    cases s with
    | nil => simp at h
    | cons c s => simp [List.replicate_succ, projDel, ih s (by simpa using h)]

theorem projDel_replicate_true (s : List Char) (k : Nat) (h : s.length = k) :
    projDel s (List.replicate k true) = s := by
  induction k generalizing s with
  | zero =>
    have : s = [] := List.length_eq_zero.1 h
    subst this; rfl
  | succ k ih =>
    cases s with
    | nil => simp at h
    | cons c s => simp [List.replicate_succ, projDel, ih s (by simpa using h)]

theorem proj_insApply_expand (I : List (Nat × List Char)) (m : List Bool)
    (u : List Char) (hlen : m.length = u.length)
    (hfit : skipsLE I (m.count false)) :
    projVis (insApply (expandIns m I) u)
        (subExpandWith false m (insSubset (expandIns m I) m.length))
      = insApply I (projVis u m)
    ∧ projDel (insApply (expandIns m I) u)
        (subExpandWith false m (insSubset (expandIns m I) m.length))
      = projDel u m
    ∧ projVis (insApply (expandIns m I) u)
        (subExpandWith true m (insSubset (expandIns m I) m.length))
      = projVis u m := by
  induction I generalizing m u with
  | nil =>
    simp only [expandIns, insApply, insSubset]
    rw [expand_replicate_false false m m.length rfl,
      expand_replicate_false true m m.length rfl]
    exact ⟨rfl, rfl, rfl⟩
  | cons p rest ih =>
    obtain ⟨k, s⟩ := p
    obtain ⟨hk, hrest⟩ := hfit
    simp only [expandIns, insApply, insSubset]
    rw [advAfter_snd m k]
    rw [show m.length - (advAfter m k).1 = (m.drop (advAfter m k).1).length from by simp]
    have hcle : (advAfter m k).1 ≤ m.length := advAfter_le m k
    have hm1cf0 : (m.take (advAfter m k).1).count false = k := advAfter_count m k hk
    generalize hc : (advAfter m k).1 = c
    rw [hc] at hcle hm1cf0
    have hm1len : (m.take c).length = c := by simp [List.length_take]; omega
    have hu1len : (u.take c).length = c := by simp [List.length_take]; omega
    have hm2cf : (m.drop c).count false = m.count false - k := by
      have := count_false_take_drop m c; omega
    have hsplitm := List.take_append_drop c m
    have hsplitu := List.take_append_drop c u
    have hlen2 : (m.drop c).length = (u.drop c).length := by simp [hlen]
    have hfit2 : skipsLE rest ((m.drop c).count false) := by rw [hm2cf]; exact hrest
    generalize hm2 : m.drop c = m2 at hm2cf hsplitm hlen2 hfit2 ⊢
    generalize hu2 : u.drop c = u2 at hsplitu hlen2 ⊢
    generalize hu1 : u.take c = u1 at hsplitu hu1len ⊢
    rw [← hsplitm, ← hsplitu]
    generalize hm1 : m.take c = m1 at hm1len hm1cf0 ⊢
    obtain ⟨ihV, ihD, ihT⟩ := ih m2 u2 hlen2 hfit2
    have hcnt1 : (List.replicate c false).count false = m1.length := by
      simp [List.count_replicate, hm1len]
    have hu1m1 : u1.length = m1.length := by rw [hm1len, hu1len]
    have hpv1 : (projVis u1 m1).length = k := by
      rw [length_projVis _ _ hu1m1, hm1cf0]
    have hassoc : u1 ++ s ++ insApply (expandIns m2 rest) u2
        = u1 ++ (s ++ insApply (expandIns m2 rest) u2) := by simp
    refine ⟨?_, ?_, ?_⟩
    · rw [hassoc, List.append_assoc, expand_append false m1 m2 _ _ hcnt1,
        expand_replicate_false false m1 c hm1len,
        expand_replicate_true_append,
        projVis_append _ _ _ _ hu1m1,
        projVis_append _ _ _ _ (by simp),
        projVis_replicate_false s s.length rfl,
        projVis_append u1 u2 m1 m2 hu1m1, ihV]
      rw [List.take_left' hpv1, List.drop_left' hpv1]
      simp
    · rw [hassoc, List.append_assoc, expand_append false m1 m2 _ _ hcnt1,
        expand_replicate_false false m1 c hm1len,
        expand_replicate_true_append,
        projDel_append _ _ _ _ hu1m1,
        projDel_append _ _ _ _ (by simp),
        projDel_replicate_false s s.length rfl,
        projDel_append u1 u2 m1 m2 hu1m1, ihD]
      simp
    · rw [hassoc, List.append_assoc, expand_append true m1 m2 _ _ hcnt1,
        expand_replicate_false true m1 c hm1len,
        expand_replicate_true_append,
        projVis_append _ _ _ _ hu1m1,
        projVis_append _ _ _ _ (by simp),
        projVis_replicate_true s s.length rfl,
        projVis_append u1 u2 m1 m2 hu1m1, ihT]
      simp

theorem shuffle_proj (t tb : List Char) (mo mn : List Bool)
    (h1 : mo.length = mn.length) (h2 : t.length = mo.count false)
    (h3 : tb.length = mo.count true) :
    (shuffle t tb mo mn).1 = projVis (interleave t tb mo) mn
    ∧ (shuffle t tb mo mn).2 = projDel (interleave t tb mo) mn := by
  constructor
  · exact synthApply_eq_projVis t tb mo mn h1 h2 h3
  · show shuffle_tombstones t tb mo mn = _
    rw [shuffle_tombstones,
      synthApply_eq_projVis tb t (subComp mo) (subComp mn)
        (by simp [length_subComp, h1])
        (by rw [count_false_subComp]; exact h3)
        (by rw [count_true_subComp]; exact h2),
      interleave_subComp, projVis_subComp]

theorem mk_new_rev_char (b : Buffer) (g : Nat) (d : OpDelta)
    (hWF : WFfrom 0 d.base_len d.ops)
    (hbase : d.base_len = b.text.length)
    (li1 : b.deletes_from_union.length = b.text.length + b.tombstones.length)
    (li2 : b.deletes_from_union.count true = b.tombstones.length)
    (hg : b.undone_groups.contains g = false) :
    (b.mk_new_rev g d).1
        = { num := b.rev_counter,
            max_undo_so_far := Nat.max g b.lastRev.max_undo_so_far,
            edit := Contents.edit g (editIns b.deletes_from_union d.ops)
              (subExpand (editDelOld d.base_len b.deletes_from_union d.ops)
                (editIns b.deletes_from_union d.ops)) }
    ∧ (b.mk_new_rev g d).2.1
        = projVis
            (editUnion b.deletes_from_union
              (interleave b.text b.tombstones b.deletes_from_union) d.ops)
            (editNewDfu d.base_len b.deletes_from_union d.ops)
    ∧ (b.mk_new_rev g d).2.2.1
        = projDel
            (editUnion b.deletes_from_union
              (interleave b.text b.tombstones b.deletes_from_union) d.ops)
            (editNewDfu d.base_len b.deletes_from_union d.ops)
    ∧ (b.mk_new_rev g d).2.2.2 = editNewDfu d.base_len b.deletes_from_union d.ops := by
  have hcf : b.deletes_from_union.count false = b.text.length := by
    have := count_false_add_count_true b.deletes_from_union
    omega
  have hI : skipsLE (factorIns 0 d.ops) (b.deletes_from_union.count false) := by
    rw [hcf, ← hbase]
    simpa using skipsLE_factorIns 0 d.base_len d.ops hWF
  have hI2 : skipsLE (expandIns b.deletes_from_union (factorIns 0 d.ops))
      b.deletes_from_union.length := skipsLE_expandIns _ _
  have hni_cf : (editIns b.deletes_from_union d.ops).count false
      = b.deletes_from_union.length := count_false_insSubset _ _ hI2
  have hni_len : (editIns b.deletes_from_union d.ops).length
      = b.deletes_from_union.length + insTotal (factorIns 0 d.ops) := by
    rw [editIns, length_insSubset _ _ hI2, insTotal_expandIns]
  have hni_ct : (editIns b.deletes_from_union d.ops).count true
      = insTotal (factorIns 0 d.ops) := by
    rw [editIns, count_true_insSubset _ _ hI2, insTotal_expandIns]
  have hnd0_len : (editDelOld d.base_len b.deletes_from_union d.ops).length
      = b.deletes_from_union.length := length_subExpandWith _ _ _
  have hshrink : shrinkIns b.deletes_from_union
      (expandIns b.deletes_from_union (factorIns 0 d.ops)) = factorIns 0 d.ops :=
    shrinkIns_expandIns _ _ hI
  have hU0len : (interleave b.text b.tombstones b.deletes_from_union).length
      = b.deletes_from_union.length :=
    length_interleave _ _ _ hcf.symm li2.symm
  have hvis : projVis (interleave b.text b.tombstones b.deletes_from_union)
      b.deletes_from_union = b.text := projVis_interleave _ _ _ hcf.symm li2.symm
  have hdel : projDel (interleave b.text b.tombstones b.deletes_from_union)
      b.deletes_from_union = b.tombstones := projDel_interleave _ _ _ hcf.symm li2.symm
  obtain ⟨coreV, coreD, _coreT⟩ := proj_insApply_expand (factorIns 0 d.ops)
    b.deletes_from_union (interleave b.text b.tombstones b.deletes_from_union)
    hU0len.symm hI
  rw [hvis] at coreV
  have hU1len : (editUnion b.deletes_from_union
      (interleave b.text b.tombstones b.deletes_from_union) d.ops).length
      = b.deletes_from_union.length + insTotal (factorIns 0 d.ops) := by
    rw [editUnion, length_insApply _ _ (by rw [hU0len]; exact hI2), hU0len,
      insTotal_expandIns]
  have hrb_len : (subExpand b.deletes_from_union (editIns b.deletes_from_union d.ops)).length
      = (editIns b.deletes_from_union d.ops).length := length_subExpandWith _ _ _
  have hrb_cf : (subExpand b.deletes_from_union (editIns b.deletes_from_union d.ops)).count false
      = b.text.length + insTotal (factorIns 0 d.ops) := by
    rw [subExpand, count_false_subExpandWith false _ _ hni_cf.symm, hni_ct, hcf]
    simp
  have hrb_ct : (subExpand b.deletes_from_union (editIns b.deletes_from_union d.ops)).count true
      = b.tombstones.length := by
    rw [subExpand, count_true_subExpandWith false _ _ hni_cf.symm, li2]
    simp
  have htwi_len : (insApply (factorIns 0 d.ops) b.text).length
      = b.text.length + insTotal (factorIns 0 d.ops) :=
    length_insApply _ _ (by rw [← hcf]; exact hI)
  have hnd_join : (if subIsEmpty (editIns b.deletes_from_union d.ops)
        then editDelOld d.base_len b.deletes_from_union d.ops
        else subExpand (editDelOld d.base_len b.deletes_from_union d.ops)
          (editIns b.deletes_from_union d.ops))
      = subExpand (editDelOld d.base_len b.deletes_from_union d.ops)
          (editIns b.deletes_from_union d.ops) := by
    by_cases he : subIsEmpty (editIns b.deletes_from_union d.ops)
    · rw [if_pos he]
      refine (subExpandWith_of_isEmpty false _ _ he ?_).symm
      rw [hnd0_len]
      have := count_false_of_isEmpty _ he
      omega
    · rw [if_neg he]
  have hdfu : subUnion (subExpand b.deletes_from_union (editIns b.deletes_from_union d.ops))
        (subExpand (editDelOld d.base_len b.deletes_from_union d.ops)
          (editIns b.deletes_from_union d.ops))
      = editNewDfu d.base_len b.deletes_from_union d.ops := by
    rw [subExpand, subExpand, subUnion,
      zipWith_subExpandWith _ false false _ _ _ hni_cf.symm
        (by rw [hnd0_len, hni_cf])]
    rfl
  have hdf_len : (editNewDfu d.base_len b.deletes_from_union d.ops).length
      = (editIns b.deletes_from_union d.ops).length := length_subExpandWith _ _ _
  have htwi_eq : insApply (factorIns 0 d.ops) b.text
      = projVis (editUnion b.deletes_from_union
          (interleave b.text b.tombstones b.deletes_from_union) d.ops)
        (subExpand b.deletes_from_union (editIns b.deletes_from_union d.ops)) :=
    coreV.symm
  have htomb_eq : b.tombstones
      = projDel (editUnion b.deletes_from_union
          (interleave b.text b.tombstones b.deletes_from_union) d.ops)
        (subExpand b.deletes_from_union (editIns b.deletes_from_union d.ops)) := by
    conv_lhs => rw [← hdel]
    exact coreD.symm
  have hinter : interleave (insApply (factorIns 0 d.ops) b.text) b.tombstones
        (subExpand b.deletes_from_union (editIns b.deletes_from_union d.ops))
      = editUnion b.deletes_from_union
          (interleave b.text b.tombstones b.deletes_from_union) d.ops := by
    conv_lhs => rw [htomb_eq, htwi_eq]
    exact interleave_proj _ _ (by rw [hU1len, hrb_len, hni_len])
  obtain ⟨hsh1, hsh2⟩ := shuffle_proj (insApply (factorIns 0 d.ops) b.text)
    b.tombstones (subExpand b.deletes_from_union (editIns b.deletes_from_union d.ops))
    (editNewDfu d.base_len b.deletes_from_union d.ops)
    (by rw [hrb_len, hdf_len]) (by rw [hrb_cf, htwi_len]) (by rw [hrb_ct])
  rw [hinter] at hsh1 hsh2
  have eIns : ∀ (m : List Bool) (ops : List (Nat × Nat × List Char)),
      insSubset (expandIns m (factorIns 0 ops)) m.length = editIns m ops :=
    fun _ _ => rfl
  have eDel : ∀ (n : Nat) (m : List Bool) (ops : List (Nat × Nat × List Char)),
      subExpand (factorDel n 0 ops) m = editDelOld n m ops :=
    fun _ _ _ => rfl
  simp only [Buffer.mk_new_rev, eIns, eDel]
  rw [hshrink, hnd_join]
  simp only [hg, Bool.false_eq_true, if_false]
  rw [hdfu]
  refine ⟨trivial, hsh1, hsh2, ?_⟩
  rfl

/-! ### Length bookkeeping along the revision log. -/

theorem length_subUnion (a b : List Bool) :
    (subUnion a b).length = Nat.min a.length b.length := by
  simp [subUnion]

theorem length_subSub (a b : List Bool) :
    (subSub a b).length = Nat.min a.length b.length := by
  simp [subSub]

theorem bwdStep_edit (inv : Bool) (n mx g : Nat) (ins dels : List Bool)
    (dfu : List Bool) (und : List Nat) :
    bwdStep inv ⟨n, mx, Contents.edit g ins dels⟩ (dfu, und)
      = if und.contains g = true then (subShrink dfu ins, und)
        else (subShrink (subSub dfu dels) ins, und) := rfl

theorem bwdStep_undo (inv : Bool) (n mx : Nat) (t : List Nat) (bx : List Bool)
    (dfu : List Bool) (und : List Nat) :
    bwdStep inv ⟨n, mx, Contents.undo t bx⟩ (dfu, und)
      = if inv = true then (subXor dfu bx, setXor und t) else (dfu, und) := rfl

theorem fwdStep_edit (groups : List Nat) (dfu : List Bool) (n mx g : Nat)
    (ins dels : List Bool) :
    fwdStep groups dfu ⟨n, mx, Contents.edit g ins dels⟩
      = if groups.contains g = true then
          (if subIsEmpty ins = true then dfu else subTransformUnion dfu ins)
        else
          (if subIsEmpty dels = true
            then (if subIsEmpty ins = true then dfu else subExpand dfu ins)
            else subUnion (if subIsEmpty ins = true then dfu else subExpand dfu ins)
              dels) := rfl

theorem fwdStep_undo (groups : List Nat) (dfu : List Bool) (n mx : Nat)
    (t : List Nat) (bx : List Bool) :
    fwdStep groups dfu ⟨n, mx, Contents.undo t bx⟩ = dfu := rfl

theorem lensEnd_append (L : Nat) (l1 l2 : List Revision) :
    lensEnd L (l1 ++ l2) = lensEnd (lensEnd L l1) l2 := by
  induction l1 generalizing L with
  | nil => rfl
  | cons r l1 ih => simp only [List.cons_append, lensEnd, List.append_eq, ih]

theorem LensFrom_append (L : Nat) (l1 l2 : List Revision) :
    LensFrom L (l1 ++ l2) ↔ LensFrom L l1 ∧ LensFrom (lensEnd L l1) l2 := by
  induction l1 generalizing L with
  | nil => simp [LensFrom, lensEnd]
  | cons r l1 ih =>
    simp only [List.cons_append, LensFrom, lensEnd, List.append_eq, ih, and_assoc]

theorem bwd_len (l : List Revision) (L : Nat) (dfu : List Bool) (und : List Nat)
    (hF : LensFrom L l) (h : dfu.length = lensEnd L l) :
    (l.foldr (bwdStep false) (dfu, und)).1.length = L
    ∧ (l.foldr (bwdStep false) (dfu, und)).2 = und := by
  induction l generalizing L with
  | nil => exact ⟨h, rfl⟩
  | cons r rest ih =>
    obtain ⟨h1, h2⟩ := hF
    obtain ⟨ihl, ihu⟩ := ih (revOut L r) h2 h
    revert ihl ihu
    cases hi : rest.foldr (bwdStep false) (dfu, und) with
    | mk idfu iund =>
      intro ihl ihu
      simp only at ihl ihu
      subst ihu
      obtain ⟨n, mx, ed⟩ := r
      cases ed with
      | edit g ins dels =>
        obtain ⟨hcf, hdl⟩ := h1
        simp only [revOut, Revision.edit] at ihl
        simp only [List.foldr_cons, hi, bwdStep_edit]
        by_cases hg : iund.contains g = true
        · rw [if_pos hg]
          exact ⟨by rw [length_subShrink _ _ ihl, hcf], rfl⟩
        · rw [if_neg hg]
          refine ⟨?_, rfl⟩
          rw [length_subShrink, hcf]
          rw [length_subSub, ihl, hdl]
          exact Nat.min_self _
      | undo t bx =>
        simp only [revOut, Revision.edit] at ihl
        simp only [List.foldr_cons, hi, bwdStep_undo]
        rw [if_neg (by simp)]
        exact ⟨ihl, rfl⟩

theorem fwdStep_len_edit (groups : List Nat) (dfu : List Bool) (n mx g : Nat)
    (ins dels : List Bool) (hcf : ins.count false = dfu.length)
    (hdl : dels.length = ins.length) :
    (fwdStep groups dfu ⟨n, mx, Contents.edit g ins dels⟩).length = ins.length := by
  have hemp : subIsEmpty ins = true → dfu.length = ins.length := fun he => by
    rw [← hcf, count_false_of_isEmpty _ he]
  have hd1 : (if subIsEmpty ins = true then dfu else subExpand dfu ins).length
      = ins.length := by
    by_cases he : subIsEmpty ins = true
    · rw [if_pos he]; exact hemp he
    · rw [if_neg he]; exact length_subExpandWith _ _ _
  rw [fwdStep_edit]
  by_cases hg : groups.contains g = true
  · rw [if_pos hg]
    by_cases he : subIsEmpty ins = true
    · rw [if_pos he]; exact hemp he
    · rw [if_neg he]; exact length_subExpandWith _ _ _
  · rw [if_neg hg]
    by_cases hde : subIsEmpty dels = true
    · rw [if_pos hde]; exact hd1
    · rw [if_neg hde]
      rw [length_subUnion, hd1, hdl]
      exact Nat.min_self _

theorem fwd_len (groups : List Nat) (l : List Revision) (L : Nat)
    (dfu : List Bool) (hF : LensFrom L l) (h : dfu.length = L) :
    (l.foldl (fwdStep groups) dfu).length = lensEnd L l := by
  induction l generalizing L dfu with
  | nil => simpa [lensEnd] using h
  | cons r rest ih =>
    obtain ⟨h1, h2⟩ := hF
    obtain ⟨n, mx, ed⟩ := r
    cases ed with
    | edit g ins dels =>
      obtain ⟨hcf, hdl⟩ := h1
      simp only [List.foldl_cons]
      exact ih _ _ h2 (fwdStep_len_edit groups dfu n mx g ins dels (by rw [hcf, h]) hdl)
    | undo t bx =>
      simp only [List.foldl_cons, fwdStep_undo]
      exact ih _ _ h2 h

theorem compute_undo_dfu (b : Buffer) (G : List Nat) :
    (b.compute_undo G).2
      = (b.revs.drop
            (b.find_first_undo_candidate_index (setXor b.undone_groups G))).foldl
          (fwdStep G)
          (b.deletes_from_union_before_index
            (b.find_first_undo_candidate_index (setXor b.undone_groups G))
            false) := rfl

theorem compute_undo_len (b : Buffer) (L0 : Nat) (hF : LensFrom L0 b.revs)
    (hE : lensEnd L0 b.revs = b.deletes_from_union.length) (G : List Nat) :
    (b.compute_undo G).2.length = b.deletes_from_union.length := by
  rw [compute_undo_dfu]
  have hsplit := List.take_append_drop
    (b.find_first_undo_candidate_index (setXor b.undone_groups G)) b.revs
  rw [← hsplit] at hF hE
  rw [LensFrom_append] at hF
  rw [lensEnd_append] at hE
  obtain ⟨hbl, _⟩ := bwd_len
    (b.revs.drop (b.find_first_undo_candidate_index (setXor b.undone_groups G)))
    (lensEnd L0
      (b.revs.take (b.find_first_undo_candidate_index (setXor b.undone_groups G))))
    b.deletes_from_union b.undone_groups hF.2 hE.symm
  rw [Buffer.deletes_from_union_before_index,
    fwd_len G _ _ _ hF.2 hbl, hE]

theorem contains_eq_false_of_not_mem (l : List Nat) (x : Nat) (h : x ∉ l) :
    l.contains x = false := by
  simpa using h

theorem calc_group_not_undone (b : Buffer) (hb : Inv1 b) :
    b.undone_groups.contains (b.calculate_undo_group).1 = false := by
  rw [← hb.undos_eq]
  by_cases h : calcCond b = true
  · rw [calculate_undo_group_pos b h]
    have hu := calcCond_unbroken b h
    exact contains_eq_false_of_not_mem _ _ (hb.coal (hu.1 ▸ hu.2))
  · rw [calculate_undo_group_neg b (by simpa using h)]
    refine contains_eq_false_of_not_mem _ _ ?_
    intro hmem
    exact absurd (hb.undos_lt _ hmem) (Nat.lt_irrefl _)

theorem edit_model_lens (m : List Bool) (u : List Char) (n : Nat)
    (ops : List (Nat × Nat × List Char)) (hWF : WFfrom 0 n ops)
    (hn : n = m.count false) (hu : u.length = m.length) :
    (editIns m ops).count false = m.length
    ∧ (editIns m ops).length = (editNewDfu n m ops).length
    ∧ (editUnion m u ops).length = (editNewDfu n m ops).length := by
  have hI2 : skipsLE (expandIns m (factorIns 0 ops)) m.length := skipsLE_expandIns _ _
  have h1 : (editIns m ops).count false = m.length := count_false_insSubset _ _ hI2
  have h2 : (editNewDfu n m ops).length = (editIns m ops).length :=
    length_subExpandWith _ _ _
  refine ⟨h1, h2.symm, ?_⟩
  rw [h2, editUnion, length_insApply _ _ (by rw [hu]; exact hI2), editIns,
    length_insSubset _ _ hI2, hu]

theorem add_delta_text (b : Buffer) (d : OpDelta) :
    (b.add_delta d).1.text
      = ({ (b.calculate_undo_group).2 with
            last_edit_type := (b.calculate_undo_group).2.this_edit_type }.mk_new_rev
          (b.calculate_undo_group).1 d).2.1 := rfl

theorem add_delta_tombstones (b : Buffer) (d : OpDelta) :
    (b.add_delta d).1.tombstones
      = ({ (b.calculate_undo_group).2 with
            last_edit_type := (b.calculate_undo_group).2.this_edit_type }.mk_new_rev
          (b.calculate_undo_group).1 d).2.2.1 := rfl

theorem add_delta_dfu (b : Buffer) (d : OpDelta) :
    (b.add_delta d).1.deletes_from_union
      = ({ (b.calculate_undo_group).2 with
            last_edit_type := (b.calculate_undo_group).2.this_edit_type }.mk_new_rev
          (b.calculate_undo_group).1 d).2.2.2 := rfl

theorem inv2_add_delta (b : Buffer) (h1 : Inv1 b) (h2 : Inv2 b) (d : OpDelta)
    (hWF : WFfrom 0 d.base_len d.ops) (hbase : d.base_len = b.text.length) :
    Inv2 (b.add_delta d).1 := by
  obtain ⟨hcrevs, hcctr, hcundos, hcundone, hctext, hctomb, hcdfu⟩ := calc_fields b
  obtain ⟨hrev, htx, htb, hdf⟩ := mk_new_rev_char
    { (b.calculate_undo_group).2 with
      last_edit_type := (b.calculate_undo_group).2.this_edit_type }
    (b.calculate_undo_group).1 d hWF
    (show d.base_len = (b.calculate_undo_group).2.text.length by rw [hctext]; exact hbase)
    (show (b.calculate_undo_group).2.deletes_from_union.length
        = (b.calculate_undo_group).2.text.length
          + (b.calculate_undo_group).2.tombstones.length by
      rw [hctext, hctomb, hcdfu]; exact h2.li1)
    (show (b.calculate_undo_group).2.deletes_from_union.count true
        = (b.calculate_undo_group).2.tombstones.length by
      rw [hctomb, hcdfu]; exact h2.li2)
    (show (b.calculate_undo_group).2.undone_groups.contains
        (b.calculate_undo_group).1 = false by
      rw [hcundone]; exact calc_group_not_undone b h1)
  have hT : (b.add_delta d).1.text
      = projVis
          (editUnion b.deletes_from_union
            (interleave b.text b.tombstones b.deletes_from_union) d.ops)
          (editNewDfu d.base_len b.deletes_from_union d.ops) := by
    rw [add_delta_text, ← hctext, ← hctomb, ← hcdfu]
    exact htx
  have hB : (b.add_delta d).1.tombstones
      = projDel
          (editUnion b.deletes_from_union
            (interleave b.text b.tombstones b.deletes_from_union) d.ops)
          (editNewDfu d.base_len b.deletes_from_union d.ops) := by
    rw [add_delta_tombstones, ← hctext, ← hctomb, ← hcdfu]
    exact htb
  have hD : (b.add_delta d).1.deletes_from_union
      = editNewDfu d.base_len b.deletes_from_union d.ops := by
    rw [add_delta_dfu, ← hcdfu]
    exact hdf
  have hclast : (b.calculate_undo_group).2.lastRev = b.lastRev := by
    rw [Buffer.lastRev, Buffer.lastRev, hcrevs]
  have hR : (b.add_delta d).1.revs
      = b.revs ++
          [{ num := b.rev_counter,
             max_undo_so_far :=
               Nat.max (b.calculate_undo_group).1 b.lastRev.max_undo_so_far,
             edit := Contents.edit (b.calculate_undo_group).1
               (editIns b.deletes_from_union d.ops)
               (subExpand (editDelOld d.base_len b.deletes_from_union d.ops)
                 (editIns b.deletes_from_union d.ops)) }] := by
    rw [add_delta_revs]
    refine congrArg (fun r => b.revs ++ [r]) ?_
    rw [← hcctr, ← hclast, ← hcdfu]
    exact hrev
  obtain ⟨hml1, hml2, hml3⟩ := edit_model_lens b.deletes_from_union
    (interleave b.text b.tombstones b.deletes_from_union) d.base_len d.ops hWF
    (by
      have := count_false_add_count_true b.deletes_from_union
      have := h2.li1
      have := h2.li2
      omega)
    (length_interleave _ _ _
      (by
        have := count_false_add_count_true b.deletes_from_union
        have := h2.li1
        have := h2.li2
        omega)
      h2.li2.symm)
  refine ⟨?_, ?_, ?_⟩
  · rw [hD, hT, hB, length_projVis _ _ hml3, length_projDel _ _ hml3]
    have := count_false_add_count_true (editNewDfu d.base_len b.deletes_from_union d.ops)
    omega
  · rw [hD, hB, length_projDel _ _ hml3]
  · obtain ⟨L0, hF, hE⟩ := h2.chain
    refine ⟨L0, ?_, ?_⟩
    · rw [hR, LensFrom_append]
      refine ⟨hF, ?_, trivial⟩
      show (editIns b.deletes_from_union d.ops).count false = lensEnd L0 b.revs
        ∧ (subExpand (editDelOld d.base_len b.deletes_from_union d.ops)
            (editIns b.deletes_from_union d.ops)).length
          = (editIns b.deletes_from_union d.ops).length
      exact ⟨by rw [hml1, ← hE], length_subExpandWith _ _ _⟩
    · rw [hR, lensEnd_append, hD]
      show (editIns b.deletes_from_union d.ops).length
        = (editNewDfu d.base_len b.deletes_from_union d.ops).length
      exact hml2

theorem inv2_undo (b : Buffer) (G : List Nat) (h2 : Inv2 b) : Inv2 (b.undo G).1 := by
  obtain ⟨L0, hF, hE⟩ := h2.chain
  have hcf : b.deletes_from_union.count false = b.text.length := by
    have := count_false_add_count_true b.deletes_from_union
    have := h2.li1
    have := h2.li2
    omega
  have hlen : (b.compute_undo G).2.length = b.deletes_from_union.length :=
    compute_undo_len b L0 hF hE G
  obtain ⟨hs1, hs2⟩ := shuffle_proj b.text b.tombstones b.deletes_from_union
    (b.compute_undo G).2 hlen.symm hcf.symm h2.li2.symm
  have hT : (b.undo G).1.text
      = projVis (interleave b.text b.tombstones b.deletes_from_union)
          (b.compute_undo G).2 := hs1
  have hB : (b.undo G).1.tombstones
      = projDel (interleave b.text b.tombstones b.deletes_from_union)
          (b.compute_undo G).2 := hs2
  have hD : (b.undo G).1.deletes_from_union = (b.compute_undo G).2 := rfl
  have hR : (b.undo G).1.revs = b.revs ++ [(b.compute_undo G).1] := rfl
  have hUlen : (interleave b.text b.tombstones b.deletes_from_union).length
      = (b.compute_undo G).2.length := by
    rw [length_interleave _ _ _ hcf.symm h2.li2.symm, hlen]
  refine ⟨?_, ?_, ?_⟩
  · rw [hD, hT, hB, length_projVis _ _ hUlen, length_projDel _ _ hUlen]
    have := count_false_add_count_true (b.compute_undo G).2
    omega
  · rw [hD, hB, length_projDel _ _ hUlen]
  · refine ⟨L0, ?_, ?_⟩
    · rw [hR, LensFrom_append]
      exact ⟨hF, trivial, trivial⟩
    · rw [hR, lensEnd_append, hD]
      show lensEnd L0 b.revs = (b.compute_undo G).2.length
      rw [hE, hlen]

theorem inv2_do_undo (b : Buffer) (h2 : Inv2 b) : Inv2 b.do_undo.1 := by
  by_cases h : b.cur_undo ≤ 1
  · simpa [Buffer.do_undo, if_pos h] using h2
  · simp only [Buffer.do_undo, if_neg h]
    refine inv2_undo _ _ ?_
    exact ⟨h2.li1, h2.li2, h2.chain⟩

theorem inv2_do_redo (b : Buffer) (h2 : Inv2 b) : Inv2 b.do_redo.1 := by
  by_cases h : b.cur_undo ≥ b.live_undos.length
  · simpa [Buffer.do_redo, if_pos h] using h2
  · simp only [Buffer.do_redo, if_neg h]
    refine inv2_undo _ _ ?_
    exact ⟨h2.li1, h2.li2, h2.chain⟩

theorem inv2_new (s : List Char) : Inv2 (Buffer.new s) := by
  refine ⟨?_, ?_, ?_⟩
  · simp [Buffer.new]
  · simp [Buffer.new, List.count_replicate]
  · refine ⟨(((determineLineEnding s).getD LineEnding.Lf).normalize_limited s).length,
      ⟨trivial, trivial⟩, ?_⟩
    simp [Buffer.new, lensEnd, revOut, sentinelRevision]

theorem inv2_edit (b : Buffer) (h1 : Inv1 b) (h2 : Inv2 b)
    (edits : List (List (Nat × Nat) × List Char)) (ty : EditType)
    (hWF : WFfrom 0 b.text.length (b.editOps edits)) :
    Inv2 (b.edit edits ty).1 := by
  simp only [Buffer.edit]
  refine inv2_add_delta _ ?_ ?_ _ ?_ ?_
  · exact ⟨h1.revs_ne, h1.counter_eq, h1.cur_lo, h1.cur_hi, h1.live_ne, h1.live_lt,
      h1.gid_pos, h1.undos_eq, h1.undos_lt, h1.undos_sorted, h1.max_lt, h1.coal⟩
  · exact ⟨h2.li1, h2.li2, h2.chain⟩
  · exact hWF
  · rfl

theorem reload_wf (b : Buffer) (c : List Char) :
    WFfrom 0 b.text.length [(0, b.text.length, c)] := by
  exact ⟨Nat.le_refl 0, Nat.zero_le _, Nat.le_refl _⟩

theorem inv2_reload (b : Buffer) (h1 : Inv1 b) (h2 : Inv2 b) (content : List Char)
    (setP : Bool) : Inv2 (b.reload content setP).1 := by
  simp only [Buffer.reload]
  have key : Inv2 (({ b with
      line_ending := (determineLineEnding content).getD b.line_ending,
      this_edit_type := EditType.Other }).add_delta
      { base_len := b.text.length,
        ops := [(0, b.text.length,
          ((determineLineEnding content).getD b.line_ending).normalize_limited
            content)] }).1 := by
    refine inv2_add_delta _ ?_ ?_ _ ?_ ?_
    · exact ⟨h1.revs_ne, h1.counter_eq, h1.cur_lo, h1.cur_hi, h1.live_ne, h1.live_lt,
        h1.gid_pos, h1.undos_eq, h1.undos_lt, h1.undos_sorted, h1.max_lt, h1.coal⟩
    · exact ⟨h2.li1, h2.li2, h2.chain⟩
    · exact reload_wf b _
    · rfl
  by_cases hs : setP
  · simp only [if_pos hs]
    exact ⟨key.li1, key.li2, key.chain⟩
  · simp only [if_neg hs]
    exact key

theorem reach_inv2 (b : Buffer) (hb : Reach b) : Inv2 b := by
  induction hb with
  | new s => exact inv2_new s
  | edit b edits ty hr hWF ih => exact inv2_edit b (reach_inv1 b hr) ih edits ty hWF
  | reload b content setP hr ih => exact inv2_reload b (reach_inv1 b hr) ih content setP
  | undo b _ ih => exact inv2_do_undo b ih
  | redo b _ ih => exact inv2_do_redo b ih

/-- C2: in every reachable buffer state, `text.len() + tombstones.len()`
equals the length of `deletes_from_union` (the union-string length), the
number of positions marked deleted equals `tombstones.len()`, and the
deleted positions carry exactly the tombstones' content in order (the
visible positions carry the text): the union string reassembled by
interleaving text and tombstones along the subset projects back onto both. -/
theorem c2_union_length_invariant (b : Buffer) (hb : Reach b) :
    b.text.length + b.tombstones.length = b.deletes_from_union.length
    ∧ b.deletes_from_union.count true = b.tombstones.length
    ∧ projVis (interleave b.text b.tombstones b.deletes_from_union)
        b.deletes_from_union = b.text
    ∧ projDel (interleave b.text b.tombstones b.deletes_from_union)
        b.deletes_from_union = b.tombstones := by
  have h2 := reach_inv2 b hb
  have hcf : b.deletes_from_union.count false = b.text.length := by
    have := count_false_add_count_true b.deletes_from_union
    have := h2.li1
    have := h2.li2
    omega
  exact ⟨h2.li1.symm, h2.li2,
    projVis_interleave _ _ _ hcf.symm h2.li2.symm,
    projDel_interleave _ _ _ hcf.symm h2.li2.symm⟩

theorem c2_union_length_invariant_witness :
    ((((Buffer.new ['a', 'b', 'c']).edit [([(1, 2)], ['X', 'Y'])]
        EditType.InsertChars).1.do_undo.1).text.length
      + (((Buffer.new ['a', 'b', 'c']).edit [([(1, 2)], ['X', 'Y'])]
        EditType.InsertChars).1.do_undo.1).tombstones.length
      = (((Buffer.new ['a', 'b', 'c']).edit [([(1, 2)], ['X', 'Y'])]
        EditType.InsertChars).1.do_undo.1).deletes_from_union.length)
    ∧ ((((Buffer.new ['a', 'b', 'c']).edit [([(1, 2)], ['X', 'Y'])]
        EditType.InsertChars).1.do_undo.1).deletes_from_union.count true
      = (((Buffer.new ['a', 'b', 'c']).edit [([(1, 2)], ['X', 'Y'])]
        EditType.InsertChars).1.do_undo.1).tombstones.length)
    ∧ (projVis
        (interleave
          (((Buffer.new ['a', 'b', 'c']).edit [([(1, 2)], ['X', 'Y'])]
            EditType.InsertChars).1.do_undo.1).text
          (((Buffer.new ['a', 'b', 'c']).edit [([(1, 2)], ['X', 'Y'])]
            EditType.InsertChars).1.do_undo.1).tombstones
          (((Buffer.new ['a', 'b', 'c']).edit [([(1, 2)], ['X', 'Y'])]
            EditType.InsertChars).1.do_undo.1).deletes_from_union)
        (((Buffer.new ['a', 'b', 'c']).edit [([(1, 2)], ['X', 'Y'])]
            EditType.InsertChars).1.do_undo.1).deletes_from_union
      = (((Buffer.new ['a', 'b', 'c']).edit [([(1, 2)], ['X', 'Y'])]
            EditType.InsertChars).1.do_undo.1).text)
    ∧ (projDel
        (interleave
          (((Buffer.new ['a', 'b', 'c']).edit [([(1, 2)], ['X', 'Y'])]
            EditType.InsertChars).1.do_undo.1).text
          (((Buffer.new ['a', 'b', 'c']).edit [([(1, 2)], ['X', 'Y'])]
            EditType.InsertChars).1.do_undo.1).tombstones
          (((Buffer.new ['a', 'b', 'c']).edit [([(1, 2)], ['X', 'Y'])]
            EditType.InsertChars).1.do_undo.1).deletes_from_union)
        (((Buffer.new ['a', 'b', 'c']).edit [([(1, 2)], ['X', 'Y'])]
            EditType.InsertChars).1.do_undo.1).deletes_from_union
      = (((Buffer.new ['a', 'b', 'c']).edit [([(1, 2)], ['X', 'Y'])]
            EditType.InsertChars).1.do_undo.1).tombstones) :=
  c2_union_length_invariant _
    (Reach.undo _ (Reach.edit _ _ _ (Reach.new ['a', 'b', 'c']) (by decide)))

/-! ### Set lemmas for group toggling. -/

theorem contains_eq_true_of_mem (l : List Nat) (x : Nat) (h : x ∈ l) :
    l.contains x = true := by
  simpa using h

theorem filter_not_contains_nil (l a : List Nat) (h : ∀ x ∈ l, x ∈ a) :
    l.filter (fun x => !a.contains x) = [] := by
  rw [List.filter_eq_nil_iff]
  intro x hx
  rw [contains_eq_true_of_mem a x (h x hx)]
  simp

theorem setInsert_filter_not (g : Nat) (a : List Nat) (h : g ∉ a) :
    (setInsert g a).filter (fun x => !a.contains x) = [g] := by
  induction a with
  | nil => simp [setInsert]
  | cons y l ih =>
    have hgy : g ≠ y := fun he => h (he ▸ List.mem_cons_self _ _)
    have hgl : g ∉ l := fun hm => h (List.mem_cons_of_mem _ hm)
    rcases Nat.lt_trichotomy g y with hlt | heq | hgt
    · rw [setInsert, if_pos hlt]
      rw [List.filter_cons_of_pos (by simpa using h)]
      rw [filter_not_contains_nil _ _ (fun x hx => hx)]
    · exact absurd heq hgy
    · rw [setInsert, if_neg (by omega), if_neg hgy]
      rw [List.filter_cons_of_neg (by simp)]
      rw [List.filter_congr (fun x hx => ?_), ih hgl]
      show (!(y :: l).contains x) = (!l.contains x)
      rcases (mem_setInsert g x l).1 hx with rfl | hx
      · rw [contains_eq_false_of_not_mem _ _ h, contains_eq_false_of_not_mem _ _ hgl]
      · rw [contains_eq_true_of_mem _ _ (List.mem_cons_of_mem y hx),
          contains_eq_true_of_mem _ _ hx]

theorem setXor_insert_right (g : Nat) (a : List Nat) (h : g ∉ a) :
    setXor a (setInsert g a) = [g] := by
  rw [setXor, filter_not_contains_nil _ _
    (fun x hx => (mem_setInsert g x a).2 (Or.inr hx)),
    setInsert_filter_not g a h]
  rfl

theorem setXor_insert_left (g : Nat) (a : List Nat) (h : g ∉ a) :
    setXor (setInsert g a) a = [g] := by
  rw [setXor, filter_not_contains_nil _ _ (fun x hx => (mem_setInsert g x a).2 (Or.inr hx)),
    setInsert_filter_not g a h]
  rfl

theorem setXor_nil_left (l : List Nat) : setXor [] l = l := by
  rw [setXor, List.filter_nil, List.nil_append]
  simpa using List.filter_true l

theorem setXor_nil_right (l : List Nat) : setXor l [] = l := by
  rw [setXor, List.filter_nil, List.append_nil]
  simpa using List.filter_true l

theorem setErase_setInsert (g : Nat) (a : List Nat) (h : g ∉ a) :
    setErase g (setInsert g a) = a := by
  induction a with
  | nil => simp [setInsert, setErase]
  | cons y l ih =>
    have hgy : g ≠ y := fun he => h (he ▸ List.mem_cons_self _ _)
    have hgl : g ∉ l := fun hm => h (List.mem_cons_of_mem _ hm)
    rcases Nat.lt_trichotomy g y with hlt | heq | hgt
    · rw [setInsert, if_pos hlt, setErase, if_pos rfl]
    · exact absurd heq hgy
    · rw [setInsert, if_neg (by omega), if_neg hgy, setErase, if_neg hgy, ih hgl]

theorem listMin_single (g : Nat) : listMin [g] = some g := rfl

theorem lastBelow_all_ge (l : List Revision) (lowest : Nat)
    (h : ∀ r ∈ l, lowest ≤ r.max_undo_so_far) : lastBelow l lowest = 0 := by
  induction l with
  | nil => rfl
  | cons r rest ih =>
    rw [lastBelow, ih (fun x hx => h x (List.mem_cons_of_mem _ hx)), if_pos rfl,
      if_neg (by have := h r (List.mem_cons_self _ _); omega)]

theorem lastBelow_append (l1 l2 : List Revision) (lowest : Nat)
    (h1 : ∀ r ∈ l1, r.max_undo_so_far < lowest)
    (h2 : ∀ r ∈ l2, lowest ≤ r.max_undo_so_far) :
    lastBelow (l1 ++ l2) lowest = l1.length := by
  induction l1 with
  | nil => exact lastBelow_all_ge l2 lowest h2
  | cons r rest ih =>
    rw [List.cons_append, lastBelow,
      ih (fun x hx => h1 x (List.mem_cons_of_mem _ hx))]
    by_cases hr : rest.length = 0
    · rw [if_pos hr, if_pos (h1 r (List.mem_cons_self _ _))]
      simp [hr]
    · rw [if_neg hr]
      simp

theorem getD_take_concat (c : Nat) (l : List Nat) (g : Nat) (h : c ≤ l.length) :
    (l.take c ++ [g]).getD c 0 = g := by
  induction c generalizing l with
  | zero => simp
  | succ c ih =>
    cases l with
    | nil => simp at h
    | cons x xs =>
      rw [List.take_succ_cons, List.cons_append]
      simpa using ih xs (by simpa using h)

theorem edit_break_state (b : Buffer)
    (edits : List (List (Nat × Nat) × List Char)) (ty : EditType)
    (h1 : Inv1 b) (h2 : Inv2 b)
    (hWF : WFfrom 0 b.text.length (b.editOps edits))
    (hbrk : ty.breaks_undo_group b.last_edit_type = true) :
    (b.edit edits ty).1.text
        = projVis
            (editUnion b.deletes_from_union
              (interleave b.text b.tombstones b.deletes_from_union)
              (b.editOps edits))
            (editNewDfu b.text.length b.deletes_from_union (b.editOps edits))
    ∧ (b.edit edits ty).1.tombstones
        = projDel
            (editUnion b.deletes_from_union
              (interleave b.text b.tombstones b.deletes_from_union)
              (b.editOps edits))
            (editNewDfu b.text.length b.deletes_from_union (b.editOps edits))
    ∧ (b.edit edits ty).1.deletes_from_union
        = editNewDfu b.text.length b.deletes_from_union (b.editOps edits)
    ∧ (b.edit edits ty).1.revs
        = b.revs ++
            [{ num := b.rev_counter,
               max_undo_so_far := Nat.max b.undo_group_id b.lastRev.max_undo_so_far,
               edit := Contents.edit b.undo_group_id
                 (editIns b.deletes_from_union (b.editOps edits))
                 (subExpand
                   (editDelOld b.text.length b.deletes_from_union (b.editOps edits))
                   (editIns b.deletes_from_union (b.editOps edits))) }]
    ∧ (b.edit edits ty).1.undos = b.undos
    ∧ (b.edit edits ty).1.undone_groups = b.undone_groups
    ∧ (b.edit edits ty).1.live_undos
        = b.live_undos.take b.cur_undo ++ [b.undo_group_id]
    ∧ (b.edit edits ty).1.cur_undo = b.cur_undo + 1
    ∧ (b.edit edits ty).1.undo_group_id = b.undo_group_id + 1
    ∧ (b.edit edits ty).1.last_edit_type = ty
    ∧ (b.edit edits ty).1.this_edit_type = ty
    ∧ (b.edit edits ty).1.rev_counter = b.rev_counter + 1 := by
  have hneg : calcCond { b with this_edit_type := ty } = false := by
    show (!b.live_undos.isEmpty && !(ty.breaks_undo_group b.last_edit_type)) = false
    rw [hbrk]
    simp
  have hg : (editBumped b ty).undone_groups.contains b.undo_group_id = false := by
    show b.undone_groups.contains b.undo_group_id = false
    rw [← h1.undos_eq]
    exact contains_eq_false_of_not_mem _ _
      (fun hm => absurd (h1.undos_lt _ hm) (Nat.lt_irrefl _))
  obtain ⟨hrev, htx, htb, hdf⟩ := mk_new_rev_char (editBumped b ty) b.undo_group_id
    { base_len := b.text.length, ops := b.editOps edits } hWF rfl h2.li1 h2.li2 hg
  have htx' : ((editBumped b ty).mk_new_rev b.undo_group_id
      { base_len := b.text.length, ops := b.editOps edits }).2.1
      = projVis
          (editUnion b.deletes_from_union
            (interleave b.text b.tombstones b.deletes_from_union) (b.editOps edits))
          (editNewDfu b.text.length b.deletes_from_union (b.editOps edits)) := htx
  have htb' : ((editBumped b ty).mk_new_rev b.undo_group_id
      { base_len := b.text.length, ops := b.editOps edits }).2.2.1
      = projDel
          (editUnion b.deletes_from_union
            (interleave b.text b.tombstones b.deletes_from_union) (b.editOps edits))
          (editNewDfu b.text.length b.deletes_from_union (b.editOps edits)) := htb
  have hdf' : ((editBumped b ty).mk_new_rev b.undo_group_id
      { base_len := b.text.length, ops := b.editOps edits }).2.2.2
      = editNewDfu b.text.length b.deletes_from_union (b.editOps edits) := hdf
  have hrev' : ((editBumped b ty).mk_new_rev b.undo_group_id
      { base_len := b.text.length, ops := b.editOps edits }).1
      = { num := b.rev_counter,
          max_undo_so_far := Nat.max b.undo_group_id b.lastRev.max_undo_so_far,
          edit := Contents.edit b.undo_group_id
            (editIns b.deletes_from_union (b.editOps edits))
            (subExpand
              (editDelOld b.text.length b.deletes_from_union (b.editOps edits))
              (editIns b.deletes_from_union (b.editOps edits))) } := hrev
  simp only [Buffer.edit, Buffer.add_delta, calculate_undo_group_neg _ hneg,
    Buffer.apply_edit]
  exact ⟨htx', htb', hdf', congrArg (fun r => b.revs ++ [r]) hrev', by trivial,
    by trivial, by trivial, by trivial, by trivial, by trivial, by trivial,
    by trivial⟩

/-! ### Mask algebra for replaying an edit through the undo machinery. -/

theorem subSub_expand_expand (X D ni : List Bool) (hX : X.length = ni.count false)
    (hD : D.length = ni.count false) :
    subSub (subExpandWith false X ni) (subExpandWith false D ni)
      = subExpandWith false (subSub X D) ni := by
  rw [subSub, zipWith_subExpandWith _ false false _ _ _ hX hD]
  rfl

theorem subUnion_expand_expand (X D ni : List Bool) (hX : X.length = ni.count false)
    (hD : D.length = ni.count false) :
    subUnion (subExpandWith false X ni) (subExpandWith false D ni)
      = subExpandWith false (subUnion X D) ni := by
  rw [subUnion, zipWith_subExpandWith _ false false _ _ _ hX hD]
  rfl

theorem fwd_toggle_unify (X ni : List Bool) (hX : X.length = ni.count false) :
    (if subIsEmpty ni = true then X else subTransformUnion X ni)
      = subTransformUnion X ni := by
  by_cases he : subIsEmpty ni = true
  · rw [if_pos he, subTransformUnion,
      subExpandWith_of_isEmpty _ _ _ he (by rw [hX, count_false_of_isEmpty _ he])]
  · rw [if_neg he]

theorem fwd_if_unify (X ni dels : List Bool) (hX : X.length = ni.count false)
    (hd : dels.length = ni.length) :
    (if subIsEmpty dels = true
      then (if subIsEmpty ni = true then X else subExpand X ni)
      else subUnion (if subIsEmpty ni = true then X else subExpand X ni) dels)
    = subUnion (subExpand X ni) dels := by
  have hni : (if subIsEmpty ni = true then X else subExpand X ni)
      = subExpand X ni := by
    by_cases he : subIsEmpty ni = true
    · rw [if_pos he, subExpand,
        subExpandWith_of_isEmpty _ _ _ he (by rw [hX, count_false_of_isEmpty _ he])]
    · rw [if_neg he]
  rw [hni]
  by_cases hde : subIsEmpty dels = true
  · rw [if_pos hde,
      subUnion_of_isEmpty _ _ hde (by rw [subExpand, length_subExpandWith, hd])]
  · rw [if_neg hde]

theorem bwd_edit_rollback (m fd ni : List Bool)
    (hfd : fd.length = m.count false) (hni : ni.count false = m.length) :
    subShrink
      (subSub (subExpandWith false (subUnion m (subExpandWith false fd m)) ni)
        (subExpandWith false (subExpandWith false fd m) ni))
      ni = m := by
  rw [subSub_expand_expand _ _ _
      (by rw [length_subUnion, length_subExpandWith, hni]; simp)
      (by rw [length_subExpandWith]; exact hni.symm),
    subSub_subUnion_expand m fd hfd]
  exact subShrink_subExpandWith false m ni hni.symm

theorem zipWith_and_comm (a b : List Bool) :
    List.zipWith (fun x y => x && y) a b = List.zipWith (fun x y => x && y) b a := by
  induction a generalizing b with
  | nil => cases b <;> rfl
  | cons x a ih =>
    cases b with
    | nil => rfl
    | cons y b => simp [Bool.and_comm, ih]

theorem subSub_subUnion_of_disjoint (a d : List Bool) (hlen : a.length = d.length)
    (hdisj : subIsEmpty (List.zipWith (fun x y => x && y) a d) = true) :
    subSub (subUnion a d) d = a := by
  induction a generalizing d with
  | nil => rfl
  | cons x a ih =>
    cases d with
    | nil => simp at hlen
    | cons y d =>
      rw [List.zipWith_cons_cons, subIsEmpty_cons] at hdisj
      obtain ⟨hxy, hrest⟩ := hdisj
      simp only [subUnion, subSub, List.zipWith_cons_cons]
      refine congrArg₂ _ ?_ (ih d (by simpa using hlen) hrest)
      cases x <;> cases y <;> simp_all

theorem disjoint_expand (s o : List Bool) :
    subIsEmpty (List.zipWith (fun x y => x && y) (subExpandWith false s o) o)
      = true := by
  induction o generalizing s with
  | nil => simp [subExpandWith, subIsEmpty]
  | cons x o ih =>
    cases x
    · cases s with
      | nil =>
        rw [show subExpandWith false [] (false :: o) = false :: subExpandWith false [] o
          from rfl]
        rw [List.zipWith_cons_cons, subIsEmpty_cons]
        exact ⟨rfl, ih []⟩
      | cons b s =>
        rw [show subExpandWith false (b :: s) (false :: o)
            = b :: subExpandWith false s o from rfl]
        rw [List.zipWith_cons_cons, subIsEmpty_cons]
        exact ⟨by simp, ih s⟩
    · cases s with
      | nil =>
        rw [show subExpandWith false [] (true :: o)
            = false :: subExpandWith false [] o from rfl]
        rw [List.zipWith_cons_cons, subIsEmpty_cons]
        exact ⟨rfl, ih []⟩
      | cons b s =>
        rw [show subExpandWith false (b :: s) (true :: o)
            = false :: subExpandWith false (b :: s) o from rfl]
        rw [List.zipWith_cons_cons, subIsEmpty_cons]
        exact ⟨rfl, ih (b :: s)⟩

theorem disjoint_of_union_disjoint (a b d : List Bool) (hlen : a.length = b.length)
    (h : subIsEmpty (List.zipWith (fun x y => x && y) (subUnion a b) d) = true) :
    subIsEmpty (List.zipWith (fun x y => x && y) a d) = true := by
  induction a generalizing b d with
  | nil => simp [subIsEmpty]
  | cons x a ih =>
    cases b with
    | nil => simp at hlen
    | cons y b =>
      cases d with
      | nil => simp [subIsEmpty]
      | cons z d =>
        rw [subUnion, List.zipWith_cons_cons, List.zipWith_cons_cons,
          subIsEmpty_cons] at h
        obtain ⟨hxz, hrest⟩ := h
        rw [List.zipWith_cons_cons, subIsEmpty_cons]
        exact ⟨by cases x <;> cases y <;> cases z <;> simp_all, ih b d (by simpa using hlen) hrest⟩

theorem subShrink_zipWith (h : Bool → Bool → Bool) (a b o : List Bool)
    (ha : a.length = o.length) (hb : b.length = o.length) :
    subShrink (List.zipWith h a b) o
      = List.zipWith h (subShrink a o) (subShrink b o) := by
  induction o generalizing a b with
  | nil =>
    have ha0 : a = [] := List.length_eq_zero.1 (by simpa using ha)
    have hb0 : b = [] := List.length_eq_zero.1 (by simpa using hb)
    subst ha0; subst hb0; rfl
  | cons x o ih =>
    cases a with
    | nil => simp at ha
    | cons p a =>
      cases b with
      | nil => simp at hb
      | cons q b =>
        cases x
        · rw [List.zipWith_cons_cons,
            show subShrink (h p q :: List.zipWith h a b) (false :: o)
              = h p q :: subShrink (List.zipWith h a b) o from rfl,
            show subShrink (p :: a) (false :: o) = p :: subShrink a o from rfl,
            show subShrink (q :: b) (false :: o) = q :: subShrink b o from rfl,
            List.zipWith_cons_cons,
            ih a b (by simpa using ha) (by simpa using hb)]
        · rw [List.zipWith_cons_cons,
            show subShrink (h p q :: List.zipWith h a b) (true :: o)
              = subShrink (List.zipWith h a b) o from rfl,
            show subShrink (p :: a) (true :: o) = subShrink a o from rfl,
            show subShrink (q :: b) (true :: o) = subShrink b o from rfl,
            ih a b (by simpa using ha) (by simpa using hb)]

theorem subIsEmpty_subShrink (s o : List Bool) (h : subIsEmpty s = true) :
    subIsEmpty (subShrink s o) = true := by
  induction s generalizing o with
  | nil => cases o <;> rfl
  | cons x s ih =>
    rw [subIsEmpty_cons] at h
    obtain ⟨rfl, hrest⟩ := h
    cases o with
    | nil => rfl
    | cons y o =>
      cases y
      · rw [show subShrink (false :: s) (false :: o) = false :: subShrink s o from rfl,
          subIsEmpty_cons]
        exact ⟨rfl, ih o hrest⟩
      · rw [show subShrink (false :: s) (true :: o) = subShrink s o from rfl]
        exact ih o hrest

/-! ### Unfolding lemmas for `undo`, `do_undo` and `do_redo`. -/

theorem undo_state (b2 : Buffer) (G : List Nat) :
    (b2.undo G).1.text
        = synthApply b2.text b2.tombstones b2.deletes_from_union
            (b2.compute_undo G).2
    ∧ (b2.undo G).1.tombstones
        = shuffle_tombstones b2.text b2.tombstones b2.deletes_from_union
            (b2.compute_undo G).2
    ∧ (b2.undo G).1.deletes_from_union = (b2.compute_undo G).2
    ∧ (b2.undo G).1.revs = b2.revs ++ [(b2.compute_undo G).1]
    ∧ (b2.undo G).1.undos = b2.undos
    ∧ (b2.undo G).1.undone_groups = G
    ∧ (b2.undo G).1.live_undos = b2.live_undos
    ∧ (b2.undo G).1.cur_undo = b2.cur_undo
    ∧ (b2.undo G).1.undo_group_id = b2.undo_group_id
    ∧ (b2.undo G).1.last_edit_type = b2.last_edit_type
    ∧ (b2.undo G).1.rev_counter = b2.rev_counter + 1
    ∧ (b2.undo G).2 = b2.text :=
  ⟨rfl, rfl, rfl, rfl, rfl, rfl, rfl, rfl, rfl, rfl, rfl, rfl⟩

theorem compute_undo_rev (b2 : Buffer) (G : List Nat) :
    (b2.compute_undo G).1
      = { num := b2.rev_counter,
          max_undo_so_far := b2.lastRev.max_undo_so_far,
          edit := Contents.undo (setXor b2.undone_groups G)
            (subXor b2.deletes_from_union (b2.compute_undo G).2) } := rfl

theorem compute_undo_tail (b2 : Buffer) (G : List Nat) (R0 tail : List Revision)
    (gmin : Nat) (htog : setXor b2.undone_groups G = [gmin])
    (hrevs : b2.revs = R0 ++ tail)
    (hR0 : ∀ r ∈ R0, r.max_undo_so_far < gmin)
    (htail : ∀ r ∈ tail, gmin ≤ r.max_undo_so_far) :
    (b2.compute_undo G).2
      = tail.foldl (fwdStep G)
          (tail.foldr (bwdStep false)
            (b2.deletes_from_union, b2.undone_groups)).1 := by
  rw [compute_undo_dfu, htog]
  have hfc : b2.find_first_undo_candidate_index [gmin] = R0.length := by
    rw [Buffer.find_first_undo_candidate_index, listMin_single, hrevs]
    exact lastBelow_append R0 tail gmin hR0 htail
  rw [hfc, Buffer.deletes_from_union_before_index, hrevs, List.drop_left' rfl]

theorem do_undo_pos (b : Buffer) (h : ¬ b.cur_undo ≤ 1) :
    b.do_undo
      = ((({ b with
            cur_undo := b.cur_undo - 1,
            undos := setInsert (b.live_undos.getD (b.cur_undo - 1) 0) b.undos,
            last_edit_type := EditType.Undo }).undo
            (setInsert (b.live_undos.getD (b.cur_undo - 1) 0) b.undos)).1,
          some ((({ b with
            cur_undo := b.cur_undo - 1,
            undos := setInsert (b.live_undos.getD (b.cur_undo - 1) 0) b.undos,
            last_edit_type := EditType.Undo }).undo
            (setInsert (b.live_undos.getD (b.cur_undo - 1) 0) b.undos)).2)) := by
  rw [Buffer.do_undo, if_neg h]

theorem do_redo_pos (b : Buffer) (h : ¬ b.cur_undo ≥ b.live_undos.length) :
    b.do_redo
      = ((({ b with
            undos := setErase (b.live_undos.getD b.cur_undo 0) b.undos,
            cur_undo := b.cur_undo + 1,
            last_edit_type := EditType.Redo }).undo
            (setErase (b.live_undos.getD b.cur_undo 0) b.undos)).1,
          some ((({ b with
            undos := setErase (b.live_undos.getD b.cur_undo 0) b.undos,
            cur_undo := b.cur_undo + 1,
            last_edit_type := EditType.Redo }).undo
            (setErase (b.live_undos.getD b.cur_undo 0) b.undos)).2)) := by
  rw [Buffer.do_redo, if_neg h]

theorem undo_redo_roundtrip (b : Buffer)
    (edits : List (List (Nat × Nat) × List Char)) (ty : EditType)
    (h1 : Inv1 b) (h2 : Inv2 b)
    (hWF : WFfrom 0 b.text.length (b.editOps edits))
    (hbrk : ty.breaks_undo_group b.last_edit_type = true) :
    (b.edit edits ty).1.do_undo.2 = some (b.edit edits ty).1.text
    ∧ (b.edit edits ty).1.do_undo.1.text = b.text
    ∧ (b.edit edits ty).1.do_undo.1.do_redo.2 = some b.text
    ∧ (b.edit edits ty).1.do_undo.1.do_redo.1.text = (b.edit edits ty).1.text := by
  obtain ⟨hctx, hctb, hcdf, hcrevs, hcundos, hcundone, hclive, hccur, hcgid, hclast,
    hcthis, hcctr⟩ := edit_break_state b edits ty h1 h2 hWF hbrk
  have hcf : b.deletes_from_union.count false = b.text.length := by
    have := count_false_add_count_true b.deletes_from_union
    have := h2.li1
    have := h2.li2
    omega
  have hUlen : (interleave b.text b.tombstones b.deletes_from_union).length = b.deletes_from_union.length :=
    length_interleave _ _ _ hcf.symm h2.li2.symm
  obtain ⟨hml1, hml2, hml3⟩ := edit_model_lens b.deletes_from_union (interleave b.text b.tombstones b.deletes_from_union) b.text.length (b.editOps edits) hWF hcf.symm hUlen
  have hTlen : (editT b.deletes_from_union (b.editOps edits)).length = (editIns b.deletes_from_union (b.editOps edits)).length := length_subExpandWith _ _ _
  have hfg : (editNewDfu b.text.length b.deletes_from_union (b.editOps edits)).length = (editT b.deletes_from_union (b.editOps edits)).length := hml2.symm.trans hTlen.symm
  have hU1T : (editUnion b.deletes_from_union (interleave b.text b.tombstones b.deletes_from_union) (b.editOps edits)).length = (editT b.deletes_from_union (b.editOps edits)).length := hml3.trans hfg
  have hg_notin : b.undo_group_id ∉ b.undos :=
    fun hm => absurd (h1.undos_lt _ hm) (Nat.lt_irrefl _)
  have hg_not : b.undos.contains b.undo_group_id = false :=
    contains_eq_false_of_not_mem _ _ hg_notin
  have hfd : (factorDel b.text.length 0 (b.editOps edits)).length = b.deletes_from_union.count false := by
    rw [length_factorDel 0 b.text.length (b.editOps edits) hWF, Nat.sub_zero, hcf]
  have hDlen : (editDelOld b.text.length b.deletes_from_union (b.editOps edits)).length = (editIns b.deletes_from_union (b.editOps edits)).count false := by
    rw [show (editDelOld b.text.length b.deletes_from_union (b.editOps edits)).length = b.deletes_from_union.length from length_subExpandWith _ _ _, hml1]
  have hctx_len : (b.edit edits ty).1.text.length = (editNewDfu b.text.length b.deletes_from_union (b.editOps edits)).count false := by
    rw [hctx, length_projVis _ _ hml3]
  have hctb_len : (b.edit edits ty).1.tombstones.length = (editNewDfu b.text.length b.deletes_from_union (b.editOps edits)).count true := by
    rw [hctb, length_projDel _ _ hml3]
  have hintl : interleave (b.edit edits ty).1.text (b.edit edits ty).1.tombstones (editNewDfu b.text.length b.deletes_from_union (b.editOps edits)) = (editUnion b.deletes_from_union (interleave b.text b.tombstones b.deletes_from_union) (b.editOps edits)) := by
    rw [hctx, hctb]
    exact interleave_proj _ _ hml3
  have hcur1 : ¬ (b.edit edits ty).1.cur_undo ≤ 1 := by
    rw [hccur]
    have := h1.cur_lo
    omega
  have hgetD : (b.edit edits ty).1.live_undos.getD ((b.edit edits ty).1.cur_undo - 1) 0 = b.undo_group_id := by
    rw [hclive, hccur, Nat.add_sub_cancel,
      getD_take_concat b.cur_undo b.live_undos b.undo_group_id h1.cur_hi]
  have hdu : (b.edit edits ty).1.do_undo
      = ((((undoPrepped b edits ty)).undo (setInsert b.undo_group_id b.undos)).1, some ((((undoPrepped b edits ty)).undo (setInsert b.undo_group_id b.undos)).2)) := by
    rw [do_undo_pos _ hcur1, hgetD, hcundos, hccur, Nat.add_sub_cancel]
  have hdu1 : (b.edit edits ty).1.do_undo.1 = (((undoPrepped b edits ty)).undo (setInsert b.undo_group_id b.undos)).1 := by rw [hdu]
  have hdu2 : (b.edit edits ty).1.do_undo.2 = some ((((undoPrepped b edits ty)).undo (setInsert b.undo_group_id b.undos)).2) := by rw [hdu]
  obtain ⟨hu1, hu2, hu3, hu4, hu5, hu6, hu7, hu8, hu9, hu10, hu11, hu12⟩ :=
    undo_state ((undoPrepped b edits ty)) (setInsert b.undo_group_id b.undos)
  have htog : setXor ((undoPrepped b edits ty)).undone_groups (setInsert b.undo_group_id b.undos) = [b.undo_group_id] := by
    rw [show ((undoPrepped b edits ty)).undone_groups = (b.edit edits ty).1.undone_groups from rfl, hcundone,
      ← h1.undos_eq]
    exact setXor_insert_right _ _ hg_notin
  have hB2revs : ((undoPrepped b edits ty)).revs = b.revs ++ [(editRevOf b (b.editOps edits))] := hcrevs
  have hbwd : (bwdStep false (editRevOf b (b.editOps edits))
      (((undoPrepped b edits ty)).deletes_from_union, ((undoPrepped b edits ty)).undone_groups)).1 = b.deletes_from_union := by
    rw [bwdStep_edit,
      show ((undoPrepped b edits ty)).undone_groups.contains b.undo_group_id = false from by
        rw [show ((undoPrepped b edits ty)).undone_groups = (b.edit edits ty).1.undone_groups from rfl, hcundone,
          ← h1.undos_eq]
        exact hg_not,
      if_neg (by simp),
      show ((undoPrepped b edits ty)).deletes_from_union = (b.edit edits ty).1.deletes_from_union from rfl, hcdf]
    exact bwd_edit_rollback b.deletes_from_union (factorDel b.text.length 0 (b.editOps edits)) (editIns b.deletes_from_union (b.editOps edits)) hfd hml1
  have hfwd : fwdStep (setInsert b.undo_group_id b.undos) b.deletes_from_union (editRevOf b (b.editOps edits)) = (editT b.deletes_from_union (b.editOps edits)) := by
    rw [fwdStep_edit,
      show ((setInsert b.undo_group_id b.undos) : List Nat).contains b.undo_group_id = true from
        contains_eq_true_of_mem _ _ ((mem_setInsert _ _ _).2 (Or.inl rfl)),
      if_pos rfl]
    exact fwd_toggle_unify _ _ hml1.symm
  have hq2 : (((undoPrepped b edits ty)).compute_undo (setInsert b.undo_group_id b.undos)).2 = (editT b.deletes_from_union (b.editOps edits)) := by
    rw [compute_undo_tail ((undoPrepped b edits ty)) (setInsert b.undo_group_id b.undos) b.revs [(editRevOf b (b.editOps edits))] b.undo_group_id htog hB2revs
      h1.max_lt
      (by
        intro r hr
        rcases List.mem_singleton.1 hr with rfl
        exact Nat.le_max_left _ _)]
    calc ([(editRevOf b (b.editOps edits))].foldl (fwdStep (setInsert b.undo_group_id b.undos))
          ([(editRevOf b (b.editOps edits))].foldr (bwdStep false)
            (((undoPrepped b edits ty)).deletes_from_union, ((undoPrepped b edits ty)).undone_groups)).1)
        = fwdStep (setInsert b.undo_group_id b.undos)
            (bwdStep false (editRevOf b (b.editOps edits))
              (((undoPrepped b edits ty)).deletes_from_union, ((undoPrepped b edits ty)).undone_groups)).1 (editRevOf b (b.editOps edits)) := rfl
      _ = fwdStep (setInsert b.undo_group_id b.undos) b.deletes_from_union (editRevOf b (b.editOps edits)) := by rw [hbwd]
      _ = (editT b.deletes_from_union (b.editOps edits)) := hfwd
  have hudfu : ((((undoPrepped b edits ty)).undo (setInsert b.undo_group_id b.undos)).1 : Buffer).deletes_from_union = (editT b.deletes_from_union (b.editOps edits)) := hu3.trans hq2
  have hsyn : ((((undoPrepped b edits ty)).undo (setInsert b.undo_group_id b.undos)).1 : Buffer).text = projVis (editUnion b.deletes_from_union (interleave b.text b.tombstones b.deletes_from_union) (b.editOps edits)) (editT b.deletes_from_union (b.editOps edits)) := by
    rw [hu1, show ((undoPrepped b edits ty)).text = (b.edit edits ty).1.text from rfl,
      show ((undoPrepped b edits ty)).tombstones = (b.edit edits ty).1.tombstones from rfl,
      show ((undoPrepped b edits ty)).deletes_from_union = (b.edit edits ty).1.deletes_from_union from rfl,
      hq2, hcdf, synthApply_eq_projVis _ _ _ _ hfg hctx_len hctb_len, hintl]
  have hvalue : projVis (editUnion b.deletes_from_union (interleave b.text b.tombstones b.deletes_from_union) (b.editOps edits)) (editT b.deletes_from_union (b.editOps edits)) = b.text := by
    have hI : skipsLE (factorIns 0 (b.editOps edits)) (b.deletes_from_union.count false) := by
      rw [hcf]
      simpa using skipsLE_factorIns 0 b.text.length (b.editOps edits) hWF
    obtain ⟨-, -, coreT⟩ := proj_insApply_expand (factorIns 0 (b.editOps edits)) b.deletes_from_union (interleave b.text b.tombstones b.deletes_from_union)
      hUlen.symm hI
    have hvt : projVis (editUnion b.deletes_from_union (interleave b.text b.tombstones b.deletes_from_union) (b.editOps edits)) (editT b.deletes_from_union (b.editOps edits)) = projVis (interleave b.text b.tombstones b.deletes_from_union) b.deletes_from_union := coreT
    exact hvt.trans (projVis_interleave _ _ _ hcf.symm h2.li2.symm)
  have hutomb : ((((undoPrepped b edits ty)).undo (setInsert b.undo_group_id b.undos)).1 : Buffer).tombstones = projDel (editUnion b.deletes_from_union (interleave b.text b.tombstones b.deletes_from_union) (b.editOps edits)) (editT b.deletes_from_union (b.editOps edits)) := by
    rw [hu2, show ((undoPrepped b edits ty)).text = (b.edit edits ty).1.text from rfl,
      show ((undoPrepped b edits ty)).tombstones = (b.edit edits ty).1.tombstones from rfl,
      show ((undoPrepped b edits ty)).deletes_from_union = (b.edit edits ty).1.deletes_from_union from rfl,
      hq2, hcdf]
    have hs2 := (shuffle_proj (b.edit edits ty).1.text (b.edit edits ty).1.tombstones (editNewDfu b.text.length b.deletes_from_union (b.editOps edits)) (editT b.deletes_from_union (b.editOps edits))
      hfg hctx_len hctb_len).2
    rw [hintl] at hs2
    exact hs2
  have hucur : ((((undoPrepped b edits ty)).undo (setInsert b.undo_group_id b.undos)).1 : Buffer).cur_undo = b.cur_undo := hu8
  have hulive : ((((undoPrepped b edits ty)).undo (setInsert b.undo_group_id b.undos)).1 : Buffer).live_undos
      = b.live_undos.take b.cur_undo ++ [b.undo_group_id] := hu7.trans hclive
  have huundone : ((((undoPrepped b edits ty)).undo (setInsert b.undo_group_id b.undos)).1 : Buffer).undone_groups = (setInsert b.undo_group_id b.undos) := hu6
  have hB2last : ((undoPrepped b edits ty)).lastRev = (editRevOf b (b.editOps edits)) := by
    rw [show ((undoPrepped b edits ty)).lastRev = ((undoPrepped b edits ty)).revs.getLastD sentinelRevision from rfl,
      hB2revs, List.getLastD_concat]
  have hq1 : (((undoPrepped b edits ty)).compute_undo (setInsert b.undo_group_id b.undos)).1 = (undoRevOf b (b.editOps edits)) := by
    rw [compute_undo_rev, htog, hq2,
      show ((undoPrepped b edits ty)).rev_counter = (b.edit edits ty).1.rev_counter from rfl, hcctr, hB2last,
      show ((undoPrepped b edits ty)).deletes_from_union = (b.edit edits ty).1.deletes_from_union from rfl, hcdf]
  have hurevs : ((((undoPrepped b edits ty)).undo (setInsert b.undo_group_id b.undos)).1 : Buffer).revs = b.revs ++ [(editRevOf b (b.editOps edits)), (undoRevOf b (b.editOps edits))] := by
    rw [hu4, hB2revs, hq1, List.append_assoc]
    rfl
  have hulivelen : ((((undoPrepped b edits ty)).undo (setInsert b.undo_group_id b.undos)).1 : Buffer).live_undos.length = b.cur_undo + 1 := by
    rw [hulive, List.length_append, List.length_take]
    have := h1.cur_hi
    simp
    omega
  have hcond : ¬ ((((undoPrepped b edits ty)).undo (setInsert b.undo_group_id b.undos)).1 : Buffer).cur_undo ≥ ((((undoPrepped b edits ty)).undo (setInsert b.undo_group_id b.undos)).1 : Buffer).live_undos.length := by
    rw [hucur, hulivelen]
    omega
  have hgetD2 : ((((undoPrepped b edits ty)).undo (setInsert b.undo_group_id b.undos)).1 : Buffer).live_undos.getD (((((undoPrepped b edits ty)).undo (setInsert b.undo_group_id b.undos)).1 : Buffer).cur_undo) 0
      = b.undo_group_id := by
    rw [hulive, hucur,
      getD_take_concat b.cur_undo b.live_undos b.undo_group_id h1.cur_hi]
  have hsE : setErase b.undo_group_id (setInsert b.undo_group_id b.undos) = b.undos := setErase_setInsert _ _ hg_notin
  have hrd : ((((undoPrepped b edits ty)).undo (setInsert b.undo_group_id b.undos)).1 : Buffer).do_redo
      = ((((redoPrepped b edits ty)).undo b.undos).1, some ((((redoPrepped b edits ty)).undo b.undos).2)) := by
    rw [do_redo_pos _ hcond, hgetD2, show ((((undoPrepped b edits ty)).undo (setInsert b.undo_group_id b.undos)).1 : Buffer).undos = (setInsert b.undo_group_id b.undos) from hu5, hsE,
      hucur]
  have hrd1 : ((((undoPrepped b edits ty)).undo (setInsert b.undo_group_id b.undos)).1 : Buffer).do_redo.1 = (((redoPrepped b edits ty)).undo b.undos).1 := by rw [hrd]
  have hrd2 : ((((undoPrepped b edits ty)).undo (setInsert b.undo_group_id b.undos)).1 : Buffer).do_redo.2 = some ((((redoPrepped b edits ty)).undo b.undos).2) := by
    rw [hrd]
  obtain ⟨hv1, hv2, hv3, hv4, hv5, hv6, hv7, hv8, hv9, hv10, hv11, hv12⟩ :=
    undo_state ((redoPrepped b edits ty)) b.undos
  have htog2 : setXor ((redoPrepped b edits ty)).undone_groups b.undos = [b.undo_group_id] := by
    rw [show ((redoPrepped b edits ty)).undone_groups = ((((undoPrepped b edits ty)).undo (setInsert b.undo_group_id b.undos)).1 : Buffer).undone_groups from rfl, huundone]
    exact setXor_insert_left _ _ hg_notin
  have hB3revs : ((redoPrepped b edits ty)).revs = b.revs ++ [(editRevOf b (b.editOps edits)), (undoRevOf b (b.editOps edits))] := hurevs
  have hbu : bwdStep false (undoRevOf b (b.editOps edits))
      (((redoPrepped b edits ty)).deletes_from_union, ((redoPrepped b edits ty)).undone_groups)
      = (((redoPrepped b edits ty)).deletes_from_union, ((redoPrepped b edits ty)).undone_groups) := by
    rw [bwdStep_undo, if_neg (by simp)]
  have hbwd2 : (bwdStep false (editRevOf b (b.editOps edits))
      (((redoPrepped b edits ty)).deletes_from_union, ((redoPrepped b edits ty)).undone_groups)).1 = b.deletes_from_union := by
    rw [bwdStep_edit,
      show ((redoPrepped b edits ty)).undone_groups.contains b.undo_group_id = true from by
        rw [show ((redoPrepped b edits ty)).undone_groups = ((((undoPrepped b edits ty)).undo (setInsert b.undo_group_id b.undos)).1 : Buffer).undone_groups from rfl,
          huundone]
        exact contains_eq_true_of_mem _ _ ((mem_setInsert _ _ _).2 (Or.inl rfl)),
      if_pos rfl,
      show ((redoPrepped b edits ty)).deletes_from_union = ((((undoPrepped b edits ty)).undo (setInsert b.undo_group_id b.undos)).1 : Buffer).deletes_from_union from rfl,
      hudfu]
    exact subShrink_subExpandWith true _ _ hml1.symm
  have hfwd2 : fwdStep b.undos b.deletes_from_union (editRevOf b (b.editOps edits)) = (editNewDfu b.text.length b.deletes_from_union (b.editOps edits)) := by
    rw [fwdStep_edit, hg_not, if_neg (by simp),
      fwd_if_unify _ _ _ hml1.symm
        (show (subExpand (editDelOld b.text.length b.deletes_from_union (b.editOps edits)) (editIns b.deletes_from_union (b.editOps edits))).length = (editIns b.deletes_from_union (b.editOps edits)).length from length_subExpandWith _ _ _)]
    exact subUnion_expand_expand b.deletes_from_union (editDelOld b.text.length b.deletes_from_union (b.editOps edits)) (editIns b.deletes_from_union (b.editOps edits)) hml1.symm hDlen
  have hq2r : (((redoPrepped b edits ty)).compute_undo b.undos).2 = (editNewDfu b.text.length b.deletes_from_union (b.editOps edits)) := by
    rw [compute_undo_tail ((redoPrepped b edits ty)) b.undos b.revs [(editRevOf b (b.editOps edits)), (undoRevOf b (b.editOps edits))] b.undo_group_id
      htog2 hB3revs h1.max_lt
      (by
        intro r hr
        rcases List.mem_cons.1 hr with rfl | hr
        · exact Nat.le_max_left _ _
        · rcases List.mem_singleton.1 hr with rfl
          exact Nat.le_max_left _ _)]
    calc ([(editRevOf b (b.editOps edits)), (undoRevOf b (b.editOps edits))].foldl (fwdStep b.undos)
          ([(editRevOf b (b.editOps edits)), (undoRevOf b (b.editOps edits))].foldr (bwdStep false)
            (((redoPrepped b edits ty)).deletes_from_union, ((redoPrepped b edits ty)).undone_groups)).1)
        = fwdStep b.undos
            (fwdStep b.undos
              (bwdStep false (editRevOf b (b.editOps edits))
                (bwdStep false (undoRevOf b (b.editOps edits))
                  (((redoPrepped b edits ty)).deletes_from_union, ((redoPrepped b edits ty)).undone_groups))).1
              (editRevOf b (b.editOps edits))) (undoRevOf b (b.editOps edits)) := rfl
      _ = fwdStep b.undos
            (fwdStep b.undos
              (bwdStep false (editRevOf b (b.editOps edits))
                (((redoPrepped b edits ty)).deletes_from_union, ((redoPrepped b edits ty)).undone_groups)).1
              (editRevOf b (b.editOps edits))) (undoRevOf b (b.editOps edits)) := by rw [hbu]
      _ = fwdStep b.undos (fwdStep b.undos b.deletes_from_union (editRevOf b (b.editOps edits))) (undoRevOf b (b.editOps edits)) := by rw [hbwd2]
      _ = fwdStep b.undos (editNewDfu b.text.length b.deletes_from_union (b.editOps edits)) (undoRevOf b (b.editOps edits)) := by rw [hfwd2]
      _ = (editNewDfu b.text.length b.deletes_from_union (b.editOps edits)) := fwdStep_undo _ _ _ _ _ _
  have hintl2 : interleave ((((undoPrepped b edits ty)).undo (setInsert b.undo_group_id b.undos)).1 : Buffer).text ((((undoPrepped b edits ty)).undo (setInsert b.undo_group_id b.undos)).1 : Buffer).tombstones (editT b.deletes_from_union (b.editOps edits))
      = (editUnion b.deletes_from_union (interleave b.text b.tombstones b.deletes_from_union) (b.editOps edits)) := by
    rw [hsyn, hutomb]
    exact interleave_proj _ _ hU1T
  have hut_len : ((((undoPrepped b edits ty)).undo (setInsert b.undo_group_id b.undos)).1 : Buffer).text.length = (editT b.deletes_from_union (b.editOps edits)).count false := by
    rw [hsyn, length_projVis _ _ hU1T]
  have hub_len : ((((undoPrepped b edits ty)).undo (setInsert b.undo_group_id b.undos)).1 : Buffer).tombstones.length = (editT b.deletes_from_union (b.editOps edits)).count true := by
    rw [hutomb, length_projDel _ _ hU1T]
  have hTd : (editT b.deletes_from_union (b.editOps edits)).length = (editNewDfu b.text.length b.deletes_from_union (b.editOps edits)).length := hfg.symm
  have hredo_text : (((redoPrepped b edits ty)).undo b.undos).1.text = projVis (editUnion b.deletes_from_union (interleave b.text b.tombstones b.deletes_from_union) (b.editOps edits)) (editNewDfu b.text.length b.deletes_from_union (b.editOps edits)) := by
    rw [hv1, show ((redoPrepped b edits ty)).text = ((((undoPrepped b edits ty)).undo (setInsert b.undo_group_id b.undos)).1 : Buffer).text from rfl,
      show ((redoPrepped b edits ty)).tombstones = ((((undoPrepped b edits ty)).undo (setInsert b.undo_group_id b.undos)).1 : Buffer).tombstones from rfl,
      show ((redoPrepped b edits ty)).deletes_from_union = ((((undoPrepped b edits ty)).undo (setInsert b.undo_group_id b.undos)).1 : Buffer).deletes_from_union from rfl,
      hq2r, hudfu, synthApply_eq_projVis _ _ _ _ hTd hut_len hub_len, hintl2]
  refine ⟨?_, ?_, ?_, ?_⟩
  · rw [hdu2]
    exact congrArg some hu12
  · rw [hdu1]
    exact hsyn.trans hvalue
  · rw [hdu1, hrd2]
    exact congrArg some (hv12.trans (hsyn.trans hvalue))
  · rw [hdu1, hrd1, hredo_text, hctx]

/-- C1 (amended): from any reachable buffer state, a single well-formed
edit whose edit type starts a new undo group (it breaks the previous
group) is inverted by `do_undo` — which returns `some` and restores the
visible text byte-for-byte to the text before the edit — and re-applied by
a following `do_redo` — which returns `some` and restores the text
byte-for-byte to the text immediately after the edit.  The unamended
claim, quantified over every single edit, is refuted by the coalescing
counterexample. -/
theorem c1_undo_redo_inverse (b : Buffer) (hb : Reach b)
    (edits : List (List (Nat × Nat) × List Char)) (ty : EditType)
    (hWF : WFfrom 0 b.text.length (b.editOps edits))
    (hbrk : ty.breaks_undo_group b.last_edit_type = true) :
    ((b.edit edits ty).1.do_undo.2.isSome = true
      ∧ (b.edit edits ty).1.do_undo.1.text = b.text)
    ∧ ((b.edit edits ty).1.do_undo.1.do_redo.2.isSome = true
      ∧ (b.edit edits ty).1.do_undo.1.do_redo.1.text = (b.edit edits ty).1.text) := by
  obtain ⟨hs, ht, hrs, hrt⟩ := undo_redo_roundtrip b edits ty (reach_inv1 b hb)
    (reach_inv2 b hb) hWF hbrk
  exact ⟨⟨by rw [hs]; rfl, ht⟩, ⟨by rw [hrs]; rfl, hrt⟩⟩

theorem c1_undo_redo_inverse_witness :
    (((Buffer.new ['a', 'b']).edit [([(1, 1)], ['X'])]
        EditType.InsertChars).1.do_undo.2.isSome = true
      ∧ ((Buffer.new ['a', 'b']).edit [([(1, 1)], ['X'])]
        EditType.InsertChars).1.do_undo.1.text = (Buffer.new ['a', 'b']).text)
    ∧ (((Buffer.new ['a', 'b']).edit [([(1, 1)], ['X'])]
        EditType.InsertChars).1.do_undo.1.do_redo.2.isSome = true
      ∧ ((Buffer.new ['a', 'b']).edit [([(1, 1)], ['X'])]
        EditType.InsertChars).1.do_undo.1.do_redo.1.text
        = ((Buffer.new ['a', 'b']).edit [([(1, 1)], ['X'])]
          EditType.InsertChars).1.text) :=
  c1_undo_redo_inverse (Buffer.new ['a', 'b']) (Reach.new ['a', 'b'])
    [([(1, 1)], ['X'])] EditType.InsertChars (by decide) (by decide)

theorem bwdStep_undo_rev (b2 : Buffer) (G : List Nat) (p : List Bool × List Nat) :
    bwdStep false (b2.compute_undo G).1 p = p := by
  obtain ⟨x, y⟩ := p
  rw [compute_undo_rev, bwdStep_undo, if_neg (by simp)]

theorem fwdStep_undo_rev (b2 : Buffer) (G groups : List Nat) (X : List Bool) :
    fwdStep groups X (b2.compute_undo G).1 = X := by
  rw [compute_undo_rev, fwdStep_undo]

theorem selective_undo_roundtrip (b : Buffer)
    (h1b : Inv1 b) (h2b : Inv2 b) (hU : b.undone_groups = [])
    (edits1 edits2 : List (List (Nat × Nat) × List Char)) (ty1 ty2 : EditType)
    (hWF1 : WFfrom 0 b.text.length (b.editOps edits1))
    (hbrk1 : ty1.breaks_undo_group b.last_edit_type = true)
    (h11 : Inv1 (b.edit edits1 ty1).1) (h21 : Inv2 (b.edit edits1 ty1).1)
    (hWF2 : WFfrom 0 (b.edit edits1 ty1).1.text.length ((b.edit edits1 ty1).1.editOps edits2))
    (hbrk2 : ty2.breaks_undo_group (b.edit edits1 ty1).1.last_edit_type = true) :
    ((((b.edit edits1 ty1).1.edit edits2 ty2).1.undo [b.undo_group_id]).1.undo []).1.text = ((b.edit edits1 ty1).1.edit edits2 ty2).1.text := by
  obtain ⟨hctx1, hctb1, hcdf1, hcrevs1, hcundos1, hcundone1, hclive1, hccur1,
    hcgid1, hclast1, hcthis1, hcctr1⟩ :=
    edit_break_state b edits1 ty1 h1b h2b hWF1 hbrk1
  obtain ⟨hctx2, hctb2, hcdf2, hcrevs2, hcundos2, hcundone2, hclive2, hccur2,
    hcgid2, hclast2, hcthis2, hcctr2⟩ :=
    edit_break_state (b.edit edits1 ty1).1 edits2 ty2 h11 h21 hWF2 hbrk2
  rw [hcdf1] at hctx2 hctb2 hcdf2 hcrevs2
  have hcf0 : b.deletes_from_union.count false = b.text.length := by
    have := count_false_add_count_true b.deletes_from_union
    have := h2b.li1
    have := h2b.li2
    omega
  have hU0len : (interleave b.text b.tombstones b.deletes_from_union).length = b.deletes_from_union.length :=
    length_interleave _ _ _ hcf0.symm h2b.li2.symm
  obtain ⟨hml11, hml12, hml13⟩ :=
    edit_model_lens b.deletes_from_union (interleave b.text b.tombstones b.deletes_from_union) b.text.length (b.editOps edits1) hWF1 hcf0.symm hU0len
  have e1 := h21.li1
  have e2 := h21.li2
  rw [hcdf1] at e1 e2
  have hcf1 : (editNewDfu b.text.length b.deletes_from_union (b.editOps edits1)).count false = (b.edit edits1 ty1).1.text.length := by
    have := count_false_add_count_true (editNewDfu b.text.length b.deletes_from_union (b.editOps edits1))
    omega
  have hU1plen : (interleave (b.edit edits1 ty1).1.text (b.edit edits1 ty1).1.tombstones (editNewDfu b.text.length b.deletes_from_union (b.editOps edits1))).length = (editNewDfu b.text.length b.deletes_from_union (b.editOps edits1)).length :=
    length_interleave _ _ _ hcf1.symm e2.symm
  obtain ⟨hml21, hml22, hml23⟩ :=
    edit_model_lens (editNewDfu b.text.length b.deletes_from_union (b.editOps edits1)) (interleave (b.edit edits1 ty1).1.text (b.edit edits1 ty1).1.tombstones (editNewDfu b.text.length b.deletes_from_union (b.editOps edits1))) (b.edit edits1 ty1).1.text.length ((b.edit edits1 ty1).1.editOps edits2) hWF2 hcf1.symm hU1plen
  have hT1len : (editT b.deletes_from_union (b.editOps edits1)).length = (editIns b.deletes_from_union (b.editOps edits1)).length := length_subExpandWith _ _ _
  have hT1M1 : (editT b.deletes_from_union (b.editOps edits1)).length = (editNewDfu b.text.length b.deletes_from_union (b.editOps edits1)).length := hT1len.trans hml12
  have hT1cf2 : (editT b.deletes_from_union (b.editOps edits1)).length = (editIns (editNewDfu b.text.length b.deletes_from_union (b.editOps edits1)) ((b.edit edits1 ty1).1.editOps edits2)).count false := by
    rw [hT1M1]
    exact hml21.symm
  have hD1M0 : (editDelOld b.text.length b.deletes_from_union (b.editOps edits1)).length = b.deletes_from_union.length :=
    length_subExpandWith _ _ _
  have hD1cf : (editDelOld b.text.length b.deletes_from_union (b.editOps edits1)).length = (editIns b.deletes_from_union (b.editOps edits1)).count false := by
    rw [hD1M0]
    exact hml11.symm
  have hD2M1 : (editDelOld (b.edit edits1 ty1).1.text.length (editNewDfu b.text.length b.deletes_from_union (b.editOps edits1)) ((b.edit edits1 ty1).1.editOps edits2)).length = (editNewDfu b.text.length b.deletes_from_union (b.editOps edits1)).length := length_subExpandWith _ _ _
  have hD2cf : (editDelOld (b.edit edits1 ty1).1.text.length (editNewDfu b.text.length b.deletes_from_union (b.editOps edits1)) ((b.edit edits1 ty1).1.editOps edits2)).length = (editIns (editNewDfu b.text.length b.deletes_from_union (b.editOps edits1)) ((b.edit edits1 ty1).1.editOps edits2)).count false := by
    rw [hD2M1]
    exact hml21.symm
  have hfd1 : (factorDel b.text.length 0 (b.editOps edits1)).length = b.deletes_from_union.count false := by
    rw [length_factorDel 0 b.text.length (b.editOps edits1) hWF1, Nat.sub_zero, hcf0]
  have hfd2 : (factorDel (b.edit edits1 ty1).1.text.length 0 ((b.edit edits1 ty1).1.editOps edits2)).length = (editNewDfu b.text.length b.deletes_from_union (b.editOps edits1)).count false := by
    rw [length_factorDel 0 (b.edit edits1 ty1).1.text.length ((b.edit edits1 ty1).1.editOps edits2) hWF2, Nat.sub_zero, hcf1]
  have htogA : setXor ((b.edit edits1 ty1).1.edit edits2 ty2).1.undone_groups [b.undo_group_id] = [b.undo_group_id] := by
    rw [hcundone2, hcundone1, hU]
    exact setXor_nil_left _
  have hcundoneNil : ((b.edit edits1 ty1).1.edit edits2 ty2).1.undone_groups = ([] : List Nat) := by
    rw [hcundone2, hcundone1, hU]
  have hrevsA : ((b.edit edits1 ty1).1.edit edits2 ty2).1.revs = b.revs ++ [(editRevOf b (b.editOps edits1)), { num := (b.edit edits1 ty1).1.rev_counter, max_undo_so_far := Nat.max (b.edit edits1 ty1).1.undo_group_id (b.edit edits1 ty1).1.lastRev.max_undo_so_far, edit := Contents.edit (b.edit edits1 ty1).1.undo_group_id (editIns (editNewDfu b.text.length b.deletes_from_union (b.editOps edits1)) ((b.edit edits1 ty1).1.editOps edits2)) (subExpand (editDelOld (b.edit edits1 ty1).1.text.length (editNewDfu b.text.length b.deletes_from_union (b.editOps edits1)) ((b.edit edits1 ty1).1.editOps edits2)) (editIns (editNewDfu b.text.length b.deletes_from_union (b.editOps edits1)) ((b.edit edits1 ty1).1.editOps edits2))) }] := by
    rw [hcrevs2, hcrevs1, List.append_assoc]
    rfl
  have hg1max1 : b.undo_group_id ≤ ((editRevOf b (b.editOps edits1)) : Revision).max_undo_so_far := Nat.le_max_left _ _
  have hg1max2 : b.undo_group_id ≤ ({ num := (b.edit edits1 ty1).1.rev_counter, max_undo_so_far := Nat.max (b.edit edits1 ty1).1.undo_group_id (b.edit edits1 ty1).1.lastRev.max_undo_so_far, edit := Contents.edit (b.edit edits1 ty1).1.undo_group_id (editIns (editNewDfu b.text.length b.deletes_from_union (b.editOps edits1)) ((b.edit edits1 ty1).1.editOps edits2)) (subExpand (editDelOld (b.edit edits1 ty1).1.text.length (editNewDfu b.text.length b.deletes_from_union (b.editOps edits1)) ((b.edit edits1 ty1).1.editOps edits2)) (editIns (editNewDfu b.text.length b.deletes_from_union (b.editOps edits1)) ((b.edit edits1 ty1).1.editOps edits2))) } : Revision).max_undo_so_far := by
    refine Nat.le_trans ?_ (Nat.le_max_left (b.edit edits1 ty1).1.undo_group_id _)
    rw [hcgid1]
    omega
  have htailA : ∀ r ∈ [(editRevOf b (b.editOps edits1)), { num := (b.edit edits1 ty1).1.rev_counter, max_undo_so_far := Nat.max (b.edit edits1 ty1).1.undo_group_id (b.edit edits1 ty1).1.lastRev.max_undo_so_far, edit := Contents.edit (b.edit edits1 ty1).1.undo_group_id (editIns (editNewDfu b.text.length b.deletes_from_union (b.editOps edits1)) ((b.edit edits1 ty1).1.editOps edits2)) (subExpand (editDelOld (b.edit edits1 ty1).1.text.length (editNewDfu b.text.length b.deletes_from_union (b.editOps edits1)) ((b.edit edits1 ty1).1.editOps edits2)) (editIns (editNewDfu b.text.length b.deletes_from_union (b.editOps edits1)) ((b.edit edits1 ty1).1.editOps edits2))) }], b.undo_group_id ≤ r.max_undo_so_far := by
    intro r hr
    rcases List.mem_cons.1 hr with rfl | hr
    · exact hg1max1
    · rcases List.mem_singleton.1 hr with rfl
      exact hg1max2
  have hbwA2 : bwdStep false { num := (b.edit edits1 ty1).1.rev_counter, max_undo_so_far := Nat.max (b.edit edits1 ty1).1.undo_group_id (b.edit edits1 ty1).1.lastRev.max_undo_so_far, edit := Contents.edit (b.edit edits1 ty1).1.undo_group_id (editIns (editNewDfu b.text.length b.deletes_from_union (b.editOps edits1)) ((b.edit edits1 ty1).1.editOps edits2)) (subExpand (editDelOld (b.edit edits1 ty1).1.text.length (editNewDfu b.text.length b.deletes_from_union (b.editOps edits1)) ((b.edit edits1 ty1).1.editOps edits2)) (editIns (editNewDfu b.text.length b.deletes_from_union (b.editOps edits1)) ((b.edit edits1 ty1).1.editOps edits2))) }
      (((b.edit edits1 ty1).1.edit edits2 ty2).1.deletes_from_union, ((b.edit edits1 ty1).1.edit edits2 ty2).1.undone_groups)
      = (((editNewDfu b.text.length b.deletes_from_union (b.editOps edits1)) : List Bool), ((b.edit edits1 ty1).1.edit edits2 ty2).1.undone_groups) := by
    rw [bwdStep_edit,
      show ((b.edit edits1 ty1).1.edit edits2 ty2).1.undone_groups.contains (b.edit edits1 ty1).1.undo_group_id = false from by
        rw [hcundoneNil]
        rfl,
      if_neg (by simp), hcdf2]
    refine congrArg₂ Prod.mk ?_ rfl
    exact bwd_edit_rollback (editNewDfu b.text.length b.deletes_from_union (b.editOps edits1)) (factorDel (b.edit edits1 ty1).1.text.length 0 ((b.edit edits1 ty1).1.editOps edits2)) (editIns (editNewDfu b.text.length b.deletes_from_union (b.editOps edits1)) ((b.edit edits1 ty1).1.editOps edits2)) hfd2 hml21
  have hbwA1 : (bwdStep false (editRevOf b (b.editOps edits1))
      (((editNewDfu b.text.length b.deletes_from_union (b.editOps edits1)) : List Bool), ((b.edit edits1 ty1).1.edit edits2 ty2).1.undone_groups)).1 = b.deletes_from_union := by
    rw [bwdStep_edit,
      show ((b.edit edits1 ty1).1.edit edits2 ty2).1.undone_groups.contains b.undo_group_id = false from by
        rw [hcundoneNil]
        rfl,
      if_neg (by simp)]
    exact bwd_edit_rollback b.deletes_from_union (factorDel b.text.length 0 (b.editOps edits1)) (editIns b.deletes_from_union (b.editOps edits1)) hfd1 hml11
  have hfwA1 : fwdStep [b.undo_group_id] b.deletes_from_union (editRevOf b (b.editOps edits1)) = (editT b.deletes_from_union (b.editOps edits1)) := by
    rw [fwdStep_edit,
      show ([b.undo_group_id] : List Nat).contains b.undo_group_id = true from by simp,
      if_pos rfl]
    exact fwd_toggle_unify _ _ hml11.symm
  have hcontg2 : ([b.undo_group_id] : List Nat).contains (b.edit edits1 ty1).1.undo_group_id = false := by
    rw [hcgid1]
    simp
  have hfwA2 : fwdStep [b.undo_group_id] (editT b.deletes_from_union (b.editOps edits1)) { num := (b.edit edits1 ty1).1.rev_counter, max_undo_so_far := Nat.max (b.edit edits1 ty1).1.undo_group_id (b.edit edits1 ty1).1.lastRev.max_undo_so_far, edit := Contents.edit (b.edit edits1 ty1).1.undo_group_id (editIns (editNewDfu b.text.length b.deletes_from_union (b.editOps edits1)) ((b.edit edits1 ty1).1.editOps edits2)) (subExpand (editDelOld (b.edit edits1 ty1).1.text.length (editNewDfu b.text.length b.deletes_from_union (b.editOps edits1)) ((b.edit edits1 ty1).1.editOps edits2)) (editIns (editNewDfu b.text.length b.deletes_from_union (b.editOps edits1)) ((b.edit edits1 ty1).1.editOps edits2))) } = (subExpandWith false (subUnion (editT b.deletes_from_union (b.editOps edits1)) (editDelOld (b.edit edits1 ty1).1.text.length (editNewDfu b.text.length b.deletes_from_union (b.editOps edits1)) ((b.edit edits1 ty1).1.editOps edits2))) (editIns (editNewDfu b.text.length b.deletes_from_union (b.editOps edits1)) ((b.edit edits1 ty1).1.editOps edits2))) := by
    rw [fwdStep_edit, hcontg2, if_neg (by simp),
      fwd_if_unify _ _ _ hT1cf2
        (show (subExpand (editDelOld (b.edit edits1 ty1).1.text.length (editNewDfu b.text.length b.deletes_from_union (b.editOps edits1)) ((b.edit edits1 ty1).1.editOps edits2)) (editIns (editNewDfu b.text.length b.deletes_from_union (b.editOps edits1)) ((b.edit edits1 ty1).1.editOps edits2))).length = (editIns (editNewDfu b.text.length b.deletes_from_union (b.editOps edits1)) ((b.edit edits1 ty1).1.editOps edits2)).length from length_subExpandWith _ _ _)]
    exact subUnion_expand_expand (editT b.deletes_from_union (b.editOps edits1)) (editDelOld (b.edit edits1 ty1).1.text.length (editNewDfu b.text.length b.deletes_from_union (b.editOps edits1)) ((b.edit edits1 ty1).1.editOps edits2)) (editIns (editNewDfu b.text.length b.deletes_from_union (b.editOps edits1)) ((b.edit edits1 ty1).1.editOps edits2)) hT1cf2 hD2cf
  have hq2A : (((b.edit edits1 ty1).1.edit edits2 ty2).1.compute_undo [b.undo_group_id]).2 = (subExpandWith false (subUnion (editT b.deletes_from_union (b.editOps edits1)) (editDelOld (b.edit edits1 ty1).1.text.length (editNewDfu b.text.length b.deletes_from_union (b.editOps edits1)) ((b.edit edits1 ty1).1.editOps edits2))) (editIns (editNewDfu b.text.length b.deletes_from_union (b.editOps edits1)) ((b.edit edits1 ty1).1.editOps edits2))) := by
    rw [compute_undo_tail ((b.edit edits1 ty1).1.edit edits2 ty2).1 [b.undo_group_id] b.revs [(editRevOf b (b.editOps edits1)), { num := (b.edit edits1 ty1).1.rev_counter, max_undo_so_far := Nat.max (b.edit edits1 ty1).1.undo_group_id (b.edit edits1 ty1).1.lastRev.max_undo_so_far, edit := Contents.edit (b.edit edits1 ty1).1.undo_group_id (editIns (editNewDfu b.text.length b.deletes_from_union (b.editOps edits1)) ((b.edit edits1 ty1).1.editOps edits2)) (subExpand (editDelOld (b.edit edits1 ty1).1.text.length (editNewDfu b.text.length b.deletes_from_union (b.editOps edits1)) ((b.edit edits1 ty1).1.editOps edits2)) (editIns (editNewDfu b.text.length b.deletes_from_union (b.editOps edits1)) ((b.edit edits1 ty1).1.editOps edits2))) }] b.undo_group_id htogA hrevsA
      h1b.max_lt htailA]
    calc ([(editRevOf b (b.editOps edits1)), { num := (b.edit edits1 ty1).1.rev_counter, max_undo_so_far := Nat.max (b.edit edits1 ty1).1.undo_group_id (b.edit edits1 ty1).1.lastRev.max_undo_so_far, edit := Contents.edit (b.edit edits1 ty1).1.undo_group_id (editIns (editNewDfu b.text.length b.deletes_from_union (b.editOps edits1)) ((b.edit edits1 ty1).1.editOps edits2)) (subExpand (editDelOld (b.edit edits1 ty1).1.text.length (editNewDfu b.text.length b.deletes_from_union (b.editOps edits1)) ((b.edit edits1 ty1).1.editOps edits2)) (editIns (editNewDfu b.text.length b.deletes_from_union (b.editOps edits1)) ((b.edit edits1 ty1).1.editOps edits2))) }].foldl (fwdStep [b.undo_group_id])
          ([(editRevOf b (b.editOps edits1)), { num := (b.edit edits1 ty1).1.rev_counter, max_undo_so_far := Nat.max (b.edit edits1 ty1).1.undo_group_id (b.edit edits1 ty1).1.lastRev.max_undo_so_far, edit := Contents.edit (b.edit edits1 ty1).1.undo_group_id (editIns (editNewDfu b.text.length b.deletes_from_union (b.editOps edits1)) ((b.edit edits1 ty1).1.editOps edits2)) (subExpand (editDelOld (b.edit edits1 ty1).1.text.length (editNewDfu b.text.length b.deletes_from_union (b.editOps edits1)) ((b.edit edits1 ty1).1.editOps edits2)) (editIns (editNewDfu b.text.length b.deletes_from_union (b.editOps edits1)) ((b.edit edits1 ty1).1.editOps edits2))) }].foldr (bwdStep false)
            (((b.edit edits1 ty1).1.edit edits2 ty2).1.deletes_from_union, ((b.edit edits1 ty1).1.edit edits2 ty2).1.undone_groups)).1)
        = fwdStep [b.undo_group_id]
            (fwdStep [b.undo_group_id]
              (bwdStep false (editRevOf b (b.editOps edits1))
                (bwdStep false { num := (b.edit edits1 ty1).1.rev_counter, max_undo_so_far := Nat.max (b.edit edits1 ty1).1.undo_group_id (b.edit edits1 ty1).1.lastRev.max_undo_so_far, edit := Contents.edit (b.edit edits1 ty1).1.undo_group_id (editIns (editNewDfu b.text.length b.deletes_from_union (b.editOps edits1)) ((b.edit edits1 ty1).1.editOps edits2)) (subExpand (editDelOld (b.edit edits1 ty1).1.text.length (editNewDfu b.text.length b.deletes_from_union (b.editOps edits1)) ((b.edit edits1 ty1).1.editOps edits2)) (editIns (editNewDfu b.text.length b.deletes_from_union (b.editOps edits1)) ((b.edit edits1 ty1).1.editOps edits2))) }
                  (((b.edit edits1 ty1).1.edit edits2 ty2).1.deletes_from_union, ((b.edit edits1 ty1).1.edit edits2 ty2).1.undone_groups))).1
              (editRevOf b (b.editOps edits1))) { num := (b.edit edits1 ty1).1.rev_counter, max_undo_so_far := Nat.max (b.edit edits1 ty1).1.undo_group_id (b.edit edits1 ty1).1.lastRev.max_undo_so_far, edit := Contents.edit (b.edit edits1 ty1).1.undo_group_id (editIns (editNewDfu b.text.length b.deletes_from_union (b.editOps edits1)) ((b.edit edits1 ty1).1.editOps edits2)) (subExpand (editDelOld (b.edit edits1 ty1).1.text.length (editNewDfu b.text.length b.deletes_from_union (b.editOps edits1)) ((b.edit edits1 ty1).1.editOps edits2)) (editIns (editNewDfu b.text.length b.deletes_from_union (b.editOps edits1)) ((b.edit edits1 ty1).1.editOps edits2))) } := rfl
      _ = fwdStep [b.undo_group_id]
            (fwdStep [b.undo_group_id]
              (bwdStep false (editRevOf b (b.editOps edits1))
                (((editNewDfu b.text.length b.deletes_from_union (b.editOps edits1)) : List Bool), ((b.edit edits1 ty1).1.edit edits2 ty2).1.undone_groups)).1 (editRevOf b (b.editOps edits1))) { num := (b.edit edits1 ty1).1.rev_counter, max_undo_so_far := Nat.max (b.edit edits1 ty1).1.undo_group_id (b.edit edits1 ty1).1.lastRev.max_undo_so_far, edit := Contents.edit (b.edit edits1 ty1).1.undo_group_id (editIns (editNewDfu b.text.length b.deletes_from_union (b.editOps edits1)) ((b.edit edits1 ty1).1.editOps edits2)) (subExpand (editDelOld (b.edit edits1 ty1).1.text.length (editNewDfu b.text.length b.deletes_from_union (b.editOps edits1)) ((b.edit edits1 ty1).1.editOps edits2)) (editIns (editNewDfu b.text.length b.deletes_from_union (b.editOps edits1)) ((b.edit edits1 ty1).1.editOps edits2))) } := by
          rw [hbwA2]
      _ = fwdStep [b.undo_group_id] (fwdStep [b.undo_group_id] b.deletes_from_union (editRevOf b (b.editOps edits1))) { num := (b.edit edits1 ty1).1.rev_counter, max_undo_so_far := Nat.max (b.edit edits1 ty1).1.undo_group_id (b.edit edits1 ty1).1.lastRev.max_undo_so_far, edit := Contents.edit (b.edit edits1 ty1).1.undo_group_id (editIns (editNewDfu b.text.length b.deletes_from_union (b.editOps edits1)) ((b.edit edits1 ty1).1.editOps edits2)) (subExpand (editDelOld (b.edit edits1 ty1).1.text.length (editNewDfu b.text.length b.deletes_from_union (b.editOps edits1)) ((b.edit edits1 ty1).1.editOps edits2)) (editIns (editNewDfu b.text.length b.deletes_from_union (b.editOps edits1)) ((b.edit edits1 ty1).1.editOps edits2))) } := by rw [hbwA1]
      _ = fwdStep [b.undo_group_id] (editT b.deletes_from_union (b.editOps edits1)) { num := (b.edit edits1 ty1).1.rev_counter, max_undo_so_far := Nat.max (b.edit edits1 ty1).1.undo_group_id (b.edit edits1 ty1).1.lastRev.max_undo_so_far, edit := Contents.edit (b.edit edits1 ty1).1.undo_group_id (editIns (editNewDfu b.text.length b.deletes_from_union (b.editOps edits1)) ((b.edit edits1 ty1).1.editOps edits2)) (subExpand (editDelOld (b.edit edits1 ty1).1.text.length (editNewDfu b.text.length b.deletes_from_union (b.editOps edits1)) ((b.edit edits1 ty1).1.editOps edits2)) (editIns (editNewDfu b.text.length b.deletes_from_union (b.editOps edits1)) ((b.edit edits1 ty1).1.editOps edits2))) } := by rw [hfwA1]
      _ = (subExpandWith false (subUnion (editT b.deletes_from_union (b.editOps edits1)) (editDelOld (b.edit edits1 ty1).1.text.length (editNewDfu b.text.length b.deletes_from_union (b.editOps edits1)) ((b.edit edits1 ty1).1.editOps edits2))) (editIns (editNewDfu b.text.length b.deletes_from_union (b.editOps edits1)) ((b.edit edits1 ty1).1.editOps edits2))) := hfwA2
  obtain ⟨hu1, hu2, hu3, hu4, hu5, hu6, hu7, hu8, hu9, hu10, hu11, hu12⟩ :=
    undo_state ((b.edit edits1 ty1).1.edit edits2 ty2).1 [b.undo_group_id]
  have hc2t_len : ((b.edit edits1 ty1).1.edit edits2 ty2).1.text.length = (editNewDfu (b.edit edits1 ty1).1.text.length (editNewDfu b.text.length b.deletes_from_union (b.editOps edits1)) ((b.edit edits1 ty1).1.editOps edits2)).count false := by
    rw [hctx2, length_projVis _ _ hml23]
  have hc2b_len : ((b.edit edits1 ty1).1.edit edits2 ty2).1.tombstones.length = (editNewDfu (b.edit edits1 ty1).1.text.length (editNewDfu b.text.length b.deletes_from_union (b.editOps edits1)) ((b.edit edits1 ty1).1.editOps edits2)).count true := by
    rw [hctb2, length_projDel _ _ hml23]
  have hWlen : (subExpandWith false (subUnion (editT b.deletes_from_union (b.editOps edits1)) (editDelOld (b.edit edits1 ty1).1.text.length (editNewDfu b.text.length b.deletes_from_union (b.editOps edits1)) ((b.edit edits1 ty1).1.editOps edits2))) (editIns (editNewDfu b.text.length b.deletes_from_union (b.editOps edits1)) ((b.edit edits1 ty1).1.editOps edits2))).length = (editIns (editNewDfu b.text.length b.deletes_from_union (b.editOps edits1)) ((b.edit edits1 ty1).1.editOps edits2)).length := length_subExpandWith _ _ _
  have hM2W : (editNewDfu (b.edit edits1 ty1).1.text.length (editNewDfu b.text.length b.deletes_from_union (b.editOps edits1)) ((b.edit edits1 ty1).1.editOps edits2)).length = (subExpandWith false (subUnion (editT b.deletes_from_union (b.editOps edits1)) (editDelOld (b.edit edits1 ty1).1.text.length (editNewDfu b.text.length b.deletes_from_union (b.editOps edits1)) ((b.edit edits1 ty1).1.editOps edits2))) (editIns (editNewDfu b.text.length b.deletes_from_union (b.editOps edits1)) ((b.edit edits1 ty1).1.editOps edits2))).length := by
    rw [hWlen]
    exact hml22.symm
  have hintlA : interleave ((b.edit edits1 ty1).1.edit edits2 ty2).1.text ((b.edit edits1 ty1).1.edit edits2 ty2).1.tombstones (editNewDfu (b.edit edits1 ty1).1.text.length (editNewDfu b.text.length b.deletes_from_union (b.editOps edits1)) ((b.edit edits1 ty1).1.editOps edits2)) = (editUnion (editNewDfu b.text.length b.deletes_from_union (b.editOps edits1)) (interleave (b.edit edits1 ty1).1.text (b.edit edits1 ty1).1.tombstones (editNewDfu b.text.length b.deletes_from_union (b.editOps edits1))) ((b.edit edits1 ty1).1.editOps edits2)) := by
    rw [hctx2, hctb2]
    exact interleave_proj _ _ hml23
  have hu1text : ((((b.edit edits1 ty1).1.edit edits2 ty2).1.undo [b.undo_group_id]).1 : Buffer).text = projVis (editUnion (editNewDfu b.text.length b.deletes_from_union (b.editOps edits1)) (interleave (b.edit edits1 ty1).1.text (b.edit edits1 ty1).1.tombstones (editNewDfu b.text.length b.deletes_from_union (b.editOps edits1))) ((b.edit edits1 ty1).1.editOps edits2)) (subExpandWith false (subUnion (editT b.deletes_from_union (b.editOps edits1)) (editDelOld (b.edit edits1 ty1).1.text.length (editNewDfu b.text.length b.deletes_from_union (b.editOps edits1)) ((b.edit edits1 ty1).1.editOps edits2))) (editIns (editNewDfu b.text.length b.deletes_from_union (b.editOps edits1)) ((b.edit edits1 ty1).1.editOps edits2))) := by
    rw [hu1, hq2A, hcdf2,
      synthApply_eq_projVis _ _ _ _ hM2W hc2t_len hc2b_len, hintlA]
  have hu1tomb : ((((b.edit edits1 ty1).1.edit edits2 ty2).1.undo [b.undo_group_id]).1 : Buffer).tombstones = projDel (editUnion (editNewDfu b.text.length b.deletes_from_union (b.editOps edits1)) (interleave (b.edit edits1 ty1).1.text (b.edit edits1 ty1).1.tombstones (editNewDfu b.text.length b.deletes_from_union (b.editOps edits1))) ((b.edit edits1 ty1).1.editOps edits2)) (subExpandWith false (subUnion (editT b.deletes_from_union (b.editOps edits1)) (editDelOld (b.edit edits1 ty1).1.text.length (editNewDfu b.text.length b.deletes_from_union (b.editOps edits1)) ((b.edit edits1 ty1).1.editOps edits2))) (editIns (editNewDfu b.text.length b.deletes_from_union (b.editOps edits1)) ((b.edit edits1 ty1).1.editOps edits2))) := by
    rw [hu2, hq2A, hcdf2]
    have hs2 := (shuffle_proj ((b.edit edits1 ty1).1.edit edits2 ty2).1.text ((b.edit edits1 ty1).1.edit edits2 ty2).1.tombstones (editNewDfu (b.edit edits1 ty1).1.text.length (editNewDfu b.text.length b.deletes_from_union (b.editOps edits1)) ((b.edit edits1 ty1).1.editOps edits2)) (subExpandWith false (subUnion (editT b.deletes_from_union (b.editOps edits1)) (editDelOld (b.edit edits1 ty1).1.text.length (editNewDfu b.text.length b.deletes_from_union (b.editOps edits1)) ((b.edit edits1 ty1).1.editOps edits2))) (editIns (editNewDfu b.text.length b.deletes_from_union (b.editOps edits1)) ((b.edit edits1 ty1).1.editOps edits2)))
      hM2W hc2t_len hc2b_len).2
    rw [hintlA] at hs2
    exact hs2
  have hu1dfu : ((((b.edit edits1 ty1).1.edit edits2 ty2).1.undo [b.undo_group_id]).1 : Buffer).deletes_from_union = (subExpandWith false (subUnion (editT b.deletes_from_union (b.editOps edits1)) (editDelOld (b.edit edits1 ty1).1.text.length (editNewDfu b.text.length b.deletes_from_union (b.editOps edits1)) ((b.edit edits1 ty1).1.editOps edits2))) (editIns (editNewDfu b.text.length b.deletes_from_union (b.editOps edits1)) ((b.edit edits1 ty1).1.editOps edits2))) := hu3.trans hq2A
  have hu1undone : ((((b.edit edits1 ty1).1.edit edits2 ty2).1.undo [b.undo_group_id]).1 : Buffer).undone_groups = [b.undo_group_id] := hu6
  have hc2last : ((b.edit edits1 ty1).1.edit edits2 ty2).1.lastRev = { num := (b.edit edits1 ty1).1.rev_counter, max_undo_so_far := Nat.max (b.edit edits1 ty1).1.undo_group_id (b.edit edits1 ty1).1.lastRev.max_undo_so_far, edit := Contents.edit (b.edit edits1 ty1).1.undo_group_id (editIns (editNewDfu b.text.length b.deletes_from_union (b.editOps edits1)) ((b.edit edits1 ty1).1.editOps edits2)) (subExpand (editDelOld (b.edit edits1 ty1).1.text.length (editNewDfu b.text.length b.deletes_from_union (b.editOps edits1)) ((b.edit edits1 ty1).1.editOps edits2)) (editIns (editNewDfu b.text.length b.deletes_from_union (b.editOps edits1)) ((b.edit edits1 ty1).1.editOps edits2))) } := by
    rw [show ((b.edit edits1 ty1).1.edit edits2 ty2).1.lastRev = ((b.edit edits1 ty1).1.edit edits2 ty2).1.revs.getLastD sentinelRevision from rfl, hrevsA,
      show b.revs ++ [(editRevOf b (b.editOps edits1)), { num := (b.edit edits1 ty1).1.rev_counter, max_undo_so_far := Nat.max (b.edit edits1 ty1).1.undo_group_id (b.edit edits1 ty1).1.lastRev.max_undo_so_far, edit := Contents.edit (b.edit edits1 ty1).1.undo_group_id (editIns (editNewDfu b.text.length b.deletes_from_union (b.editOps edits1)) ((b.edit edits1 ty1).1.editOps edits2)) (subExpand (editDelOld (b.edit edits1 ty1).1.text.length (editNewDfu b.text.length b.deletes_from_union (b.editOps edits1)) ((b.edit edits1 ty1).1.editOps edits2)) (editIns (editNewDfu b.text.length b.deletes_from_union (b.editOps edits1)) ((b.edit edits1 ty1).1.editOps edits2))) }] = (b.revs ++ [(editRevOf b (b.editOps edits1))]) ++ [{ num := (b.edit edits1 ty1).1.rev_counter, max_undo_so_far := Nat.max (b.edit edits1 ty1).1.undo_group_id (b.edit edits1 ty1).1.lastRev.max_undo_so_far, edit := Contents.edit (b.edit edits1 ty1).1.undo_group_id (editIns (editNewDfu b.text.length b.deletes_from_union (b.editOps edits1)) ((b.edit edits1 ty1).1.editOps edits2)) (subExpand (editDelOld (b.edit edits1 ty1).1.text.length (editNewDfu b.text.length b.deletes_from_union (b.editOps edits1)) ((b.edit edits1 ty1).1.editOps edits2)) (editIns (editNewDfu b.text.length b.deletes_from_union (b.editOps edits1)) ((b.edit edits1 ty1).1.editOps edits2))) }] from
        (List.append_assoc b.revs [(editRevOf b (b.editOps edits1))] _).symm,
      List.getLastD_concat]
  have hu1revs : ((((b.edit edits1 ty1).1.edit edits2 ty2).1.undo [b.undo_group_id]).1 : Buffer).revs
      = b.revs ++ [(editRevOf b (b.editOps edits1)), { num := (b.edit edits1 ty1).1.rev_counter, max_undo_so_far := Nat.max (b.edit edits1 ty1).1.undo_group_id (b.edit edits1 ty1).1.lastRev.max_undo_so_far, edit := Contents.edit (b.edit edits1 ty1).1.undo_group_id (editIns (editNewDfu b.text.length b.deletes_from_union (b.editOps edits1)) ((b.edit edits1 ty1).1.editOps edits2)) (subExpand (editDelOld (b.edit edits1 ty1).1.text.length (editNewDfu b.text.length b.deletes_from_union (b.editOps edits1)) ((b.edit edits1 ty1).1.editOps edits2)) (editIns (editNewDfu b.text.length b.deletes_from_union (b.editOps edits1)) ((b.edit edits1 ty1).1.editOps edits2))) }, (((b.edit edits1 ty1).1.edit edits2 ty2).1.compute_undo [b.undo_group_id]).1] := by
    rw [hu4, hrevsA, List.append_assoc]
    rfl
  have htogB : setXor ((((b.edit edits1 ty1).1.edit edits2 ty2).1.undo [b.undo_group_id]).1 : Buffer).undone_groups [] = [b.undo_group_id] := by
    rw [hu1undone]
    exact setXor_nil_right _
  have hURmax : b.undo_group_id ≤ ((((b.edit edits1 ty1).1.edit edits2 ty2).1.compute_undo [b.undo_group_id]).1 : Revision).max_undo_so_far := by
    rw [compute_undo_max, hc2last]
    exact hg1max2
  have htailB : ∀ r ∈ [(editRevOf b (b.editOps edits1)), { num := (b.edit edits1 ty1).1.rev_counter, max_undo_so_far := Nat.max (b.edit edits1 ty1).1.undo_group_id (b.edit edits1 ty1).1.lastRev.max_undo_so_far, edit := Contents.edit (b.edit edits1 ty1).1.undo_group_id (editIns (editNewDfu b.text.length b.deletes_from_union (b.editOps edits1)) ((b.edit edits1 ty1).1.editOps edits2)) (subExpand (editDelOld (b.edit edits1 ty1).1.text.length (editNewDfu b.text.length b.deletes_from_union (b.editOps edits1)) ((b.edit edits1 ty1).1.editOps edits2)) (editIns (editNewDfu b.text.length b.deletes_from_union (b.editOps edits1)) ((b.edit edits1 ty1).1.editOps edits2))) }, (((b.edit edits1 ty1).1.edit edits2 ty2).1.compute_undo [b.undo_group_id]).1], b.undo_group_id ≤ r.max_undo_so_far := by
    intro r hr
    rcases List.mem_cons.1 hr with rfl | hr
    · exact hg1max1
    · rcases List.mem_cons.1 hr with rfl | hr
      · exact hg1max2
      · rcases List.mem_singleton.1 hr with rfl
        exact hURmax
  have hbwBur : bwdStep false (((b.edit edits1 ty1).1.edit edits2 ty2).1.compute_undo [b.undo_group_id]).1
      (((((b.edit edits1 ty1).1.edit edits2 ty2).1.undo [b.undo_group_id]).1 : Buffer).deletes_from_union, ((((b.edit edits1 ty1).1.edit edits2 ty2).1.undo [b.undo_group_id]).1 : Buffer).undone_groups)
      = (((((b.edit edits1 ty1).1.edit edits2 ty2).1.undo [b.undo_group_id]).1 : Buffer).deletes_from_union, ((((b.edit edits1 ty1).1.edit edits2 ty2).1.undo [b.undo_group_id]).1 : Buffer).undone_groups) :=
    bwdStep_undo_rev _ _ _
  have hbwB2 : bwdStep false { num := (b.edit edits1 ty1).1.rev_counter, max_undo_so_far := Nat.max (b.edit edits1 ty1).1.undo_group_id (b.edit edits1 ty1).1.lastRev.max_undo_so_far, edit := Contents.edit (b.edit edits1 ty1).1.undo_group_id (editIns (editNewDfu b.text.length b.deletes_from_union (b.editOps edits1)) ((b.edit edits1 ty1).1.editOps edits2)) (subExpand (editDelOld (b.edit edits1 ty1).1.text.length (editNewDfu b.text.length b.deletes_from_union (b.editOps edits1)) ((b.edit edits1 ty1).1.editOps edits2)) (editIns (editNewDfu b.text.length b.deletes_from_union (b.editOps edits1)) ((b.edit edits1 ty1).1.editOps edits2))) }
      (((((b.edit edits1 ty1).1.edit edits2 ty2).1.undo [b.undo_group_id]).1 : Buffer).deletes_from_union, ((((b.edit edits1 ty1).1.edit edits2 ty2).1.undo [b.undo_group_id]).1 : Buffer).undone_groups)
      = ((subSub (subUnion (editT b.deletes_from_union (b.editOps edits1)) (editDelOld (b.edit edits1 ty1).1.text.length (editNewDfu b.text.length b.deletes_from_union (b.editOps edits1)) ((b.edit edits1 ty1).1.editOps edits2))) (editDelOld (b.edit edits1 ty1).1.text.length (editNewDfu b.text.length b.deletes_from_union (b.editOps edits1)) ((b.edit edits1 ty1).1.editOps edits2)) : List Bool),
          ((((b.edit edits1 ty1).1.edit edits2 ty2).1.undo [b.undo_group_id]).1 : Buffer).undone_groups) := by
    rw [bwdStep_edit,
      show ((((b.edit edits1 ty1).1.edit edits2 ty2).1.undo [b.undo_group_id]).1 : Buffer).undone_groups.contains (b.edit edits1 ty1).1.undo_group_id = false from
        by
          rw [hu1undone]
          exact hcontg2,
      if_neg (by simp), hu1dfu]
    refine congrArg₂ Prod.mk ?_ rfl
    rw [show (subExpand (editDelOld (b.edit edits1 ty1).1.text.length (editNewDfu b.text.length b.deletes_from_union (b.editOps edits1)) ((b.edit edits1 ty1).1.editOps edits2)) (editIns (editNewDfu b.text.length b.deletes_from_union (b.editOps edits1)) ((b.edit edits1 ty1).1.editOps edits2))) = subExpandWith false (editDelOld (b.edit edits1 ty1).1.text.length (editNewDfu b.text.length b.deletes_from_union (b.editOps edits1)) ((b.edit edits1 ty1).1.editOps edits2)) (editIns (editNewDfu b.text.length b.deletes_from_union (b.editOps edits1)) ((b.edit edits1 ty1).1.editOps edits2)) from rfl]
    rw [subSub_expand_expand _ _ _
      (show (subUnion (editT b.deletes_from_union (b.editOps edits1)) (editDelOld (b.edit edits1 ty1).1.text.length (editNewDfu b.text.length b.deletes_from_union (b.editOps edits1)) ((b.edit edits1 ty1).1.editOps edits2))).length = (editIns (editNewDfu b.text.length b.deletes_from_union (b.editOps edits1)) ((b.edit edits1 ty1).1.editOps edits2)).count false from by
        rw [length_subUnion, hT1M1, hD2M1]
        exact (Nat.min_self _).trans hml21.symm)
      hD2cf]
    rw [subShrink_subExpandWith false (subSub (subUnion (editT b.deletes_from_union (b.editOps edits1)) (editDelOld (b.edit edits1 ty1).1.text.length (editNewDfu b.text.length b.deletes_from_union (b.editOps edits1)) ((b.edit edits1 ty1).1.editOps edits2))) (editDelOld (b.edit edits1 ty1).1.text.length (editNewDfu b.text.length b.deletes_from_union (b.editOps edits1)) ((b.edit edits1 ty1).1.editOps edits2))) (editIns (editNewDfu b.text.length b.deletes_from_union (b.editOps edits1)) ((b.edit edits1 ty1).1.editOps edits2))
      (show (subSub (subUnion (editT b.deletes_from_union (b.editOps edits1)) (editDelOld (b.edit edits1 ty1).1.text.length (editNewDfu b.text.length b.deletes_from_union (b.editOps edits1)) ((b.edit edits1 ty1).1.editOps edits2))) (editDelOld (b.edit edits1 ty1).1.text.length (editNewDfu b.text.length b.deletes_from_union (b.editOps edits1)) ((b.edit edits1 ty1).1.editOps edits2))).length = (editIns (editNewDfu b.text.length b.deletes_from_union (b.editOps edits1)) ((b.edit edits1 ty1).1.editOps edits2)).count false from by
        rw [length_subSub, length_subUnion, hT1M1, hD2M1]
        exact ((congrArg (fun x => Nat.min x _) (Nat.min_self _)).trans
          (Nat.min_self _)).trans hml21.symm)]
  have hD2NI1 : (editDelOld (b.edit edits1 ty1).1.text.length (editNewDfu b.text.length b.deletes_from_union (b.editOps edits1)) ((b.edit edits1 ty1).1.editOps edits2)).length = (editIns b.deletes_from_union (b.editOps edits1)).length := by
    rw [hD2M1]
    exact hml12.symm
  have hbwB1 : (bwdStep false (editRevOf b (b.editOps edits1))
      ((subSub (subUnion (editT b.deletes_from_union (b.editOps edits1)) (editDelOld (b.edit edits1 ty1).1.text.length (editNewDfu b.text.length b.deletes_from_union (b.editOps edits1)) ((b.edit edits1 ty1).1.editOps edits2))) (editDelOld (b.edit edits1 ty1).1.text.length (editNewDfu b.text.length b.deletes_from_union (b.editOps edits1)) ((b.edit edits1 ty1).1.editOps edits2)) : List Bool),
        ((((b.edit edits1 ty1).1.edit edits2 ty2).1.undo [b.undo_group_id]).1 : Buffer).undone_groups)).1 = b.deletes_from_union := by
    rw [bwdStep_edit,
      show ((((b.edit edits1 ty1).1.edit edits2 ty2).1.undo [b.undo_group_id]).1 : Buffer).undone_groups.contains b.undo_group_id = true from by
        rw [hu1undone]
        simp,
      if_pos rfl]
    show subShrink (subSub (subUnion (editT b.deletes_from_union (b.editOps edits1)) (editDelOld (b.edit edits1 ty1).1.text.length (editNewDfu b.text.length b.deletes_from_union (b.editOps edits1)) ((b.edit edits1 ty1).1.editOps edits2))) (editDelOld (b.edit edits1 ty1).1.text.length (editNewDfu b.text.length b.deletes_from_union (b.editOps edits1)) ((b.edit edits1 ty1).1.editOps edits2))) (editIns b.deletes_from_union (b.editOps edits1)) = b.deletes_from_union
    have hUnionLen : (subUnion (editT b.deletes_from_union (b.editOps edits1)) (editDelOld (b.edit edits1 ty1).1.text.length (editNewDfu b.text.length b.deletes_from_union (b.editOps edits1)) ((b.edit edits1 ty1).1.editOps edits2))).length = (editIns b.deletes_from_union (b.editOps edits1)).length := by
      rw [length_subUnion, hT1len, hD2NI1]
      exact Nat.min_self _
    rw [show subSub (subUnion (editT b.deletes_from_union (b.editOps edits1)) (editDelOld (b.edit edits1 ty1).1.text.length (editNewDfu b.text.length b.deletes_from_union (b.editOps edits1)) ((b.edit edits1 ty1).1.editOps edits2))) (editDelOld (b.edit edits1 ty1).1.text.length (editNewDfu b.text.length b.deletes_from_union (b.editOps edits1)) ((b.edit edits1 ty1).1.editOps edits2))
        = List.zipWith (fun x y => x && !y) (subUnion (editT b.deletes_from_union (b.editOps edits1)) (editDelOld (b.edit edits1 ty1).1.text.length (editNewDfu b.text.length b.deletes_from_union (b.editOps edits1)) ((b.edit edits1 ty1).1.editOps edits2))) (editDelOld (b.edit edits1 ty1).1.text.length (editNewDfu b.text.length b.deletes_from_union (b.editOps edits1)) ((b.edit edits1 ty1).1.editOps edits2)) from rfl,
      subShrink_zipWith _ _ _ _ hUnionLen hD2NI1,
      show subUnion (editT b.deletes_from_union (b.editOps edits1)) (editDelOld (b.edit edits1 ty1).1.text.length (editNewDfu b.text.length b.deletes_from_union (b.editOps edits1)) ((b.edit edits1 ty1).1.editOps edits2))
        = List.zipWith (fun x y => x || y) (editT b.deletes_from_union (b.editOps edits1)) (editDelOld (b.edit edits1 ty1).1.text.length (editNewDfu b.text.length b.deletes_from_union (b.editOps edits1)) ((b.edit edits1 ty1).1.editOps edits2)) from rfl,
      subShrink_zipWith _ _ _ _ hT1len hD2NI1,
      show subShrink (editT b.deletes_from_union (b.editOps edits1)) (editIns b.deletes_from_union (b.editOps edits1)) = b.deletes_from_union from
        subShrink_subExpandWith true _ _ hml11.symm]
    refine subSub_subUnion_of_disjoint b.deletes_from_union (subShrink (editDelOld (b.edit edits1 ty1).1.text.length (editNewDfu b.text.length b.deletes_from_union (b.editOps edits1)) ((b.edit edits1 ty1).1.editOps edits2)) (editIns b.deletes_from_union (b.editOps edits1))) ?_ ?_
    · rw [length_subShrink _ _ hD2NI1, hml11]
    · have hdisj0 : subIsEmpty
          (List.zipWith (fun x y => x && y) (editDelOld (b.edit edits1 ty1).1.text.length (editNewDfu b.text.length b.deletes_from_union (b.editOps edits1)) ((b.edit edits1 ty1).1.editOps edits2)) (editNewDfu b.text.length b.deletes_from_union (b.editOps edits1))) = true :=
        disjoint_expand (factorDel (b.edit edits1 ty1).1.text.length 0 ((b.edit edits1 ty1).1.editOps edits2)) (editNewDfu b.text.length b.deletes_from_union (b.editOps edits1))
      have hdisj1 := subIsEmpty_subShrink _ (editIns b.deletes_from_union (b.editOps edits1)) hdisj0
      rw [subShrink_zipWith _ _ _ _ hD2NI1
        (show (editNewDfu b.text.length b.deletes_from_union (b.editOps edits1)).length = (editIns b.deletes_from_union (b.editOps edits1)).length from hml12.symm)] at hdisj1
      rw [show subShrink (editNewDfu b.text.length b.deletes_from_union (b.editOps edits1)) (editIns b.deletes_from_union (b.editOps edits1)) = subUnion b.deletes_from_union (editDelOld b.text.length b.deletes_from_union (b.editOps edits1)) from
        subShrink_subExpandWith false _ _ (by
          rw [length_subUnion, hD1M0]
          exact (Nat.min_self _).trans hml11.symm)] at hdisj1
      rw [zipWith_and_comm] at hdisj1
      exact disjoint_of_union_disjoint b.deletes_from_union (editDelOld b.text.length b.deletes_from_union (b.editOps edits1)) (subShrink (editDelOld (b.edit edits1 ty1).1.text.length (editNewDfu b.text.length b.deletes_from_union (b.editOps edits1)) ((b.edit edits1 ty1).1.editOps edits2)) (editIns b.deletes_from_union (b.editOps edits1))) hD1M0.symm hdisj1
  have hfwB1 : fwdStep ([] : List Nat) b.deletes_from_union (editRevOf b (b.editOps edits1)) = (editNewDfu b.text.length b.deletes_from_union (b.editOps edits1)) := by
    rw [fwdStep_edit,
      show ([] : List Nat).contains b.undo_group_id = false from rfl,
      if_neg (by simp),
      fwd_if_unify _ _ _ hml11.symm
        (show (subExpand (editDelOld b.text.length b.deletes_from_union (b.editOps edits1)) (editIns b.deletes_from_union (b.editOps edits1))).length = (editIns b.deletes_from_union (b.editOps edits1)).length from length_subExpandWith _ _ _)]
    exact subUnion_expand_expand b.deletes_from_union (editDelOld b.text.length b.deletes_from_union (b.editOps edits1)) (editIns b.deletes_from_union (b.editOps edits1)) hml11.symm hD1cf
  have hfwB2 : fwdStep ([] : List Nat) (editNewDfu b.text.length b.deletes_from_union (b.editOps edits1)) { num := (b.edit edits1 ty1).1.rev_counter, max_undo_so_far := Nat.max (b.edit edits1 ty1).1.undo_group_id (b.edit edits1 ty1).1.lastRev.max_undo_so_far, edit := Contents.edit (b.edit edits1 ty1).1.undo_group_id (editIns (editNewDfu b.text.length b.deletes_from_union (b.editOps edits1)) ((b.edit edits1 ty1).1.editOps edits2)) (subExpand (editDelOld (b.edit edits1 ty1).1.text.length (editNewDfu b.text.length b.deletes_from_union (b.editOps edits1)) ((b.edit edits1 ty1).1.editOps edits2)) (editIns (editNewDfu b.text.length b.deletes_from_union (b.editOps edits1)) ((b.edit edits1 ty1).1.editOps edits2))) } = (editNewDfu (b.edit edits1 ty1).1.text.length (editNewDfu b.text.length b.deletes_from_union (b.editOps edits1)) ((b.edit edits1 ty1).1.editOps edits2)) := by
    rw [fwdStep_edit,
      show ([] : List Nat).contains (b.edit edits1 ty1).1.undo_group_id = false from rfl,
      if_neg (by simp),
      fwd_if_unify _ _ _ hml21.symm
        (show (subExpand (editDelOld (b.edit edits1 ty1).1.text.length (editNewDfu b.text.length b.deletes_from_union (b.editOps edits1)) ((b.edit edits1 ty1).1.editOps edits2)) (editIns (editNewDfu b.text.length b.deletes_from_union (b.editOps edits1)) ((b.edit edits1 ty1).1.editOps edits2))).length = (editIns (editNewDfu b.text.length b.deletes_from_union (b.editOps edits1)) ((b.edit edits1 ty1).1.editOps edits2)).length from length_subExpandWith _ _ _)]
    exact subUnion_expand_expand (editNewDfu b.text.length b.deletes_from_union (b.editOps edits1)) (editDelOld (b.edit edits1 ty1).1.text.length (editNewDfu b.text.length b.deletes_from_union (b.editOps edits1)) ((b.edit edits1 ty1).1.editOps edits2)) (editIns (editNewDfu b.text.length b.deletes_from_union (b.editOps edits1)) ((b.edit edits1 ty1).1.editOps edits2)) hml21.symm hD2cf
  have hq2B : (((((b.edit edits1 ty1).1.edit edits2 ty2).1.undo [b.undo_group_id]).1 : Buffer).compute_undo []).2 = (editNewDfu (b.edit edits1 ty1).1.text.length (editNewDfu b.text.length b.deletes_from_union (b.editOps edits1)) ((b.edit edits1 ty1).1.editOps edits2)) := by
    rw [compute_undo_tail (((b.edit edits1 ty1).1.edit edits2 ty2).1.undo [b.undo_group_id]).1 [] b.revs [(editRevOf b (b.editOps edits1)), { num := (b.edit edits1 ty1).1.rev_counter, max_undo_so_far := Nat.max (b.edit edits1 ty1).1.undo_group_id (b.edit edits1 ty1).1.lastRev.max_undo_so_far, edit := Contents.edit (b.edit edits1 ty1).1.undo_group_id (editIns (editNewDfu b.text.length b.deletes_from_union (b.editOps edits1)) ((b.edit edits1 ty1).1.editOps edits2)) (subExpand (editDelOld (b.edit edits1 ty1).1.text.length (editNewDfu b.text.length b.deletes_from_union (b.editOps edits1)) ((b.edit edits1 ty1).1.editOps edits2)) (editIns (editNewDfu b.text.length b.deletes_from_union (b.editOps edits1)) ((b.edit edits1 ty1).1.editOps edits2))) }, (((b.edit edits1 ty1).1.edit edits2 ty2).1.compute_undo [b.undo_group_id]).1] b.undo_group_id htogB
      hu1revs h1b.max_lt htailB]
    calc ([(editRevOf b (b.editOps edits1)), { num := (b.edit edits1 ty1).1.rev_counter, max_undo_so_far := Nat.max (b.edit edits1 ty1).1.undo_group_id (b.edit edits1 ty1).1.lastRev.max_undo_so_far, edit := Contents.edit (b.edit edits1 ty1).1.undo_group_id (editIns (editNewDfu b.text.length b.deletes_from_union (b.editOps edits1)) ((b.edit edits1 ty1).1.editOps edits2)) (subExpand (editDelOld (b.edit edits1 ty1).1.text.length (editNewDfu b.text.length b.deletes_from_union (b.editOps edits1)) ((b.edit edits1 ty1).1.editOps edits2)) (editIns (editNewDfu b.text.length b.deletes_from_union (b.editOps edits1)) ((b.edit edits1 ty1).1.editOps edits2))) }, (((b.edit edits1 ty1).1.edit edits2 ty2).1.compute_undo [b.undo_group_id]).1].foldl (fwdStep ([] : List Nat))
          ([(editRevOf b (b.editOps edits1)), { num := (b.edit edits1 ty1).1.rev_counter, max_undo_so_far := Nat.max (b.edit edits1 ty1).1.undo_group_id (b.edit edits1 ty1).1.lastRev.max_undo_so_far, edit := Contents.edit (b.edit edits1 ty1).1.undo_group_id (editIns (editNewDfu b.text.length b.deletes_from_union (b.editOps edits1)) ((b.edit edits1 ty1).1.editOps edits2)) (subExpand (editDelOld (b.edit edits1 ty1).1.text.length (editNewDfu b.text.length b.deletes_from_union (b.editOps edits1)) ((b.edit edits1 ty1).1.editOps edits2)) (editIns (editNewDfu b.text.length b.deletes_from_union (b.editOps edits1)) ((b.edit edits1 ty1).1.editOps edits2))) }, (((b.edit edits1 ty1).1.edit edits2 ty2).1.compute_undo [b.undo_group_id]).1].foldr (bwdStep false)
            (((((b.edit edits1 ty1).1.edit edits2 ty2).1.undo [b.undo_group_id]).1 : Buffer).deletes_from_union,
              ((((b.edit edits1 ty1).1.edit edits2 ty2).1.undo [b.undo_group_id]).1 : Buffer).undone_groups)).1)
        = fwdStep []
            (fwdStep []
              (fwdStep []
                (bwdStep false (editRevOf b (b.editOps edits1))
                  (bwdStep false { num := (b.edit edits1 ty1).1.rev_counter, max_undo_so_far := Nat.max (b.edit edits1 ty1).1.undo_group_id (b.edit edits1 ty1).1.lastRev.max_undo_so_far, edit := Contents.edit (b.edit edits1 ty1).1.undo_group_id (editIns (editNewDfu b.text.length b.deletes_from_union (b.editOps edits1)) ((b.edit edits1 ty1).1.editOps edits2)) (subExpand (editDelOld (b.edit edits1 ty1).1.text.length (editNewDfu b.text.length b.deletes_from_union (b.editOps edits1)) ((b.edit edits1 ty1).1.editOps edits2)) (editIns (editNewDfu b.text.length b.deletes_from_union (b.editOps edits1)) ((b.edit edits1 ty1).1.editOps edits2))) }
                    (bwdStep false (((b.edit edits1 ty1).1.edit edits2 ty2).1.compute_undo [b.undo_group_id]).1
                      (((((b.edit edits1 ty1).1.edit edits2 ty2).1.undo [b.undo_group_id]).1 : Buffer).deletes_from_union,
                        ((((b.edit edits1 ty1).1.edit edits2 ty2).1.undo [b.undo_group_id]).1 : Buffer).undone_groups)))).1
                (editRevOf b (b.editOps edits1))) { num := (b.edit edits1 ty1).1.rev_counter, max_undo_so_far := Nat.max (b.edit edits1 ty1).1.undo_group_id (b.edit edits1 ty1).1.lastRev.max_undo_so_far, edit := Contents.edit (b.edit edits1 ty1).1.undo_group_id (editIns (editNewDfu b.text.length b.deletes_from_union (b.editOps edits1)) ((b.edit edits1 ty1).1.editOps edits2)) (subExpand (editDelOld (b.edit edits1 ty1).1.text.length (editNewDfu b.text.length b.deletes_from_union (b.editOps edits1)) ((b.edit edits1 ty1).1.editOps edits2)) (editIns (editNewDfu b.text.length b.deletes_from_union (b.editOps edits1)) ((b.edit edits1 ty1).1.editOps edits2))) }) (((b.edit edits1 ty1).1.edit edits2 ty2).1.compute_undo [b.undo_group_id]).1 := rfl
      _ = fwdStep []
            (fwdStep []
              (fwdStep []
                (bwdStep false (editRevOf b (b.editOps edits1))
                  (bwdStep false { num := (b.edit edits1 ty1).1.rev_counter, max_undo_so_far := Nat.max (b.edit edits1 ty1).1.undo_group_id (b.edit edits1 ty1).1.lastRev.max_undo_so_far, edit := Contents.edit (b.edit edits1 ty1).1.undo_group_id (editIns (editNewDfu b.text.length b.deletes_from_union (b.editOps edits1)) ((b.edit edits1 ty1).1.editOps edits2)) (subExpand (editDelOld (b.edit edits1 ty1).1.text.length (editNewDfu b.text.length b.deletes_from_union (b.editOps edits1)) ((b.edit edits1 ty1).1.editOps edits2)) (editIns (editNewDfu b.text.length b.deletes_from_union (b.editOps edits1)) ((b.edit edits1 ty1).1.editOps edits2))) }
                    (((((b.edit edits1 ty1).1.edit edits2 ty2).1.undo [b.undo_group_id]).1 : Buffer).deletes_from_union,
                      ((((b.edit edits1 ty1).1.edit edits2 ty2).1.undo [b.undo_group_id]).1 : Buffer).undone_groups))).1
                (editRevOf b (b.editOps edits1))) { num := (b.edit edits1 ty1).1.rev_counter, max_undo_so_far := Nat.max (b.edit edits1 ty1).1.undo_group_id (b.edit edits1 ty1).1.lastRev.max_undo_so_far, edit := Contents.edit (b.edit edits1 ty1).1.undo_group_id (editIns (editNewDfu b.text.length b.deletes_from_union (b.editOps edits1)) ((b.edit edits1 ty1).1.editOps edits2)) (subExpand (editDelOld (b.edit edits1 ty1).1.text.length (editNewDfu b.text.length b.deletes_from_union (b.editOps edits1)) ((b.edit edits1 ty1).1.editOps edits2)) (editIns (editNewDfu b.text.length b.deletes_from_union (b.editOps edits1)) ((b.edit edits1 ty1).1.editOps edits2))) }) (((b.edit edits1 ty1).1.edit edits2 ty2).1.compute_undo [b.undo_group_id]).1 := by rw [hbwBur]
      _ = fwdStep []
            (fwdStep []
              (fwdStep []
                (bwdStep false (editRevOf b (b.editOps edits1))
                  ((subSub (subUnion (editT b.deletes_from_union (b.editOps edits1)) (editDelOld (b.edit edits1 ty1).1.text.length (editNewDfu b.text.length b.deletes_from_union (b.editOps edits1)) ((b.edit edits1 ty1).1.editOps edits2))) (editDelOld (b.edit edits1 ty1).1.text.length (editNewDfu b.text.length b.deletes_from_union (b.editOps edits1)) ((b.edit edits1 ty1).1.editOps edits2)) : List Bool),
                    ((((b.edit edits1 ty1).1.edit edits2 ty2).1.undo [b.undo_group_id]).1 : Buffer).undone_groups)).1
                (editRevOf b (b.editOps edits1))) { num := (b.edit edits1 ty1).1.rev_counter, max_undo_so_far := Nat.max (b.edit edits1 ty1).1.undo_group_id (b.edit edits1 ty1).1.lastRev.max_undo_so_far, edit := Contents.edit (b.edit edits1 ty1).1.undo_group_id (editIns (editNewDfu b.text.length b.deletes_from_union (b.editOps edits1)) ((b.edit edits1 ty1).1.editOps edits2)) (subExpand (editDelOld (b.edit edits1 ty1).1.text.length (editNewDfu b.text.length b.deletes_from_union (b.editOps edits1)) ((b.edit edits1 ty1).1.editOps edits2)) (editIns (editNewDfu b.text.length b.deletes_from_union (b.editOps edits1)) ((b.edit edits1 ty1).1.editOps edits2))) }) (((b.edit edits1 ty1).1.edit edits2 ty2).1.compute_undo [b.undo_group_id]).1 := by rw [hbwB2]
      _ = fwdStep [] (fwdStep [] (fwdStep [] b.deletes_from_union (editRevOf b (b.editOps edits1))) { num := (b.edit edits1 ty1).1.rev_counter, max_undo_so_far := Nat.max (b.edit edits1 ty1).1.undo_group_id (b.edit edits1 ty1).1.lastRev.max_undo_so_far, edit := Contents.edit (b.edit edits1 ty1).1.undo_group_id (editIns (editNewDfu b.text.length b.deletes_from_union (b.editOps edits1)) ((b.edit edits1 ty1).1.editOps edits2)) (subExpand (editDelOld (b.edit edits1 ty1).1.text.length (editNewDfu b.text.length b.deletes_from_union (b.editOps edits1)) ((b.edit edits1 ty1).1.editOps edits2)) (editIns (editNewDfu b.text.length b.deletes_from_union (b.editOps edits1)) ((b.edit edits1 ty1).1.editOps edits2))) }) (((b.edit edits1 ty1).1.edit edits2 ty2).1.compute_undo [b.undo_group_id]).1 := by
          rw [hbwB1]
      _ = fwdStep [] (fwdStep [] (editNewDfu b.text.length b.deletes_from_union (b.editOps edits1)) { num := (b.edit edits1 ty1).1.rev_counter, max_undo_so_far := Nat.max (b.edit edits1 ty1).1.undo_group_id (b.edit edits1 ty1).1.lastRev.max_undo_so_far, edit := Contents.edit (b.edit edits1 ty1).1.undo_group_id (editIns (editNewDfu b.text.length b.deletes_from_union (b.editOps edits1)) ((b.edit edits1 ty1).1.editOps edits2)) (subExpand (editDelOld (b.edit edits1 ty1).1.text.length (editNewDfu b.text.length b.deletes_from_union (b.editOps edits1)) ((b.edit edits1 ty1).1.editOps edits2)) (editIns (editNewDfu b.text.length b.deletes_from_union (b.editOps edits1)) ((b.edit edits1 ty1).1.editOps edits2))) }) (((b.edit edits1 ty1).1.edit edits2 ty2).1.compute_undo [b.undo_group_id]).1 := by rw [hfwB1]
      _ = fwdStep [] (editNewDfu (b.edit edits1 ty1).1.text.length (editNewDfu b.text.length b.deletes_from_union (b.editOps edits1)) ((b.edit edits1 ty1).1.editOps edits2)) (((b.edit edits1 ty1).1.edit edits2 ty2).1.compute_undo [b.undo_group_id]).1 := by rw [hfwB2]
      _ = (editNewDfu (b.edit edits1 ty1).1.text.length (editNewDfu b.text.length b.deletes_from_union (b.editOps edits1)) ((b.edit edits1 ty1).1.editOps edits2)) := fwdStep_undo_rev _ _ _ _
  obtain ⟨hw1, hw2, hw3, hw4, hw5, hw6, hw7, hw8, hw9, hw10, hw11, hw12⟩ :=
    undo_state (((b.edit edits1 ty1).1.edit edits2 ty2).1.undo [b.undo_group_id]).1 []
  have hWU2 : (editUnion (editNewDfu b.text.length b.deletes_from_union (b.editOps edits1)) (interleave (b.edit edits1 ty1).1.text (b.edit edits1 ty1).1.tombstones (editNewDfu b.text.length b.deletes_from_union (b.editOps edits1))) ((b.edit edits1 ty1).1.editOps edits2)).length = (subExpandWith false (subUnion (editT b.deletes_from_union (b.editOps edits1)) (editDelOld (b.edit edits1 ty1).1.text.length (editNewDfu b.text.length b.deletes_from_union (b.editOps edits1)) ((b.edit edits1 ty1).1.editOps edits2))) (editIns (editNewDfu b.text.length b.deletes_from_union (b.editOps edits1)) ((b.edit edits1 ty1).1.editOps edits2))).length := hml23.trans hM2W
  have hu1t_len : ((((b.edit edits1 ty1).1.edit edits2 ty2).1.undo [b.undo_group_id]).1 : Buffer).text.length = (subExpandWith false (subUnion (editT b.deletes_from_union (b.editOps edits1)) (editDelOld (b.edit edits1 ty1).1.text.length (editNewDfu b.text.length b.deletes_from_union (b.editOps edits1)) ((b.edit edits1 ty1).1.editOps edits2))) (editIns (editNewDfu b.text.length b.deletes_from_union (b.editOps edits1)) ((b.edit edits1 ty1).1.editOps edits2))).count false := by
    rw [hu1text, length_projVis _ _ hWU2]
  have hu1b_len : ((((b.edit edits1 ty1).1.edit edits2 ty2).1.undo [b.undo_group_id]).1 : Buffer).tombstones.length = (subExpandWith false (subUnion (editT b.deletes_from_union (b.editOps edits1)) (editDelOld (b.edit edits1 ty1).1.text.length (editNewDfu b.text.length b.deletes_from_union (b.editOps edits1)) ((b.edit edits1 ty1).1.editOps edits2))) (editIns (editNewDfu b.text.length b.deletes_from_union (b.editOps edits1)) ((b.edit edits1 ty1).1.editOps edits2))).count true := by
    rw [hu1tomb, length_projDel _ _ hWU2]
  have hintlB : interleave ((((b.edit edits1 ty1).1.edit edits2 ty2).1.undo [b.undo_group_id]).1 : Buffer).text ((((b.edit edits1 ty1).1.edit edits2 ty2).1.undo [b.undo_group_id]).1 : Buffer).tombstones (subExpandWith false (subUnion (editT b.deletes_from_union (b.editOps edits1)) (editDelOld (b.edit edits1 ty1).1.text.length (editNewDfu b.text.length b.deletes_from_union (b.editOps edits1)) ((b.edit edits1 ty1).1.editOps edits2))) (editIns (editNewDfu b.text.length b.deletes_from_union (b.editOps edits1)) ((b.edit edits1 ty1).1.editOps edits2)))
      = (editUnion (editNewDfu b.text.length b.deletes_from_union (b.editOps edits1)) (interleave (b.edit edits1 ty1).1.text (b.edit edits1 ty1).1.tombstones (editNewDfu b.text.length b.deletes_from_union (b.editOps edits1))) ((b.edit edits1 ty1).1.editOps edits2)) := by
    rw [hu1text, hu1tomb]
    exact interleave_proj _ _ hWU2
  rw [hw1, hq2B, hu1dfu,
    synthApply_eq_projVis _ _ _ _ hM2W.symm hu1t_len hu1b_len, hintlB]
  exact hctx2.symm

/-- C3: from any reachable buffer with no groups currently undone, apply a
group-breaking edit (group `G1 = undo_group_id`), then a second
group-breaking edit (group `G2`, applied after `G1`).  Undoing `G1` alone
via `undo {G1}` — with `G2` left applied — and then redoing it via
`undo {}` yields text byte-for-byte identical to the text before `G1` was
undone: toggling the older group while the newer group remains live does
not corrupt the newer group's content. -/
theorem c3_selective_undo_commutes (b : Buffer) (hb : Reach b)
    (hU : b.undone_groups = [])
    (edits1 edits2 : List (List (Nat × Nat) × List Char)) (ty1 ty2 : EditType)
    (hWF1 : WFfrom 0 b.text.length (b.editOps edits1))
    (hbrk1 : ty1.breaks_undo_group b.last_edit_type = true)
    (hWF2 : WFfrom 0 (b.edit edits1 ty1).1.text.length
      ((b.edit edits1 ty1).1.editOps edits2))
    (hbrk2 : ty2.breaks_undo_group (b.edit edits1 ty1).1.last_edit_type = true) :
    ((((b.edit edits1 ty1).1.edit edits2 ty2).1.undo [b.undo_group_id]).1.undo
        []).1.text
      = ((b.edit edits1 ty1).1.edit edits2 ty2).1.text := by
  have hre1 : Reach (b.edit edits1 ty1).1 := Reach.edit b edits1 ty1 hb hWF1
  exact selective_undo_roundtrip b (reach_inv1 b hb) (reach_inv2 b hb) hU
    edits1 edits2 ty1 ty2 hWF1 hbrk1 (reach_inv1 _ hre1) (reach_inv2 _ hre1)
    hWF2 hbrk2

theorem c3_selective_undo_commutes_witness :
    (((((Buffer.new ['a', 'b', 'c', 'd', 'e', 'f', 'g', 'h', 'i', 'j']).edit [([(0, 0)], ['X'])] EditType.Other).1.edit
          [([(10, 10)], ['Y'])] EditType.Other).1.undo
        [(Buffer.new ['a', 'b', 'c', 'd', 'e', 'f', 'g', 'h', 'i', 'j']).undo_group_id]).1.undo []).1.text
      = (((Buffer.new ['a', 'b', 'c', 'd', 'e', 'f', 'g', 'h', 'i', 'j']).edit [([(0, 0)], ['X'])] EditType.Other).1.edit
          [([(10, 10)], ['Y'])] EditType.Other).1.text :=
  c3_selective_undo_commutes (Buffer.new ['a', 'b', 'c', 'd', 'e', 'f', 'g', 'h', 'i', 'j']) (Reach.new ['a', 'b', 'c', 'd', 'e', 'f', 'g', 'h', 'i', 'j']) (by decide)
    [([(0, 0)], ['X'])] [([(10, 10)], ['Y'])] EditType.Other EditType.Other
    (by decide) (by decide) (by decide) (by decide)
